import Mathlib

/-!
# afl-sync: replication of AFL sync directories across Kubernetes pods

A shallow embedding of `afl-sync/main.go`.  The Go program talks to the pods
through one blocking primitive, `exec`; everything it does is a sequence of
`exec` calls, prints and one sleep.  The embedding makes that sequence explicit:
a program takes the state of the remote side and returns the new state, the
trace of events it produced and either a value or the message of the panic that
ended it.  The remote side is a parameter: what a command does in a pod, and
whether its stream ends normally, is not decided by the program.

The file has the embedding of the source first, then the vocabulary in which the
properties are stated (operations, target sets, roles, a model of the files in the
pods), then the theorems.
-/

namespace AflSync

/-! ## Constants (main.go, lines 18-23) -/

def AflSyncDirectory : String := "sync/"
def K8sDefaultNamespace : String := "kubefuzz"
def K8sLabelSelector : String := "app=kubefuzz"
def K8sMasterPodPrefix : String := "afl-master"
def K8sWorkerPodPrefix : String := "afl-worker"
/-- Grace period before the status report, in seconds. -/
def WaitUntilValidate : Nat := 5

/-! ## Data -/

/-- Contents of a `bytes.Buffer`: a sequence of byte values. -/
abbrev Bytes := List Nat

/-- The fields of `corev1.Pod` the program reads: `pod.Name`, `pod.Namespace` and
the names of `pod.Spec.Containers`. -/
structure Pod where
  Name : String
  Namespace : String
  Containers : List String
deriving DecidableEq

/-- One remote execution request, as `exec` builds it: the pod addressed, the
container parameter, the command and the bytes fed to standard input (`none` for
a nil reader). -/
structure Call where
  pod : Pod
  container : String
  command : List String
  stdin : Option Bytes
deriving DecidableEq

/-- What the program does that is visible from outside: a remote execution, a
print of text the program formats itself, a write of captured bytes to standard
output as they are, a sleep. -/
inductive Event where
  | exec (c : Call)
  | print (s : String)
  | write (b : Bytes)
  | sleep (seconds : Nat)
deriving DecidableEq

/-- How `Stream` ends: with an error (`err != nil`, after which `exec` panics), or
normally with the captured standard output and standard error. -/
inductive Outcome where
  | failed (stderr : String) (err : String)
  | completed (stdout : Bytes) (stderr : String)
deriving DecidableEq

/-- The standard output of a stream that ended normally (empty otherwise). -/
def Outcome.stdout : Outcome → Bytes
  | Outcome.completed out _ => out
  | Outcome.failed _ _ => []

/-- The remote side, seen through `client`: `connect` is the outcome of building
the request (`AddToScheme`, `NewSPDYExecutor`: `some err` when one of them
fails), `stream` runs the command in the pod and may change the remote state. -/
structure Remote (σ : Type) where
  connect : Call → Option String
  stream : σ → Call → σ × Outcome

/-- The result of running a program: final remote state, events in the order they
happened, and the returned value or the panic message. -/
structure Run (σ α : Type) where
  world : σ
  trace : List Event
  result : Except String α

/-- The `exec` calls of a trace, in order. -/
def callsOf : List Event → List Call
  | [] => []
  | Event.exec c :: es => c :: callsOf es
  | _ :: es => callsOf es

/-- The texts printed by the program itself, in order. -/
def printsOf : List Event → List String
  | [] => []
  | Event.print s :: es => s :: printsOf es
  | _ :: es => printsOf es

def Run.calls {σ α : Type} (r : Run σ α) : List Call := callsOf r.trace

def Run.out {σ α : Type} (r : Run σ α) : List String := printsOf r.trace

/-- Whether the program ran to its end (no panic). -/
def Run.finished {σ α : Type} (r : Run σ α) : Bool :=
  match r.result with
  | .ok _ => true
  | .error _ => false

/-- A program over the remote state `σ`. -/
def Prog (σ α : Type) : Type := σ → Run σ α

def Prog.pure {σ α : Type} (a : α) : Prog σ α := fun w => ⟨w, [], .ok a⟩

/-- Sequencing: a panic in the first part ends the program. -/
def Prog.bind {σ α β : Type} (m : Prog σ α) (f : α → Prog σ β) : Prog σ β := fun w =>
  match m w with
  | ⟨w₁, t₁, .error e⟩ => ⟨w₁, t₁, .error e⟩
  | ⟨w₁, t₁, .ok a⟩ =>
    match f a w₁ with
    | ⟨w₂, t₂, r⟩ => ⟨w₂, t₁ ++ t₂, r⟩

instance {σ : Type} : Monad (Prog σ) where
  pure := Prog.pure
  bind := Prog.bind

/-- Go's `panic(msg)`. -/
def goPanic {σ α : Type} (msg : String) : Prog σ α := fun w => ⟨w, [], .error msg⟩

/-- Go's `fmt.Printf` / `fmt.Println` with the formatted text. -/
def say {σ : Type} (s : String) : Prog σ Unit := fun w => ⟨w, [Event.print s], .ok ()⟩

/-- Go's `fmt.Printf("%s\n", buf.String())` for a captured buffer: the bytes of the
buffer go to standard output unchanged, followed by a newline (byte 10). -/
def sayBuffer {σ : Type} (b : Bytes) : Prog σ Unit := fun w => ⟨w, [Event.write (b ++ [10])], .ok ()⟩

/-- Go's `time.Sleep`. -/
def sleepFor {σ : Type} (seconds : Nat) : Prog σ Unit := fun w => ⟨w, [Event.sleep seconds], .ok ()⟩

/-- Go's `for _, x := range xs { body }`; `continue` is the body returning early. -/
def forEach {σ α : Type} : List α → (α → Prog σ Unit) → Prog σ Unit
  | [], _ => pure ()
  | x :: xs, body => do
    body x
    forEach xs body

/-- Go's `strings.HasPrefix(s, p)`. -/
def HasPrefix (s p : String) : Bool := p.data.isPrefixOf s.data

/-! ## exec (main.go, lines 190-239) -/

/-- Execute a command in a pod.  Panics when the pod has no container
(`pod.Spec.Containers[0]`), when the request cannot be built, and when `Stream`
returns an error; otherwise returns standard output and standard error. -/
def exec {σ : Type} (client : Remote σ) (pod : Pod) (command : List String)
    (stdin : Option Bytes) : Prog σ (Bytes × String) :=
  match pod.Containers with
  | [] => goPanic "runtime error: index out of range [0] with length 0"
  | podContainerName :: _ =>
    let call : Call := ⟨pod, podContainerName, command, stdin⟩
    match client.connect call with
    | some err => goPanic err
    | none => fun w =>
      match client.stream w call with
      | (w₁, .failed stderr err) =>
        ⟨w₁, [Event.exec call, Event.print ("exec stderr: " ++ stderr ++ "\n")], .error err⟩
      | (w₁, .completed stdout stderr) => ⟨w₁, [Event.exec call], .ok (stdout, stderr)⟩

/-! ## sync (main.go, lines 68-103) -/

/-- The command of line 75. -/
def cmdArchive (name : String) : String :=
  "cp -r -T " ++ AflSyncDirectory ++ name ++ "/ " ++ name ++ "/ && tar -czf " ++ name ++
    ".tar.gz " ++ name ++ "/ && cat " ++ name ++ ".tar.gz"

/-- The command of line 96. -/
def cmdCleanup (name : String) : String :=
  "rm -rf " ++ name ++ "/ && rm " ++ name ++ ".tar.gz"

def archiveArgv (name : String) : List String := ["sh", "-c", cmdArchive name]

def extractArgv : List String :=
  ["tar", "--skip-old-files", "-xzf", "/dev/stdin", "--directory", AflSyncDirectory]

def cleanupArgv (name : String) : List String := ["sh", "-c", cmdCleanup name]

/-- Body of the inner loop of `sync` (lines 78-93) for one `targetPod`. -/
def syncTarget {σ : Type} (client : Remote σ) (sourcePod : Pod) (syncDirArchive : Bytes)
    (targetPod : Pod) : Prog σ Unit :=
  if sourcePod.Name = targetPod.Name then pure ()
  else do
    say ("- Writing sync directory to pod " ++ targetPod.Name ++ " \n")
    let r ← exec client targetPod extractArgv (some syncDirArchive)
    if r.2 ≠ "" then say ("\nError:\n" ++ r.2 ++ "\n") else pure ()

/-- Body of the outer loop of `sync` (lines 69-102) for one `sourcePod`. -/
def syncSource {σ : Type} (client : Remote σ) (pods : List Pod) (sourcePod : Pod) :
    Prog σ Unit := do
  say ("Copying sync directory from pod " ++ sourcePod.Name ++ " \n")
  let a ← exec client sourcePod (archiveArgv sourcePod.Name) none
  forEach pods (syncTarget client sourcePod a.1)
  let r ← exec client sourcePod (cleanupArgv sourcePod.Name) none
  sayBuffer r.1
  if r.2 ≠ "" then say ("\nError:\n" ++ r.2 ++ "\n") else pure ()

def sync {σ : Type} (client : Remote σ) (pods : List Pod) : Prog σ Unit :=
  forEach pods (syncSource client pods)

/-! ## syncFuzzerStats (main.go, lines 105-138) -/

def sourcePath (name : String) : String := AflSyncDirectory ++ name

def fuzzerStatsPath (name : String) : String := sourcePath name ++ "/fuzzer_stats"

def cmdFuzzerStats (name : String) : String := "cat " ++ fuzzerStatsPath name

def statsReadArgv (name : String) : List String := ["sh", "-c", cmdFuzzerStats name]

def mkdirArgv (name : String) : List String := ["mkdir", "--parents", sourcePath name]

def statsWriteArgv (name : String) : List String := ["cp", "/dev/stdin", fuzzerStatsPath name]

/-- Body of the inner loop of `syncFuzzerStats` (lines 114-136) for one
`targetPod`. -/
def syncFuzzerStatsTarget {σ : Type} (client : Remote σ) (sourcePod : Pod)
    (fuzzerStatsContent : Bytes) (targetPod : Pod) : Prog σ Unit :=
  if sourcePod.Name = targetPod.Name then pure ()
  else if HasPrefix targetPod.Name K8sWorkerPodPrefix then pure ()
  else do
    say ("- Writing 'fuzzer_stats' file to pod " ++ targetPod.Name ++ " \n")
    let _ ← exec client targetPod (mkdirArgv sourcePod.Name) (some [])
    let r ← exec client targetPod (statsWriteArgv sourcePod.Name) (some fuzzerStatsContent)
    if r.2 ≠ "" then say ("\nError:\n" ++ r.2 ++ "\n") else pure ()

/-- Body of the outer loop of `syncFuzzerStats` (lines 106-137) for one
`sourcePod`. -/
def syncFuzzerStatsSource {σ : Type} (client : Remote σ) (pods : List Pod) (sourcePod : Pod) :
    Prog σ Unit := do
  say ("Copying 'fuzzer_stats' file from pod " ++ sourcePod.Name ++ " \n")
  let c ← exec client sourcePod (statsReadArgv sourcePod.Name) none
  forEach pods (syncFuzzerStatsTarget client sourcePod c.1)

def syncFuzzerStats {σ : Type} (client : Remote σ) (pods : List Pod) : Prog σ Unit :=
  forEach pods (syncFuzzerStatsSource client pods)

/-! ## whatsUp (main.go, lines 144-159) -/

def whatsUpArgv : List String := ["sh", "-c", "afl-whatsup -s " ++ AflSyncDirectory]

/-- Body of the loop of `whatsUp` (lines 148-158) for one `pod`. -/
def whatsUpPod {σ : Type} (client : Remote σ) (pod : Pod) : Prog σ Unit :=
  if HasPrefix pod.Name K8sMasterPodPrefix then do
    say ("Stats on " ++ pod.Name ++ ":\n\n")
    let r ← exec client pod whatsUpArgv none
    sayBuffer r.1
    if r.2 ≠ "" then say ("\nError:\n" ++ r.2 ++ "\n") else pure ()
  else pure ()

def whatsUp {σ : Type} (client : Remote σ) (pods : List Pod) : Prog σ Unit := do
  say ("Validating sync in " ++ toString WaitUntilValidate ++ " seconds ...\n")
  sleepFor WaitUntilValidate
  say "Getting status report ...\n\n"
  forEach pods (whatsUpPod client)

/-! ## main (main.go, lines 30-66) -/

/-- What `main` reads from its surroundings: the two environment variables
(`none` when unset), the error of `getK8sClient` if it fails, and the result of
listing the pods. -/
structure Env where
  POD_NAMESPACE : Option String
  SYNC_STATS_ONLY : Option String
  clientError : Option String
  listing : Except String (List Pod)

/-- Get environment variable; returns fallback if it is not found. -/
def getEnv (value : Option String) (fallback : String) : String :=
  match value with
  | some v => v
  | none => fallback

def main {σ : Type} (client : Remote σ) (env : Env) : Prog σ Unit :=
  match env.clientError with
  | some err => goPanic err
  | none =>
    let K8sNamespace := getEnv env.POD_NAMESPACE K8sDefaultNamespace
    let syncStatsOnly := decide (env.SYNC_STATS_ONLY.getD "" = "1")
    match env.listing with
    | .error err => goPanic err
    | .ok pods => do
      say ("There are " ++ toString pods.length ++ " pods in the " ++ K8sNamespace ++
        " namespace:\n")
      forEach pods (fun pod => say ("- " ++ pod.Name ++ " \n"))
      say "\n"
      say "Starting sync ...\n"
      if syncStatsOnly then do
        say "Syncing only 'fuzzer_stats'! (SYNC_ONLY_STATS)\n"
        say "\n"
        syncFuzzerStats client pods
      else do
        say "\n"
        sync client pods
        whatsUp client pods
      say "\n"
      say "Sync finished!"

/-! ## Vocabulary for stating properties -/

/-- The request `exec` sends for a pod that has a container. -/
def callOf (pod : Pod) (command : List String) (stdin : Option Bytes) : Call :=
  ⟨pod, pod.Containers.headD "", command, stdin⟩

/-- A remote side on which every request can be built and every `Stream` ends
normally.  The standard error it returns is unconstrained: commands may report
errors, but the channel works. -/
def Remote.Reliable {σ : Type} (client : Remote σ) : Prop :=
  (∀ c, client.connect c = none) ∧
    ∀ w c, ∃ w₁ stdout stderr, client.stream w c = (w₁, Outcome.completed stdout stderr)

/-- An archive-create operation: the command of line 75 for the pod it runs in. -/
def isArchiveCreate (c : Call) : Bool := decide (c.command = archiveArgv c.pod.Name)

/-- An extraction operation: the command of line 89. -/
def isExtraction (c : Call) : Bool := decide (c.command = extractArgv)

/-- A cleanup operation: the command of line 96 for the pod it runs in. -/
def isCleanup (c : Call) : Bool := decide (c.command = cleanupArgv c.pod.Name)

/-- A status-report operation: the command of line 151. -/
def isStatusReport (c : Call) : Bool := decide (c.command = whatsUpArgv)

/-- A stats read: the command of line 111 for the pod it runs in. -/
def isStatsRead (c : Call) : Bool := decide (c.command = statsReadArgv c.pod.Name)

/-- A stats write: a `cp /dev/stdin <path>` (line 132). -/
def isStatsWrite (c : Call) : Bool := decide (c.command.take 2 = ["cp", "/dev/stdin"])

/-- The pod and command of a call, without the payload. -/
def Call.op (c : Call) : Pod × List String := (c.pod, c.command)

/-- The target set of a source in FullDirectory mode: the pods the inner loop of
`sync` does not skip, in fleet order. -/
def targetsOf (pods : List Pod) (s : Pod) : List Pod :=
  pods.filter (fun t => decide (s.Name ≠ t.Name))

/-- The operations of one source iteration of `sync`: archive-create on the source,
an extraction into each target, cleanup on the source. -/
def syncBlock (pods : List Pod) (s : Pod) : List (Pod × List String) :=
  (s, archiveArgv s.Name) :: (targetsOf pods s).map (fun t => (t, extractArgv)) ++
    [(s, cleanupArgv s.Name)]

/-- The target set of a source in StatsOnly mode: the pods neither skipped by name
nor by the worker prefix, in fleet order. -/
def statsTargetsOf (pods : List Pod) (s : Pod) : List Pod :=
  pods.filter (fun t => decide (s.Name ≠ t.Name) && !HasPrefix t.Name K8sWorkerPodPrefix)

/-- The operations of one source iteration of `syncFuzzerStats`: the read on the
source, then mkdir and write in each target. -/
def statsBlock (pods : List Pod) (s : Pod) : List (Pod × List String) :=
  (s, statsReadArgv s.Name) ::
    (statsTargetsOf pods s).flatMap (fun t => [(t, mkdirArgv s.Name), (t, statsWriteArgv s.Name)])

/-- The status-report operations: one per pod with the master prefix, in fleet
order. -/
def whatsUpBlock (pods : List Pod) : List (Pod × List String) :=
  (pods.filter (fun p => HasPrefix p.Name K8sMasterPodPrefix)).map (fun p => (p, whatsUpArgv))

/-- The events `main` produces before it starts syncing. -/
def preamble (env : Env) (pods : List Pod) : List Event :=
  Event.print ("There are " ++ toString pods.length ++ " pods in the " ++
      getEnv env.POD_NAMESPACE K8sDefaultNamespace ++ " namespace:\n") ::
    (pods.map (fun pod => Event.print ("- " ++ pod.Name ++ " \n")) ++
      [Event.print "\n", Event.print "Starting sync ...\n"])

/-- The role of an instance. -/
inductive Role where
  | Coordinator
  | Worker
  | Unspecified
deriving DecidableEq

/-- The role the program gives a pod name: the two prefix tests of lines 122 and
149. -/
def roleOf (name : String) : Role :=
  if HasPrefix name K8sMasterPodPrefix then Role.Coordinator
  else if HasPrefix name K8sWorkerPodPrefix then Role.Worker
  else Role.Unspecified

/-- The order of operations of FullDirectory mode, by position in the fleet: for
each position `i`, the archive-create on the pod at `i`, the extractions into the
pods at every other position `j` in increasing `j`, the cleanup on the pod at `i`. -/
def syncOrder (pods : List Pod) : List (Pod × List String) :=
  pods.enum.flatMap (fun ip =>
    (ip.2, archiveArgv ip.2.Name) ::
      (pods.enum.filter (fun jt => decide (jt.1 ≠ ip.1))).map (fun jt => (jt.2, extractArgv)) ++
      [(ip.2, cleanupArgv ip.2.Name)])

/-- Every stats write of the list comes right after the mkdir, in the same pod, of
the directory that holds the file it writes. -/
def WritesFollowMkdir (pods : List Pod) (l : List Call) : Prop :=
  ∀ pre c post, l = pre ++ c :: post → isStatsWrite c = true →
    ∃ pre₁ m s, s ∈ pods ∧ pre = pre₁ ++ [m] ∧ m.pod = c.pod ∧
      m.command = ["mkdir", "--parents", sourcePath s.Name] ∧
      c.command = ["cp", "/dev/stdin", sourcePath s.Name ++ "/fuzzer_stats"]

/-- The classifiers above, on the pod and command of an operation. -/
def opIsArchiveCreate (o : Pod × List String) : Bool := decide (o.2 = archiveArgv o.1.Name)

def opIsExtraction (o : Pod × List String) : Bool := decide (o.2 = extractArgv)

def opIsCleanup (o : Pod × List String) : Bool := decide (o.2 = cleanupArgv o.1.Name)

def opIsStatusReport (o : Pod × List String) : Bool := decide (o.2 = whatsUpArgv)

def opIsStatsRead (o : Pod × List String) : Bool := decide (o.2 = statsReadArgv o.1.Name)

def opIsStatsWrite (o : Pod × List String) : Bool := decide (o.2.take 2 = ["cp", "/dev/stdin"])

/-! ## Concrete fleets and remote sides -/

/-- The fleet of the scenarios: one coordinator and two workers, named after the
prefixes the program tests. -/
def scenarioFleet : List Pod :=
  [⟨"afl-master-0", "kubefuzz", ["afl", "metrics"]⟩, ⟨"afl-worker-0", "kubefuzz", ["afl"]⟩,
    ⟨"afl-worker-1", "kubefuzz", ["afl"]⟩]

/-- A remote side on which every stream ends normally but the commands complain:
`tar` warns on standard error when an archive is created and reports an error on
standard error when extracting in `afl-worker-1`; an archive is three bytes, any
other read gives five bytes. -/
def noisyRemote : Remote Unit where
  connect := fun _ => none
  stream := fun w c =>
    if c.command = archiveArgv c.pod.Name then
      (w, Outcome.completed [31, 139, 8] "tar: afl/.cur_input: socket ignored")
    else if c.command = extractArgv ∧ c.pod.Name = "afl-worker-1" then
      (w, Outcome.completed [] "tar: queue/id:000000: Cannot open: File exists")
    else if c.stdin = none then (w, Outcome.completed [115, 116, 97, 114, 116] "")
    else (w, Outcome.completed [] "")

/-- A remote side on which the pod `afl-worker-0` is unreachable: every stream into
it ends with an error. -/
def unreachableRemote : Remote Unit where
  connect := fun _ => none
  stream := fun w c =>
    if c.pod.Name = "afl-worker-0" then (w, Outcome.failed "" "unable to upgrade connection")
    else (w, Outcome.completed [] "")

/-- A remote side on which the archive-create command fails in `afl-master-0`
(`tar` exits with code 1, which the stream reports as an error). -/
def archiveFailRemote : Remote Unit where
  connect := fun _ => none
  stream := fun w c =>
    if c.command = archiveArgv "afl-master-0" then
      (w, Outcome.failed "tar: file changed as we read it"
        "command terminated with exit code 1")
    else (w, Outcome.completed [] "")

/-- A remote side like `noisyRemote` on which, in addition, the read of the stats file
of `afl-worker-0` fails (the file is not there yet, `cat` exits with code 1, which
the stream reports as an error).  FullDirectory mode never issues that command. -/
def statsFailRemote : Remote Unit where
  connect := fun _ => none
  stream := fun w c =>
    if c.command = statsReadArgv "afl-worker-0" then
      (w, Outcome.failed "cat: sync/afl-worker-0/fuzzer_stats: No such file or directory"
        "command terminated with exit code 1")
    else noisyRemote.stream w c

/-- A fleet whose pods are literally named `coordinator-0`, `worker-0` and
`worker-1`: none of the names begins with `afl-master` or `afl-worker`. -/
def literalFleet : List Pod :=
  [⟨"coordinator-0", "kubefuzz", ["afl"]⟩, ⟨"worker-0", "kubefuzz", ["afl"]⟩,
    ⟨"worker-1", "kubefuzz", ["afl"]⟩]

/-- The environment of a default run over the scenario fleet. -/
def defaultEnv : Env := ⟨none, none, none, .ok scenarioFleet⟩

/-- The environment of a default run over the fleet with the literal names. -/
def literalEnv : Env := ⟨none, none, none, .ok literalFleet⟩

/-- The environment of a stats-only run over the scenario fleet. -/
def statsEnv : Env := ⟨none, some "1", none, .ok scenarioFleet⟩

/-! ## A model of the files of the instances

The commands `sync` sends run inside the pods; what `cp`, `tar` and `rm` do there
is not part of the repository.  For the properties that speak about files their
effect is modelled from the specification of the archive transfer: create copies the
sync sub-directory of the source to a private staging path and archives the copy,
extract unpacks below the sync root without overwriting, cleanup deletes the staging
copy and the archive file. -/

/-- A path below the sync root, as components; the first is the directory of the
instance the file comes from. -/
abbrev Path := List String

/-- Files with their contents, in the order they were created. -/
abbrev Files := List (Path × Bytes)

/-- The content of the file at a path, if there is one. -/
def fileAt : Files → Path → Option Bytes
  | [], _ => none
  | e :: rest, p => if e.1 = p then some e.2 else fileAt rest p

/-- The files below the directory `name`. -/
def subtree (name : String) (fs : Files) : Files :=
  fs.filter (fun e => decide (e.1.head? = some name))

/-- Modelled from the spec: the skip-existing unpack that stands for
`tar --skip-old-files -xzf /dev/stdin --directory sync/`, which runs in the pod and
is not part of the repository.  The members are taken in order; a member whose path
already holds a file is skipped, any other is created. -/
def extractInto (fs : Files) (members : Files) : Files :=
  members.foldl (fun acc e => if (fileAt acc e.1).isSome then acc else acc ++ [e]) fs

/-- Modelled from the spec: the files of one instance that FullDirectory mode
touches (the file system of a pod is not part of the repository): the files below
the sync root, the private staging copy and the archive file, the last two absent
unless an archive is being distributed.  The staging path and the archive file lie
apart from the sync root, as they do for every pod not itself named `sync`. -/
structure PodFiles where
  syncRoot : Files
  staging : Option Files
  archive : Option Bytes

/-- The files of all instances, by namespace and name. -/
abbrev FleetFiles := String × String → PodFiles

/-- The namespace and name `exec` addresses a pod by. -/
def Pod.key (p : Pod) : String × String := (p.Namespace, p.Name)

/-- Modelled from the spec: the archive wire format (gzip-compressed tar, produced
and read by `tar` in the pods, not part of the repository), as a pair of functions
of which all that is assumed is that unpacking a packed archive gives back its
members. -/
structure ArchiveFormat where
  pack : Files → Bytes
  unpack : Bytes → Files
  unpack_pack : ∀ fs, unpack (pack fs) = fs

/-- Modelled from the spec: create, that is `cp -r -T sync/<name>/ <name>/ && tar
-czf <name>.tar.gz <name>/` run in pod `p`: the sync sub-directory of `p` is copied
to the staging path and the copy is archived. -/
def createStep (fmt : ArchiveFormat) (w : FleetFiles) (p : Pod) : FleetFiles :=
  Function.update w p.key
    { syncRoot := (w p.key).syncRoot
      staging := some (subtree p.Name (w p.key).syncRoot)
      archive := some (fmt.pack (subtree p.Name (w p.key).syncRoot)) }

/-- Modelled from the spec: extract, run in pod `p` with the archive on standard
input. -/
def extractStep (fmt : ArchiveFormat) (w : FleetFiles) (p : Pod) (stdin : Bytes) : FleetFiles :=
  Function.update w p.key
    { syncRoot := extractInto (w p.key).syncRoot (fmt.unpack stdin)
      staging := (w p.key).staging
      archive := (w p.key).archive }

/-- Modelled from the spec: cleanup, that is `rm -rf <name>/ && rm <name>.tar.gz`
run in pod `p`. -/
def cleanupStep (w : FleetFiles) (p : Pod) : FleetFiles :=
  Function.update w p.key
    { syncRoot := (w p.key).syncRoot, staging := none, archive := none }

/-- Modelled from the spec: the remote side as a fleet of file systems.  Every
stream ends normally; the archive-create returns the archive on standard output
(`cat <name>.tar.gz`); commands other than the three of FullDirectory mode leave
the files alone. -/
def fsRemote (fmt : ArchiveFormat) : Remote FleetFiles where
  connect := fun _ => none
  stream := fun w c =>
    if c.command = archiveArgv c.pod.Name then
      (createStep fmt w c.pod,
        Outcome.completed (fmt.pack (subtree c.pod.Name (w c.pod.key).syncRoot)) "")
    else if c.command = extractArgv then
      (extractStep fmt w c.pod (c.stdin.getD []), Outcome.completed [] "")
    else if c.command = cleanupArgv c.pod.Name then
      (cleanupStep w c.pod, Outcome.completed [] "")
    else (w, Outcome.completed [] "")

/-- A fleet after which another pass of `sync` has nothing to do: no staging copy
or archive file is left in a pod of the fleet, and every file of the sync
sub-directory of a pod exists in every pod with another name. -/
def Settled (pods : List Pod) (w : FleetFiles) : Prop :=
  (∀ s ∈ pods, (w s.key).staging = none ∧ (w s.key).archive = none) ∧
    ∀ s ∈ pods, ∀ t ∈ pods, s.Name ≠ t.Name →
      ∀ e ∈ subtree s.Name (w s.key).syncRoot, (fileAt (w t.key).syncRoot e.1).isSome = true

/-! ### A concrete archive format

Each list is written as its length followed by its elements. -/

def packNats (l : List Nat) : List Nat := l.length :: l

def packString (s : String) : List Nat := packNats (s.data.map Char.toNat)

def packPath (p : Path) : List Nat := p.length :: p.flatMap packString

def packEntry (e : Path × Bytes) : List Nat := packPath e.1 ++ packNats e.2

def packFiles (fs : Files) : Bytes := fs.length :: fs.flatMap packEntry

def unpackNats : List Nat → Option (List Nat × List Nat)
  | [] => none
  | n :: rest => if n ≤ rest.length then some (rest.take n, rest.drop n) else none

def unpackString (b : List Nat) : Option (String × List Nat) :=
  match unpackNats b with
  | none => none
  | some (l, rest) => some (String.mk (l.map Char.ofNat), rest)

def unpackStrings : Nat → List Nat → Option (List String × List Nat)
  | 0, b => some ([], b)
  | k + 1, b =>
    match unpackString b with
    | none => none
    | some (s, b₁) =>
      match unpackStrings k b₁ with
      | none => none
      | some (ss, b₂) => some (s :: ss, b₂)

def unpackPath : List Nat → Option (Path × List Nat)
  | [] => none
  | k :: b => unpackStrings k b

def unpackEntry (b : List Nat) : Option ((Path × Bytes) × List Nat) :=
  match unpackPath b with
  | none => none
  | some (p, b₁) =>
    match unpackNats b₁ with
    | none => none
    | some (c, b₂) => some ((p, c), b₂)

def unpackEntries : Nat → List Nat → Option (Files × List Nat)
  | 0, b => some ([], b)
  | k + 1, b =>
    match unpackEntry b with
    | none => none
    | some (e, b₁) =>
      match unpackEntries k b₁ with
      | none => none
      | some (es, b₂) => some (e :: es, b₂)

def unpackFiles : Bytes → Files
  | [] => []
  | k :: b =>
    match unpackEntries k b with
    | none => []
    | some (fs, _) => fs

/-- The concrete format as an archive format. -/
def plainFormat : ArchiveFormat where
  pack := packFiles
  unpack := unpackFiles
  unpack_pack := by
    have hn : ∀ l r : List Nat, unpackNats (packNats l ++ r) = some (l, r) := by
      intro l r
      simp [unpackNats, packNats]
    have hs : ∀ (s : String) (r : List Nat), unpackString (packString s ++ r) = some (s, r) := by
      intro s r
      have h : List.map (Char.ofNat ∘ Char.toNat) s.data = s.data := by
        induction s.data with
        | nil => rfl
        | cons c cs ih => simp [ih, Char.ofNat_toNat]
      simp only [unpackString, packString, hn, List.map_map, h]
    have hss : ∀ (p : List String) (r : List Nat),
        unpackStrings p.length (p.flatMap packString ++ r) = some (p, r) := by
      intro p
      induction p with
      | nil => intro r; rfl
      | cons s ss ih =>
        intro r
        simp only [List.length_cons, List.flatMap_cons, List.append_assoc, unpackStrings, hs, ih]
    have he : ∀ (e : Path × Bytes) (r : List Nat), unpackEntry (packEntry e ++ r) = some (e, r) := by
      intro e r
      simp only [unpackEntry, packEntry, packPath, List.cons_append, List.append_assoc,
        unpackPath, hss, hn]
    have hes : ∀ (fs : Files) (r : List Nat),
        unpackEntries fs.length (fs.flatMap packEntry ++ r) = some (fs, r) := by
      intro fs
      induction fs with
      | nil => intro r; rfl
      | cons e es ih =>
        intro r
        simp only [List.length_cons, List.flatMap_cons, List.append_assoc, unpackEntries, he, ih]
    intro fs
    have h := hes fs []
    rw [List.append_nil] at h
    simp only [packFiles, unpackFiles, h]

/-- The files of the scenario fleet before a sync: each pod holds what its own
fuzzer produced, and `afl-master-0` already holds one file of `afl-worker-0` with
its own content. -/
def scenarioFiles : FleetFiles := fun k =>
  if k = ("kubefuzz", "afl-master-0") then
    ⟨[(["afl-master-0", "fuzzer_stats"], [49]), (["afl-master-0", "queue", "id:000000"], [65]),
      (["afl-worker-0", "queue", "id:000000"], [90])], none, none⟩
  else if k = ("kubefuzz", "afl-worker-0") then
    ⟨[(["afl-worker-0", "fuzzer_stats"], [50]), (["afl-worker-0", "queue", "id:000000"], [66])],
      none, none⟩
  else if k = ("kubefuzz", "afl-worker-1") then
    ⟨[(["afl-worker-1", "queue", "id:000000"], [67])], none, none⟩
  else ⟨[], none, none⟩

/-- The files after the extractions of the archive `a` of source `s` into the pods
`ts` with another name. -/
def deliver (fmt : ArchiveFormat) (s : Pod) (a : Bytes) (ts : List Pod) (v : FleetFiles) :
    FleetFiles :=
  ts.foldl (fun v t => if s.Name = t.Name then v else extractStep fmt v t a) v

/-- The files after one source iteration of `sync`: create, the extractions,
cleanup. -/
def afterSource (fmt : ArchiveFormat) (pods : List Pod) (s : Pod) (w : FleetFiles) : FleetFiles :=
  cleanupStep
    (deliver fmt s (fmt.pack (subtree s.Name (w s.key).syncRoot)) pods (createStep fmt w s)) s

/-- The files after the source iterations of the pods `xs` of the fleet `pods`. -/
def afterSync (fmt : ArchiveFormat) (pods xs : List Pod) (w : FleetFiles) : FleetFiles :=
  xs.foldl (fun v s => afterSource fmt pods s v) w

/-! ## Remote sides with a standard error silenced

To say that a standard error text makes no difference, a run is compared with the
run on the remote side that differs only in returning the empty text there. -/

/-- The remote side `client`, except that every archive-create that returns does so
with an empty standard error. -/
def Remote.withoutArchiveStderr {σ : Type} (client : Remote σ) : Remote σ where
  connect := client.connect
  stream := fun w c =>
    if c.command = archiveArgv c.pod.Name then
      match client.stream w c with
      | (w₁, Outcome.completed stdout _) => (w₁, Outcome.completed stdout "")
      | (w₁, Outcome.failed stderr err) => (w₁, Outcome.failed stderr err)
    else client.stream w c

/-- The remote side `client`, except that every extraction that returns does so with
an empty standard error. -/
def Remote.withoutExtractionStderr {σ : Type} (client : Remote σ) : Remote σ where
  connect := client.connect
  stream := fun w c =>
    if c.command = extractArgv then
      match client.stream w c with
      | (w₁, Outcome.completed stdout _) => (w₁, Outcome.completed stdout "")
      | (w₁, Outcome.failed stderr err) => (w₁, Outcome.failed stderr err)
    else client.stream w c

/-- The second trace is the first without some of the prints of an `Error:` block
that directly follow an extraction (the print of line 91, made for the target the
extraction ran in); everything else is the same, in the same order. -/
inductive LessErrorLines : List Event → List Event → Prop where
  | nil : LessErrorLines [] []
  | keep (e : Event) {t₁ t₂ : List Event} :
    LessErrorLines t₁ t₂ → LessErrorLines (e :: t₁) (e :: t₂)
  | drop (c : Call) (stderr : String) {t₁ t₂ : List Event} :
    c.command = extractArgv → LessErrorLines t₁ t₂ →
      LessErrorLines (Event.exec c :: Event.print ("\nError:\n" ++ stderr ++ "\n") :: t₁)
        (Event.exec c :: t₂)

/-- Two runs that end in the same remote state with the same result and whose
traces differ at most in prints of an `Error:` block. -/
def SameButErrorLines {σ α : Type} (r r' : Run σ α) : Prop :=
  r.world = r'.world ∧ r.result = r'.result ∧ LessErrorLines r.trace r'.trace


/-! ## Running programs: basic facts -/

section Basics

variable {σ α β : Type}

theorem bind_eq (m : Prog σ α) (f : α → Prog σ β) : (m >>= f) = Prog.bind m f := rfl

theorem pure_eq (a : α) : (pure a : Prog σ α) = Prog.pure a := rfl

theorem callsOf_append (s t : List Event) : callsOf (s ++ t) = callsOf s ++ callsOf t := by
  induction s with
  | nil => rfl
  | cons e s ih => cases e <;> simp [callsOf, ih]

/-- A bind whose first part finishes runs the second part from the state reached. -/
theorem bind_of_ok (m : Prog σ α) (f : α → Prog σ β) (w : σ) (a : α)
    (h : (m w).result = .ok a) :
    Prog.bind m f w =
      ⟨(f a (m w).world).world, (m w).trace ++ (f a (m w).world).trace,
        (f a (m w).world).result⟩ := by
  unfold Prog.bind
  rcases hm : m w with ⟨w₁, t₁, r₁⟩
  rw [hm] at h
  simp only at h
  subst h
  rfl

/-- A bind whose first part panics stops there. -/
theorem bind_of_error (m : Prog σ α) (f : α → Prog σ β) (w : σ) (e : String)
    (h : (m w).result = .error e) :
    Prog.bind m f w = ⟨(m w).world, (m w).trace, .error e⟩ := by
  unfold Prog.bind
  rcases hm : m w with ⟨w₁, t₁, r₁⟩
  rw [hm] at h
  simp only at h
  subst h
  rfl

/-- The calls of a bind are the calls of its first part followed by those of the
second part, if the first part finished. -/
theorem calls_bind (m : Prog σ α) (f : α → Prog σ β) (w : σ) :
    ((Prog.bind m f w).calls = (m w).calls ∧ (Prog.bind m f w).finished = false ∧
        (m w).finished = false) ∨
      ∃ a, (m w).result = .ok a ∧
        (Prog.bind m f w).calls = (m w).calls ++ (f a (m w).world).calls ∧
        (Prog.bind m f w).result = (f a (m w).world).result ∧
        (Prog.bind m f w).world = (f a (m w).world).world := by
  cases hr : (m w).result with
  | error e =>
    left
    rw [bind_of_error m f w e hr]
    simp [Run.calls, Run.finished, hr]
  | ok a =>
    right
    refine ⟨a, rfl, ?_⟩
    rw [bind_of_ok m f w a hr]
    simp [Run.calls, callsOf_append]

theorem say_bind (s : String) (f : Unit → Prog σ β) (w : σ) :
    Prog.bind (say s) f w = ⟨(f () w).world, Event.print s :: (f () w).trace, (f () w).result⟩ := by
  rw [bind_of_ok (say s) f w () rfl]
  rfl

theorem sayBuffer_bind (b : Bytes) (f : Unit → Prog σ β) (w : σ) :
    Prog.bind (sayBuffer b) f w =
      ⟨(f () w).world, Event.write (b ++ [10]) :: (f () w).trace, (f () w).result⟩ := by
  rw [bind_of_ok (sayBuffer b) f w () rfl]
  rfl

theorem sleepFor_bind (n : Nat) (f : Unit → Prog σ β) (w : σ) :
    Prog.bind (sleepFor n) f w =
      ⟨(f () w).world, Event.sleep n :: (f () w).trace, (f () w).result⟩ := by
  rw [bind_of_ok (sleepFor n) f w () rfl]
  rfl

theorem forEach_nil (body : α → Prog σ Unit) (w : σ) :
    forEach [] body w = ⟨w, [], .ok ()⟩ := rfl

theorem forEach_cons (x : α) (xs : List α) (body : α → Prog σ Unit) :
    forEach (x :: xs) body = Prog.bind (body x) (fun _ => forEach xs body) := rfl

end Basics

/-! ## Facts about the command strings -/

section Commands

theorem cmdArchive_data (n : String) :
    (cmdArchive n).data = 'c' :: ("p -r -T sync/".data ++ n.data ++ "/ ".data ++ n.data ++
      "/ && tar -czf ".data ++ n.data ++ ".tar.gz ".data ++ n.data ++ "/ && cat ".data ++
      n.data ++ ".tar.gz".data) := by
  simp [cmdArchive, AflSyncDirectory, String.data_append]

theorem cmdCleanup_data (n : String) :
    (cmdCleanup n).data = 'r' :: ("m -rf ".data ++ n.data ++ "/ && rm ".data ++ n.data ++
      ".tar.gz".data) := by
  simp [cmdCleanup, String.data_append]

theorem cmdArchive_ne_cmdCleanup (n m : String) : cmdArchive n ≠ cmdCleanup m := by
  intro h
  have h₁ := congrArg String.data h
  rw [cmdArchive_data, cmdCleanup_data] at h₁
  exact absurd (List.cons.inj h₁).1 (by decide)

theorem cmdArchive_ne_whatsUp (n : String) : cmdArchive n ≠ "afl-whatsup -s " ++ AflSyncDirectory := by
  intro h
  have h₁ := congrArg String.data h
  rw [cmdArchive_data] at h₁
  exact absurd (List.cons.inj h₁).1 (by decide)

theorem cmdCleanup_ne_whatsUp (n : String) : cmdCleanup n ≠ "afl-whatsup -s " ++ AflSyncDirectory := by
  intro h
  have h₁ := congrArg String.data h
  rw [cmdCleanup_data] at h₁
  exact absurd (List.cons.inj h₁).1 (by decide)

theorem cmdFuzzerStats_data (n : String) :
    (cmdFuzzerStats n).data = 'c' :: 'a' :: ("t sync/".data ++ n.data ++ "/fuzzer_stats".data) := by
  simp [cmdFuzzerStats, fuzzerStatsPath, sourcePath, AflSyncDirectory, String.data_append]

theorem cmdFuzzerStats_ne_cmdArchive (n m : String) : cmdFuzzerStats n ≠ cmdArchive m := by
  intro h
  have h₁ := congrArg String.data h
  rw [cmdFuzzerStats_data, cmdArchive_data] at h₁
  have h₂ := (List.cons.inj (List.cons.inj h₁).2).1
  exact absurd h₂ (by decide)

theorem cmdFuzzerStats_ne_cmdCleanup (n m : String) : cmdFuzzerStats n ≠ cmdCleanup m := by
  intro h
  have h₁ := congrArg String.data h
  rw [cmdFuzzerStats_data, cmdCleanup_data] at h₁
  exact absurd (List.cons.inj h₁).1 (by decide)

theorem cmdFuzzerStats_ne_whatsUp (n : String) :
    cmdFuzzerStats n ≠ "afl-whatsup -s " ++ AflSyncDirectory := by
  intro h
  have h₁ := congrArg String.data h
  rw [cmdFuzzerStats_data] at h₁
  exact absurd (List.cons.inj h₁).1 (by decide)

theorem string_append_right_cancel {a b c : String} (h : a ++ c = b ++ c) : a = b := by
  have h₁ := congrArg String.data h
  simp only [String.data_append] at h₁
  exact String.ext (List.append_cancel_right h₁)

theorem string_append_left_cancel {a b c : String} (h : c ++ a = c ++ b) : a = b := by
  have h₁ := congrArg String.data h
  simp only [String.data_append] at h₁
  exact String.ext (List.append_cancel_left h₁)

theorem sourcePath_injective {n m : String} (h : sourcePath n = sourcePath m) : n = m :=
  string_append_left_cancel h

theorem fuzzerStatsPath_injective {n m : String} (h : fuzzerStatsPath n = fuzzerStatsPath m) :
    n = m :=
  sourcePath_injective (string_append_right_cancel h)

end Commands

/-! ## exec -/

section Exec

variable {σ : Type}

/-- Every call `exec` issues is the one built from its arguments. -/
theorem exec_calls (client : Remote σ) (pod : Pod) (command : List String)
    (stdin : Option Bytes) (w : σ) :
    (exec client pod command stdin w).calls = [] ∨
      (exec client pod command stdin w).calls = [callOf pod command stdin] := by
  unfold exec
  cases hc : pod.Containers with
  | nil => left; rfl
  | cons n ns =>
    simp only
    cases hk : client.connect ⟨pod, n, command, stdin⟩ with
    | some err => left; rfl
    | none =>
      right
      simp only
      rcases hs : client.stream w ⟨pod, n, command, stdin⟩ with ⟨w₁, o⟩
      cases o <;> simp [Run.calls, callsOf, callOf, hc]

/-- When `exec` returns, the stream ended normally with what it returns, and exactly
one call was issued. -/
theorem exec_ok (client : Remote σ) (pod : Pod) (command : List String)
    (stdin : Option Bytes) (w : σ) (r : Bytes × String)
    (h : (exec client pod command stdin w).result = .ok r) :
    client.stream w (callOf pod command stdin) =
        ((exec client pod command stdin w).world, Outcome.completed r.1 r.2) ∧
      (exec client pod command stdin w).trace = [Event.exec (callOf pod command stdin)] ∧
      pod.Containers ≠ [] ∧ client.connect (callOf pod command stdin) = none := by
  unfold exec at h ⊢
  cases hc : pod.Containers with
  | nil => rw [hc] at h; simp [goPanic] at h
  | cons n ns =>
    rw [hc] at h
    simp only at h ⊢
    have hcall : callOf pod command stdin = ⟨pod, n, command, stdin⟩ := by simp [callOf, hc]
    rw [hcall]
    cases hk : client.connect ⟨pod, n, command, stdin⟩ with
    | some err => rw [hk] at h; simp [goPanic] at h
    | none =>
      rw [hk] at h
      simp only at h ⊢
      rcases hs : client.stream w ⟨pod, n, command, stdin⟩ with ⟨w₁, o⟩
      rw [hs] at h
      cases o with
      | failed e₁ e₂ => simp at h
      | completed out err =>
        simp only [Except.ok.injEq] at h
        subst h
        simp

/-- When the stream of the call ends with an error, `exec` panics right after
issuing it. -/
theorem exec_failed (client : Remote σ) (pod : Pod) (command : List String)
    (stdin : Option Bytes) (w w₁ : σ) (stderr err : String)
    (hc : pod.Containers ≠ []) (hk : client.connect (callOf pod command stdin) = none)
    (hs : client.stream w (callOf pod command stdin) = (w₁, Outcome.failed stderr err)) :
    exec client pod command stdin w =
      ⟨w₁, [Event.exec (callOf pod command stdin),
        Event.print ("exec stderr: " ++ stderr ++ "\n")], .error err⟩ := by
  unfold exec
  cases hc₁ : pod.Containers with
  | nil => exact absurd hc₁ hc
  | cons n ns =>
    have hcall : callOf pod command stdin = ⟨pod, n, command, stdin⟩ := by simp [callOf, hc₁]
    rw [hcall] at hk hs ⊢
    simp only [hk, hs]

/-- When the stream of the call ends normally, `exec` returns its output. -/
theorem exec_completed (client : Remote σ) (pod : Pod) (command : List String)
    (stdin : Option Bytes) (w w₁ : σ) (stdout : Bytes) (stderr : String)
    (hc : pod.Containers ≠ []) (hk : client.connect (callOf pod command stdin) = none)
    (hs : client.stream w (callOf pod command stdin) = (w₁, Outcome.completed stdout stderr)) :
    exec client pod command stdin w =
      ⟨w₁, [Event.exec (callOf pod command stdin)], .ok (stdout, stderr)⟩ := by
  unfold exec
  cases hc₁ : pod.Containers with
  | nil => exact absurd hc₁ hc
  | cons n ns =>
    have hcall : callOf pod command stdin = ⟨pod, n, command, stdin⟩ := by simp [callOf, hc₁]
    rw [hcall] at hk hs ⊢
    simp only [hk, hs]

/-- On a reliable remote side `exec` always returns. -/
theorem exec_reliable (client : Remote σ) (hR : client.Reliable) (pod : Pod)
    (hc : pod.Containers ≠ []) (command : List String) (stdin : Option Bytes) (w : σ) :
    ∃ w₁ stdout stderr,
      client.stream w (callOf pod command stdin) = (w₁, Outcome.completed stdout stderr) ∧
      exec client pod command stdin w =
        ⟨w₁, [Event.exec (callOf pod command stdin)], .ok (stdout, stderr)⟩ := by
  obtain ⟨w₁, out, err, hs⟩ := hR.2 w (callOf pod command stdin)
  exact ⟨w₁, out, err, hs, exec_completed client pod command stdin w w₁ out err hc (hR.1 _) hs⟩

end Exec

/-! ## Loops and sequencing -/

section Loops

variable {σ α β : Type}

theorem mem_calls_bind (m : Prog σ α) (f : α → Prog σ β) (w : σ) (c : Call)
    (h : c ∈ (Prog.bind m f w).calls) :
    c ∈ (m w).calls ∨ ∃ a, (m w).result = .ok a ∧ c ∈ (f a (m w).world).calls := by
  rcases calls_bind m f w with ⟨h₁, _⟩ | ⟨a, ha, h₁, _⟩
  · left; rwa [h₁] at h
  · rw [h₁, List.mem_append] at h
    rcases h with h | h
    · left; exact h
    · right; exact ⟨a, ha, h⟩

theorem calls_say_bind (s : String) (f : Unit → Prog σ β) (w : σ) :
    (Prog.bind (say s) f w).calls = (f () w).calls := by
  rw [say_bind]; rfl

theorem calls_sayBuffer_bind (b : Bytes) (f : Unit → Prog σ β) (w : σ) :
    (Prog.bind (sayBuffer b) f w).calls = (f () w).calls := by
  rw [sayBuffer_bind]; rfl

/-- The closing `if stderr != "" { print }` of the loop bodies issues no call and
never panics. -/
theorem report_run (stderr : String) (w : σ) :
    ((if stderr ≠ "" then say ("\nError:\n" ++ stderr ++ "\n") else pure ()) : Prog σ Unit) w =
      ⟨w, if stderr ≠ "" then [Event.print ("\nError:\n" ++ stderr ++ "\n")] else [], .ok ()⟩ := by
  by_cases h : stderr = "" <;> simp [h, say, pure_eq, Prog.pure]

theorem report_calls (stderr : String) (w : σ) :
    (((if stderr ≠ "" then say ("\nError:\n" ++ stderr ++ "\n") else pure ()) : Prog σ Unit)
      w).calls = [] := by
  rw [report_run]
  by_cases h : stderr = "" <;> simp [h, Run.calls, callsOf]

theorem mem_calls_forEach (xs : List α) (body : α → Prog σ Unit) (w : σ) (c : Call)
    (h : c ∈ (forEach xs body w).calls) : ∃ x ∈ xs, ∃ w₁, c ∈ (body x w₁).calls := by
  induction xs generalizing w with
  | nil => simp [forEach_nil, Run.calls, callsOf] at h
  | cons x xs ih =>
    rw [forEach_cons] at h
    rcases mem_calls_bind _ _ w c h with h | ⟨_, _, h⟩
    · exact ⟨x, List.mem_cons_self _ _, w, h⟩
    · obtain ⟨y, hy, w₁, hc⟩ := ih _ h
      exact ⟨y, List.mem_cons_of_mem _ hy, w₁, hc⟩

/-- A property of call lists that holds of the empty list, is kept by appending and
holds of every run of the body holds of the whole loop. -/
theorem forEach_calls_induction (P : List Call → Prop) (xs : List α)
    (body : α → Prog σ Unit) (h₀ : P [])
    (happ : ∀ l₁ l₂, P l₁ → P l₂ → P (l₁ ++ l₂))
    (hb : ∀ x ∈ xs, ∀ w, P (body x w).calls) (w : σ) : P (forEach xs body w).calls := by
  induction xs generalizing w with
  | nil => simpa [forEach_nil, Run.calls, callsOf] using h₀
  | cons x xs ih =>
    rw [forEach_cons]
    have hx := hb x (List.mem_cons_self _ _) w
    rcases calls_bind (body x) (fun _ => forEach xs body) w with ⟨h₁, _⟩ | ⟨a, _, h₁, _⟩
    · rw [h₁]; exact hx
    · rw [h₁]
      exact happ _ _ hx (ih (fun y hy => hb y (List.mem_cons_of_mem _ hy)) _)

/-- A loop whose body always finishes, issuing calls that depend (under `π`) only on
the element, finishes and issues the concatenation of these calls. -/
theorem forEach_finishes {γ : Type} (π : Call → γ) (g : α → List γ) (xs : List α)
    (body : α → Prog σ Unit)
    (hb : ∀ x ∈ xs, ∀ w, (body x w).result = .ok () ∧ (body x w).calls.map π = g x) (w : σ) :
    (forEach xs body w).result = .ok () ∧ (forEach xs body w).calls.map π = xs.flatMap g := by
  induction xs generalizing w with
  | nil => simp [forEach_nil, Run.calls, callsOf]
  | cons x xs ih =>
    rw [forEach_cons]
    obtain ⟨hr, hc⟩ := hb x (List.mem_cons_self _ _) w
    rw [bind_of_ok _ _ w () hr]
    obtain ⟨hr₁, hc₁⟩ := ih (fun y hy => hb y (List.mem_cons_of_mem _ hy)) (body x w).world
    refine ⟨hr₁, ?_⟩
    simp only [Run.calls, callsOf_append, List.map_append, List.flatMap_cons]
    simp only [Run.calls] at hc hc₁
    rw [hc, hc₁]

end Loops

/-! ## The inner loop of sync -/

section SyncTarget

variable {σ : Type}

theorem syncTarget_same (client : Remote σ) (s t : Pod) (a : Bytes) (w : σ)
    (h : s.Name = t.Name) : syncTarget client s a t w = ⟨w, [], .ok ()⟩ := by
  simp [syncTarget, h, pure_eq, Prog.pure]

/-- One pass of the inner loop issues nothing, or one extraction into a pod with
another name than the source, fed with the archive. -/
theorem syncTarget_calls (client : Remote σ) (s t : Pod) (a : Bytes) (w : σ) :
    (syncTarget client s a t w).calls = [] ∨
      (s.Name ≠ t.Name ∧ (syncTarget client s a t w).calls = [callOf t extractArgv (some a)]) := by
  by_cases h : s.Name = t.Name
  · left; rw [syncTarget_same client s t a w h]; rfl
  · simp only [syncTarget, h, if_false, bind_eq]
    rw [calls_say_bind]
    rcases calls_bind (exec client t extractArgv (some a))
        (fun r => if r.2 ≠ "" then say ("\nError:\n" ++ r.2 ++ "\n") else pure ()) w with
      ⟨h₁, _⟩ | ⟨r, _, h₁, _⟩
    · rw [h₁]
      rcases exec_calls client t extractArgv (some a) w with h₂ | h₂
      · left; exact h₂
      · right; exact ⟨h, h₂⟩
    · rw [h₁, report_calls, List.append_nil]
      rcases exec_calls client t extractArgv (some a) w with h₂ | h₂
      · left; exact h₂
      · right; exact ⟨h, h₂⟩

/-- On a reliable remote side one pass of the inner loop finishes; it issues the
extraction unless the target has the name of the source. -/
theorem syncTarget_reliable (client : Remote σ) (hR : client.Reliable) (s t : Pod)
    (ht : t.Containers ≠ []) (a : Bytes) (w : σ) :
    (syncTarget client s a t w).result = .ok () ∧
      (syncTarget client s a t w).calls =
        if s.Name = t.Name then [] else [callOf t extractArgv (some a)] := by
  by_cases h : s.Name = t.Name
  · rw [syncTarget_same client s t a w h]; simp [h, Run.calls, callsOf]
  · simp only [syncTarget, h, if_false, bind_eq]
    rw [say_bind]
    obtain ⟨w₁, out, err, _, he⟩ := exec_reliable client hR t ht extractArgv (some a) w
    rw [bind_of_ok _ _ w (out, err) (by rw [he])]
    simp only [he, report_run]
    by_cases h₁ : err = "" <;> simp [h₁, Run.calls, callsOf]

end SyncTarget

/-! ## One source iteration of sync -/

section SyncSource

variable {σ : Type}

theorem flatMap_targets {γ : Type} (pods : List Pod) (s : Pod) (f : Pod → γ) :
    pods.flatMap (fun t => if s.Name = t.Name then [] else [f t]) = (targetsOf pods s).map f := by
  induction pods with
  | nil => rfl
  | cons p ps ih =>
    rw [List.flatMap_cons, ih]
    by_cases h : s.Name = p.Name <;> simp [targetsOf, h]

/-- Every call of one source iteration is the archive-create on the source, an
extraction into a pod of the fleet with another name, fed with the standard output
the archive-create returned, or the cleanup on the source. -/
theorem mem_calls_syncSource (client : Remote σ) (pods : List Pod) (s : Pod) (w : σ) (c : Call)
    (h : c ∈ (syncSource client pods s w).calls) :
    c = callOf s (archiveArgv s.Name) none ∨
      (∃ w₁ out err t,
        client.stream w (callOf s (archiveArgv s.Name) none) = (w₁, Outcome.completed out err) ∧
        t ∈ pods ∧ s.Name ≠ t.Name ∧ c = callOf t extractArgv (some out)) ∨
      c = callOf s (cleanupArgv s.Name) none := by
  simp only [syncSource, bind_eq] at h
  rw [calls_say_bind] at h
  rcases mem_calls_bind _ _ w c h with h | ⟨a, ha, h⟩
  · left
    rcases exec_calls client s (archiveArgv s.Name) none w with h₁ | h₁ <;> rw [h₁] at h
    · simp at h
    · simpa using h
  · right
    have hs := (exec_ok client s (archiveArgv s.Name) none w a ha).1
    rcases mem_calls_bind _ _ _ c h with h | ⟨_, _, h⟩
    · left
      obtain ⟨t, ht, w₂, hc⟩ := mem_calls_forEach _ _ _ c h
      rcases syncTarget_calls client s t a.1 w₂ with h₁ | ⟨hne, h₁⟩ <;> rw [h₁] at hc
      · simp at hc
      · exact ⟨_, a.1, a.2, t, hs, ht, hne, by simpa using hc⟩
    · right
      rcases mem_calls_bind _ _ _ c h with h | ⟨r, _, h⟩
      · rcases exec_calls client s (cleanupArgv s.Name) none
          (forEach pods (syncTarget client s a.1) (exec client s (archiveArgv s.Name) none w).world).world
          with h₁ | h₁ <;> rw [h₁] at h
        · simp at h
        · simpa using h
      · rw [calls_sayBuffer_bind, report_calls] at h
        simp at h

/-- On a reliable remote side one source iteration finishes and issues, in this
order, the archive-create, one extraction per target fed with the returned
archive, and the cleanup. -/
theorem syncSource_reliable (client : Remote σ) (hR : client.Reliable) (pods : List Pod)
    (hp : ∀ p ∈ pods, p.Containers ≠ []) (s : Pod) (hs : s.Containers ≠ []) (w : σ) :
    ∃ w₁ out err,
      client.stream w (callOf s (archiveArgv s.Name) none) = (w₁, Outcome.completed out err) ∧
      (syncSource client pods s w).result = .ok () ∧
      (syncSource client pods s w).calls =
        callOf s (archiveArgv s.Name) none ::
          (targetsOf pods s).map (fun t => callOf t extractArgv (some out)) ++
          [callOf s (cleanupArgv s.Name) none] := by
  obtain ⟨w₁, out, err, hst, he⟩ := exec_reliable client hR s hs (archiveArgv s.Name) none w
  refine ⟨w₁, out, err, hst, ?_⟩
  simp only [syncSource, bind_eq]
  rw [say_bind, bind_of_ok _ _ w (out, err) (by rw [he])]
  simp only [he]
  obtain ⟨hfr, hfc⟩ := forEach_finishes id
    (fun t => if s.Name = t.Name then [] else [callOf t extractArgv (some out)]) pods
    (syncTarget client s out)
    (fun t ht w₂ => by simpa using syncTarget_reliable client hR s t (hp t ht) out w₂) w₁
  rw [List.map_id, flatMap_targets] at hfc
  rw [bind_of_ok _ _ w₁ () hfr]
  obtain ⟨w₃, out₃, err₃, _, he₃⟩ := exec_reliable client hR s hs (cleanupArgv s.Name) none
    (forEach pods (syncTarget client s out) w₁).world
  rw [bind_of_ok _ _ _ (out₃, err₃) (by rw [he₃])]
  simp only [he₃, sayBuffer_bind, report_run]
  constructor
  · trivial
  · simp only [Run.calls] at hfc
    simp [Run.calls, callsOf, callsOf_append, hfc]
    by_cases h₁ : err₃ = "" <;> simp [h₁, callsOf]

end SyncSource

/-! ## sync as a whole -/

section Sync

variable {σ : Type}

theorem syncBlock_eq (pods : List Pod) (s : Pod) (out : Bytes) :
    (callOf s (archiveArgv s.Name) none ::
        (targetsOf pods s).map (fun t => callOf t extractArgv (some out)) ++
        [callOf s (cleanupArgv s.Name) none]).map Call.op = syncBlock pods s := by
  simp [syncBlock, Call.op, callOf, Function.comp_def]

/-- On a reliable remote side `sync` finishes, and its operations are the blocks of
the sources in fleet order. -/
theorem sync_reliable (client : Remote σ) (hR : client.Reliable) (pods : List Pod)
    (hp : ∀ p ∈ pods, p.Containers ≠ []) (w : σ) :
    (sync client pods w).result = .ok () ∧
      (sync client pods w).calls.map Call.op = pods.flatMap (syncBlock pods) := by
  apply forEach_finishes Call.op (syncBlock pods) pods (syncSource client pods)
  intro s hs w₁
  obtain ⟨_, out, _, _, hr, hc⟩ := syncSource_reliable client hR pods hp s (hp s hs) w₁
  exact ⟨hr, by rw [hc, syncBlock_eq]⟩

end Sync

/-! ## syncFuzzerStats -/

section Stats

variable {σ : Type}

theorem syncFuzzerStatsTarget_skip (client : Remote σ) (s t : Pod) (content : Bytes) (w : σ)
    (h : s.Name = t.Name ∨ HasPrefix t.Name K8sWorkerPodPrefix = true) :
    syncFuzzerStatsTarget client s content t w = ⟨w, [], .ok ()⟩ := by
  by_cases h₁ : s.Name = t.Name
  · simp [syncFuzzerStatsTarget, h₁, pure_eq, Prog.pure]
  · have h₂ : HasPrefix t.Name K8sWorkerPodPrefix = true := h.resolve_left h₁
    simp [syncFuzzerStatsTarget, h₁, h₂, pure_eq, Prog.pure]

theorem exec_ok_calls (client : Remote σ) (pod : Pod) (command : List String)
    (stdin : Option Bytes) (w : σ) (r : Bytes × String)
    (h : (exec client pod command stdin w).result = .ok r) :
    (exec client pod command stdin w).calls = [callOf pod command stdin] := by
  unfold Run.calls
  rw [(exec_ok client pod command stdin w r h).2.1]
  rfl

theorem syncFuzzerStatsTarget_go (client : Remote σ) (s t : Pod) (content : Bytes) (w : σ)
    (h₁ : ¬ s.Name = t.Name) (h₂ : HasPrefix t.Name K8sWorkerPodPrefix = false) :
    syncFuzzerStatsTarget client s content t w =
      Prog.bind (say ("- Writing 'fuzzer_stats' file to pod " ++ t.Name ++ " \n"))
        (fun _ => Prog.bind (exec client t (mkdirArgv s.Name) (some []))
          (fun _ => Prog.bind (exec client t (statsWriteArgv s.Name) (some content))
            (fun r => if r.2 ≠ "" then say ("\nError:\n" ++ r.2 ++ "\n") else pure ()))) w := by
  simp only [syncFuzzerStatsTarget, h₁, h₂, if_false, bind_eq, Bool.false_eq_true]

/-- One pass of the inner loop of `syncFuzzerStats` issues nothing, or the mkdir,
or the mkdir followed by the write, both in a target that has another name than the
source and not the worker prefix. -/
theorem syncFuzzerStatsTarget_calls (client : Remote σ) (s t : Pod) (content : Bytes) (w : σ) :
    (syncFuzzerStatsTarget client s content t w).calls = [] ∨
      (s.Name ≠ t.Name ∧ HasPrefix t.Name K8sWorkerPodPrefix = false ∧
        ((syncFuzzerStatsTarget client s content t w).calls =
            [callOf t (mkdirArgv s.Name) (some [])] ∨
          (syncFuzzerStatsTarget client s content t w).calls =
            [callOf t (mkdirArgv s.Name) (some []),
              callOf t (statsWriteArgv s.Name) (some content)])) := by
  by_cases h : s.Name = t.Name ∨ HasPrefix t.Name K8sWorkerPodPrefix = true
  · left; rw [syncFuzzerStatsTarget_skip client s t content w h]; rfl
  · have h₁ : ¬ s.Name = t.Name := fun e => h (Or.inl e)
    have h₂ : HasPrefix t.Name K8sWorkerPodPrefix = false := by
      cases hh : HasPrefix t.Name K8sWorkerPodPrefix
      · rfl
      · exact absurd (Or.inr hh) h
    rw [syncFuzzerStatsTarget_go client s t content w h₁ h₂, calls_say_bind]
    rcases calls_bind (exec client t (mkdirArgv s.Name) (some [])) _ w with
      ⟨h₃, _⟩ | ⟨r, hr, h₃, _⟩
    · rw [h₃]
      rcases exec_calls client t (mkdirArgv s.Name) (some []) w with h₄ | h₄
      · left; exact h₄
      · right; exact ⟨h₁, h₂, Or.inl h₄⟩
    · rw [h₃, exec_ok_calls client t (mkdirArgv s.Name) (some []) w r hr]
      right
      refine ⟨h₁, h₂, ?_⟩
      rcases calls_bind (exec client t (statsWriteArgv s.Name) (some content)) _
          (exec client t (mkdirArgv s.Name) (some []) w).world with ⟨h₅, _⟩ | ⟨r₂, hr₂, h₅, _⟩
      · rw [h₅]
        rcases exec_calls client t (statsWriteArgv s.Name) (some content)
          (exec client t (mkdirArgv s.Name) (some []) w).world with h₆ | h₆
        · left; rw [h₆]; rfl
        · right; rw [h₆]; rfl
      · rw [h₅, report_calls, List.append_nil]
        rcases exec_calls client t (statsWriteArgv s.Name) (some content)
          (exec client t (mkdirArgv s.Name) (some []) w).world with h₆ | h₆
        · left; rw [h₆]; rfl
        · right; rw [h₆]; rfl

end Stats

section StatsSource

variable {σ : Type}

theorem flatMap_statsTargets {γ : Type} (pods : List Pod) (s : Pod) (f : Pod → List γ) :
    pods.flatMap (fun t =>
        if s.Name = t.Name ∨ HasPrefix t.Name K8sWorkerPodPrefix = true then [] else f t) =
      (statsTargetsOf pods s).flatMap f := by
  induction pods with
  | nil => rfl
  | cons p ps ih =>
    rw [List.flatMap_cons, ih]
    by_cases h : s.Name = p.Name
    · simp [statsTargetsOf, h]
    · cases h₂ : HasPrefix p.Name K8sWorkerPodPrefix <;> simp [statsTargetsOf, h, h₂]

/-- Every call of one source iteration of `syncFuzzerStats` is the read on the
source, or a mkdir or a write, fed with what the read returned, in a pod of the
fleet that has another name than the source and not the worker prefix. -/
theorem mem_calls_syncFuzzerStatsSource (client : Remote σ) (pods : List Pod) (s : Pod) (w : σ)
    (c : Call) (h : c ∈ (syncFuzzerStatsSource client pods s w).calls) :
    c = callOf s (statsReadArgv s.Name) none ∨
      ∃ w₁ out err t,
        client.stream w (callOf s (statsReadArgv s.Name) none) =
          (w₁, Outcome.completed out err) ∧
        t ∈ pods ∧ s.Name ≠ t.Name ∧ HasPrefix t.Name K8sWorkerPodPrefix = false ∧
        (c = callOf t (mkdirArgv s.Name) (some []) ∨
          c = callOf t (statsWriteArgv s.Name) (some out)) := by
  simp only [syncFuzzerStatsSource, bind_eq] at h
  rw [calls_say_bind] at h
  rcases mem_calls_bind _ _ w c h with h | ⟨a, ha, h⟩
  · left
    rcases exec_calls client s (statsReadArgv s.Name) none w with h₁ | h₁ <;> rw [h₁] at h
    · simp at h
    · simpa using h
  · right
    have hs := (exec_ok client s (statsReadArgv s.Name) none w a ha).1
    obtain ⟨t, ht, w₂, hc⟩ := mem_calls_forEach _ _ _ c h
    rcases syncFuzzerStatsTarget_calls client s t a.1 w₂ with h₁ | ⟨hne, hw, h₁ | h₁⟩ <;>
      rw [h₁] at hc
    · simp at hc
    · exact ⟨_, a.1, a.2, t, hs, ht, hne, hw, Or.inl (by simpa using hc)⟩
    · refine ⟨_, a.1, a.2, t, hs, ht, hne, hw, ?_⟩
      simpa using hc

theorem statsBlock_eq (pods : List Pod) (s : Pod) (out : Bytes) :
    (callOf s (statsReadArgv s.Name) none ::
        (statsTargetsOf pods s).flatMap (fun t =>
          [callOf t (mkdirArgv s.Name) (some []),
            callOf t (statsWriteArgv s.Name) (some out)])).map Call.op = statsBlock pods s := by
  simp [statsBlock, Call.op, callOf, List.map_flatMap]

end StatsSource

/-! ## whatsUp -/

section WhatsUp

variable {σ : Type}

theorem whatsUpPod_skip (client : Remote σ) (p : Pod) (w : σ)
    (h : ¬ HasPrefix p.Name K8sMasterPodPrefix = true) :
    whatsUpPod client p w = ⟨w, [], .ok ()⟩ := by
  simp [whatsUpPod, h, pure_eq, Prog.pure]

theorem whatsUpPod_go (client : Remote σ) (p : Pod) (w : σ)
    (h : HasPrefix p.Name K8sMasterPodPrefix = true) :
    whatsUpPod client p w =
      Prog.bind (say ("Stats on " ++ p.Name ++ ":\n\n"))
        (fun _ => Prog.bind (exec client p whatsUpArgv none)
          (fun r => Prog.bind (sayBuffer r.1)
            (fun _ => if r.2 ≠ "" then say ("\nError:\n" ++ r.2 ++ "\n") else pure ()))) w := by
  simp only [whatsUpPod, h, if_true, bind_eq]

theorem flatMap_masters (pods : List Pod) :
    pods.flatMap (fun p =>
        if HasPrefix p.Name K8sMasterPodPrefix = true then [(p, whatsUpArgv)] else []) =
      whatsUpBlock pods := by
  induction pods with
  | nil => rfl
  | cons p ps ih =>
    rw [List.flatMap_cons, ih]
    cases h : HasPrefix p.Name K8sMasterPodPrefix <;> simp [whatsUpBlock, h]

theorem whatsUp_run (client : Remote σ) (pods : List Pod) (w : σ) :
    whatsUp client pods w =
      ⟨(forEach pods (whatsUpPod client) w).world,
        Event.print ("Validating sync in " ++ toString WaitUntilValidate ++ " seconds ...\n") ::
          Event.sleep WaitUntilValidate :: Event.print "Getting status report ...\n\n" ::
          (forEach pods (whatsUpPod client) w).trace,
        (forEach pods (whatsUpPod client) w).result⟩ := by
  simp only [whatsUp, bind_eq]
  rw [say_bind, sleepFor_bind, say_bind]

end WhatsUp

/-! ## main -/

section Main

variable {σ : Type}

theorem listing_run (pods : List Pod) (w : σ) :
    forEach pods (fun pod => (say ("- " ++ pod.Name ++ " \n") : Prog σ Unit)) w =
      ⟨w, pods.map (fun pod => Event.print ("- " ++ pod.Name ++ " \n")), .ok ()⟩ := by
  induction pods with
  | nil => rfl
  | cons p ps ih =>
    rw [forEach_cons, say_bind, ih]
    rfl

theorem callsOf_prints (pods : List Pod) (f : Pod → String) :
    callsOf (pods.map (fun pod => Event.print (f pod))) = [] := by
  induction pods with
  | nil => rfl
  | cons p ps ih => simpa [callsOf] using ih

/-- The two closing prints of `main`. -/
theorem closing_run (w : σ) :
    Prog.bind (say "\n") (fun _ => (say "Sync finished!" : Prog σ Unit)) w =
      ⟨w, [Event.print "\n", Event.print "Sync finished!"], .ok ()⟩ := by
  rw [say_bind]; rfl

/-- The shape of `main` in stats-only mode. -/
theorem main_stats_eq (client : Remote σ) (env : Env) (pods : List Pod) (w : σ)
    (hcl : env.clientError = none) (hl : env.listing = .ok pods)
    (hs : env.SYNC_STATS_ONLY = some "1") :
    main client env w =
      ⟨(Prog.bind (syncFuzzerStats client pods)
          (fun _ => Prog.bind (say "\n") (fun _ => say "Sync finished!")) w).world,
        preamble env pods ++ [Event.print "Syncing only 'fuzzer_stats'! (SYNC_ONLY_STATS)\n",
          Event.print "\n"] ++
          (Prog.bind (syncFuzzerStats client pods)
            (fun _ => Prog.bind (say "\n") (fun _ => say "Sync finished!")) w).trace,
        (Prog.bind (syncFuzzerStats client pods)
          (fun _ => Prog.bind (say "\n") (fun _ => say "Sync finished!")) w).result⟩ := by
  simp only [main, hcl, hl, hs, Option.getD_some, decide_True, if_true, bind_eq]
  rw [say_bind, bind_of_ok _ _ w () (by rw [listing_run])]
  simp only [listing_run, say_bind, preamble]
  simp

/-- The shape of `main` in the default mode. -/
theorem main_full_eq (client : Remote σ) (env : Env) (pods : List Pod) (w : σ)
    (hcl : env.clientError = none) (hl : env.listing = .ok pods)
    (hs : env.SYNC_STATS_ONLY ≠ some "1") :
    main client env w =
      ⟨(Prog.bind (sync client pods) (fun _ => Prog.bind (whatsUp client pods)
          (fun _ => Prog.bind (say "\n") (fun _ => say "Sync finished!"))) w).world,
        preamble env pods ++ [Event.print "\n"] ++
          (Prog.bind (sync client pods) (fun _ => Prog.bind (whatsUp client pods)
            (fun _ => Prog.bind (say "\n") (fun _ => say "Sync finished!"))) w).trace,
        (Prog.bind (sync client pods) (fun _ => Prog.bind (whatsUp client pods)
          (fun _ => Prog.bind (say "\n") (fun _ => say "Sync finished!"))) w).result⟩ := by
  have hd : decide (env.SYNC_STATS_ONLY.getD "" = "1") = false := by
    cases h : env.SYNC_STATS_ONLY with
    | none => decide
    | some v =>
      have : v ≠ "1" := fun e => hs (by rw [h, e])
      simpa using this
  simp only [main, hcl, hl, hd, if_false, bind_eq, Bool.false_eq_true]
  rw [say_bind, bind_of_ok _ _ w () (by rw [listing_run])]
  simp only [listing_run, say_bind, preamble]
  simp

/-- In stats-only mode the calls of `main` are those of `syncFuzzerStats`. -/
theorem main_stats_calls (client : Remote σ) (env : Env) (pods : List Pod) (w : σ)
    (hcl : env.clientError = none) (hl : env.listing = .ok pods)
    (hs : env.SYNC_STATS_ONLY = some "1") :
    (main client env w).calls = (syncFuzzerStats client pods w).calls := by
  rw [main_stats_eq client env pods w hcl hl hs]
  have hp : callsOf (preamble env pods ++
      [Event.print "Syncing only 'fuzzer_stats'! (SYNC_ONLY_STATS)\n", Event.print "\n"]) = [] := by
    simp [preamble, callsOf, callsOf_append, callsOf_prints]
  simp only [Run.calls, callsOf_append, hp, List.nil_append]
  rcases calls_bind (syncFuzzerStats client pods)
      (fun _ => Prog.bind (say "\n") (fun _ => say "Sync finished!")) w with
    ⟨h₁, _⟩ | ⟨_, _, h₁, _⟩
  · exact h₁
  · rw [Run.calls, Run.calls] at h₁
    rw [h₁, closing_run]
    simp [Run.calls, callsOf]

end Main

/-! ## Roles and names -/

section Roles

theorem not_master_and_worker (name : String) (hm : HasPrefix name K8sMasterPodPrefix = true)
    (hw : HasPrefix name K8sWorkerPodPrefix = true) : False := by
  simp only [HasPrefix, List.isPrefixOf_iff_prefix] at hm hw
  have h := List.prefix_of_prefix_length_le hm hw (by decide)
  have h₁ := h.eq_of_length (by decide)
  exact absurd h₁ (by decide)

theorem roleOf_coordinator (name : String) :
    roleOf name = Role.Coordinator ↔ HasPrefix name K8sMasterPodPrefix = true := by
  unfold roleOf
  by_cases hm : HasPrefix name K8sMasterPodPrefix = true
  · simp [hm]
  · by_cases hw : HasPrefix name K8sWorkerPodPrefix = true <;> simp [hm, hw]

theorem roleOf_worker (name : String) :
    roleOf name = Role.Worker ↔ HasPrefix name K8sWorkerPodPrefix = true := by
  unfold roleOf
  by_cases hm : HasPrefix name K8sMasterPodPrefix = true
  · have hw : ¬ HasPrefix name K8sWorkerPodPrefix = true :=
      fun hw => not_master_and_worker name hm hw
    simp [hm, hw]
  · by_cases hw : HasPrefix name K8sWorkerPodPrefix = true <;> simp [hm, hw]

theorem roleOf_ne_worker (name : String) :
    roleOf name ≠ Role.Worker ↔ HasPrefix name K8sWorkerPodPrefix = false := by
  rw [Ne, roleOf_worker]; simp

/-- The names `coordinator-0`, `worker-0` and `worker-1` match neither of the prefixes
the program tests, which are `afl-master` and `afl-worker`. -/
theorem roleOf_scenario_placeholders :
    roleOf "coordinator-0" = Role.Unspecified ∧ roleOf "worker-0" = Role.Unspecified ∧
      roleOf "worker-1" = Role.Unspecified ∧ roleOf "afl-master-0" = Role.Coordinator ∧
      roleOf "afl-worker-0" = Role.Worker ∧ roleOf "afl-worker-1" = Role.Worker := by
  decide

/-- In a fleet with pairwise distinct names a pod is determined by its name. -/
theorem eq_of_name_eq {pods : List Pod} (hn : (pods.map Pod.Name).Nodup) {s t : Pod}
    (hs : s ∈ pods) (ht : t ∈ pods) (h : s.Name = t.Name) : s = t :=
  List.inj_on_of_nodup_map hn hs ht h

end Roles

/-! ## Counting operations -/

section Counting

theorem sum_map_const {α : Type} (l : List α) (f : α → Nat) (k : Nat)
    (h : ∀ x ∈ l, f x = k) : (l.map f).sum = l.length * k := by
  induction l with
  | nil => simp
  | cons x xs ih =>
    rw [List.map_cons, List.sum_cons, h x (List.mem_cons_self _ _),
      ih (fun y hy => h y (List.mem_cons_of_mem _ hy)), List.length_cons]
    ring

theorem countP_flatMap_sum {α β : Type} (p : β → Bool) (l : List α) (f : α → List β) :
    (l.flatMap f).countP p = (l.map (fun x => (f x).countP p)).sum := by
  induction l with
  | nil => simp
  | cons x xs ih => simp [List.flatMap_cons, List.countP_append, ih]

theorem countP_calls (p : Pod × List String → Bool) (l : List Call) :
    l.countP (fun c => p c.op) = (l.map Call.op).countP p := by
  rw [List.countP_map]; rfl

theorem isArchiveCreate_eq : isArchiveCreate = fun c => opIsArchiveCreate c.op := rfl
theorem isExtraction_eq : isExtraction = fun c => opIsExtraction c.op := rfl
theorem isCleanup_eq : isCleanup = fun c => opIsCleanup c.op := rfl
theorem isStatsRead_eq : isStatsRead = fun c => opIsStatsRead c.op := rfl
theorem isStatsWrite_eq : isStatsWrite = fun c => opIsStatsWrite c.op := rfl
theorem archiveArgv_ne_cleanupArgv (n m : String) : archiveArgv n ≠ cleanupArgv m := by
  intro h
  simp only [archiveArgv, cleanupArgv, List.cons.injEq, and_true, true_and] at h
  exact cmdArchive_ne_cmdCleanup n m h

theorem archiveArgv_ne_extractArgv (n : String) : archiveArgv n ≠ extractArgv := by
  intro h
  have h₁ := congrArg List.head? h
  simp [archiveArgv, extractArgv] at h₁

theorem cleanupArgv_ne_extractArgv (n : String) : cleanupArgv n ≠ extractArgv := by
  intro h
  have h₁ := congrArg List.head? h
  simp [cleanupArgv, extractArgv] at h₁

theorem archiveArgv_ne_whatsUpArgv (n : String) : archiveArgv n ≠ whatsUpArgv := by
  intro h
  simp only [archiveArgv, whatsUpArgv, List.cons.injEq, and_true, true_and] at h
  exact cmdArchive_ne_whatsUp n h

theorem cleanupArgv_ne_whatsUpArgv (n : String) : cleanupArgv n ≠ whatsUpArgv := by
  intro h
  simp only [cleanupArgv, whatsUpArgv, List.cons.injEq, and_true, true_and] at h
  exact cmdCleanup_ne_whatsUp n h

theorem extractArgv_ne_whatsUpArgv : extractArgv ≠ whatsUpArgv := by decide

theorem countP_map_const_false {α β : Type} (p : β → Bool) (l : List α) (f : α → β)
    (h : ∀ x, p (f x) = false) : (l.map f).countP p = 0 := by
  induction l with
  | nil => rfl
  | cons x xs ih => simp [List.countP_cons, h, ih]

theorem countP_map_const_true {α β : Type} (p : β → Bool) (l : List α) (f : α → β)
    (h : ∀ x, p (f x) = true) : (l.map f).countP p = l.length := by
  induction l with
  | nil => rfl
  | cons x xs ih => simp [List.countP_cons, h, ih]

theorem syncBlock_archives (pods : List Pod) (s : Pod) :
    (syncBlock pods s).countP opIsArchiveCreate = 1 := by
  have h₁ : ((targetsOf pods s).map (fun t => (t, extractArgv))).countP opIsArchiveCreate = 0 :=
    countP_map_const_false _ _ _ (fun t => by
      simpa [opIsArchiveCreate] using (archiveArgv_ne_extractArgv t.Name).symm)
  have h₂ : opIsArchiveCreate (s, cleanupArgv s.Name) = false := by
    simpa [opIsArchiveCreate] using (archiveArgv_ne_cleanupArgv s.Name s.Name).symm
  have h₀ : opIsArchiveCreate (s, archiveArgv s.Name) = true := by simp [opIsArchiveCreate]
  simp [syncBlock, List.countP_cons, List.countP_append, h₀, h₁, h₂]

theorem syncBlock_extractions (pods : List Pod) (s : Pod) :
    (syncBlock pods s).countP opIsExtraction = (targetsOf pods s).length := by
  have h₁ : ((targetsOf pods s).map (fun t => (t, extractArgv))).countP opIsExtraction =
      (targetsOf pods s).length :=
    countP_map_const_true _ _ _ (fun t => by simp [opIsExtraction])
  have h₂ : opIsExtraction (s, cleanupArgv s.Name) = false := by
    simpa [opIsExtraction] using cleanupArgv_ne_extractArgv s.Name
  have h₃ : opIsExtraction (s, archiveArgv s.Name) = false := by
    simpa [opIsExtraction] using archiveArgv_ne_extractArgv s.Name
  simp [syncBlock, List.countP_cons, List.countP_append, h₁, h₂, h₃]

theorem syncBlock_cleanups (pods : List Pod) (s : Pod) :
    (syncBlock pods s).countP opIsCleanup = 1 := by
  have h₁ : ((targetsOf pods s).map (fun t => (t, extractArgv))).countP opIsCleanup = 0 :=
    countP_map_const_false _ _ _ (fun t => by
      simpa [opIsCleanup] using (cleanupArgv_ne_extractArgv t.Name).symm)
  have h₃ : opIsCleanup (s, archiveArgv s.Name) = false := by
    simpa [opIsCleanup] using archiveArgv_ne_cleanupArgv s.Name s.Name
  have h₀ : opIsCleanup (s, cleanupArgv s.Name) = true := by simp [opIsCleanup]
  simp [syncBlock, List.countP_cons, List.countP_append, h₀, h₁, h₃]

/-- With pairwise distinct names every source has all the other pods as targets. -/
theorem length_targetsOf (pods : List Pod) (hn : (pods.map Pod.Name).Nodup) (s : Pod)
    (hs : s ∈ pods) : (targetsOf pods s).length = pods.length - 1 := by
  have h₁ : pods.countP (fun t => decide (s.Name = t.Name)) = 1 := by
    have h₂ : pods.countP (fun t => decide (s.Name = t.Name)) = pods.count s := by
      rw [List.count, List.countP_congr]
      intro t ht
      simp only [decide_eq_true_eq, beq_iff_eq]
      constructor
      · intro h; exact (eq_of_name_eq hn hs ht h).symm
      · intro h; rw [h]
    rw [h₂]
    exact List.count_eq_one_of_mem (List.Nodup.of_map _ hn) hs
  have h₃ := List.length_eq_countP_add_countP (fun t => decide (s.Name = t.Name)) pods
  have h₄ : (targetsOf pods s).length =
      pods.countP (fun t => decide ¬ (decide (s.Name = t.Name) = true)) := by
    rw [List.countP_eq_length_filter, targetsOf]
    congr 1
    apply List.filter_congr
    intro t _
    simp
  omega

end Counting

/-! ## Order by position -/

section Order

theorem name_eq_iff_index_eq (pods : List Pod) (hn : (pods.map Pod.Name).Nodup)
    (ip jt : Nat × Pod) (hi : ip ∈ pods.enum) (hj : jt ∈ pods.enum) :
    ip.2.Name = jt.2.Name ↔ ip.1 = jt.1 := by
  rw [List.mem_enum_iff_getElem?] at hi hj
  obtain ⟨hil, hie⟩ := List.getElem?_eq_some.mp hi
  obtain ⟨hjl, hje⟩ := List.getElem?_eq_some.mp hj
  constructor
  · intro h
    have hil₁ : ip.1 < (pods.map Pod.Name).length := by simpa using hil
    have hjl₁ : jt.1 < (pods.map Pod.Name).length := by simpa using hjl
    apply (@List.Nodup.getElem_inj_iff _ _ hn _ hil₁ _ hjl₁).mp
    simp [hie, hje, h]
  · intro h
    have : ip.2 = jt.2 := by
      rw [← hie, ← hje]
      simp [h]
    rw [this]

theorem syncOrder_eq (pods : List Pod) (hn : (pods.map Pod.Name).Nodup) :
    syncOrder pods = pods.flatMap (syncBlock pods) := by
  have h₁ : ∀ (l : List Pod) (g : Pod → List (Pod × List String)),
      l.flatMap g = l.enum.flatMap (fun ip => g ip.2) := by
    intro l g
    conv_lhs => rw [← List.enum_map_snd l]
    rw [List.flatMap_map]
  rw [h₁ pods (syncBlock pods), syncOrder]
  apply List.flatMap_congr
  intro ip hip
  have h₂ : targetsOf pods ip.2 =
      (pods.enum.filter (fun jt => decide (jt.1 ≠ ip.1))).map Prod.snd := by
    unfold targetsOf
    conv_lhs => rw [← List.enum_map_snd pods]
    rw [List.filter_map]
    congr 1
    apply List.filter_congr
    intro jt hjt
    have := name_eq_iff_index_eq pods hn ip jt hip hjt
    simp only [Function.comp, decide_eq_decide, ne_eq]
    rw [this]
    constructor <;> intro h e <;> exact h e.symm
  simp [syncBlock, h₂, List.map_map, Function.comp_def]

end Order

/-! ## Target sets and payloads, for any remote side -/

section AnyRemote

variable {σ : Type}

theorem mem_targetsOf {pods : List Pod} {s t : Pod} :
    t ∈ targetsOf pods s ↔ t ∈ pods ∧ s.Name ≠ t.Name := by
  simp [targetsOf]

theorem mem_statsTargetsOf {pods : List Pod} {s t : Pod} :
    t ∈ statsTargetsOf pods s ↔
      t ∈ pods ∧ s.Name ≠ t.Name ∧ HasPrefix t.Name K8sWorkerPodPrefix = false := by
  simp [statsTargetsOf]

theorem isExtraction_archive (s : Pod) (i : Option Bytes) :
    isExtraction (callOf s (archiveArgv s.Name) i) = false := by
  simpa [isExtraction, callOf] using archiveArgv_ne_extractArgv s.Name

theorem isExtraction_cleanup (s : Pod) (i : Option Bytes) :
    isExtraction (callOf s (cleanupArgv s.Name) i) = false := by
  simpa [isExtraction, callOf] using cleanupArgv_ne_extractArgv s.Name

theorem isStatsWrite_read (s : Pod) (n : String) (i : Option Bytes) :
    isStatsWrite (callOf s (statsReadArgv n) i) = false := by
  simp [isStatsWrite, callOf, statsReadArgv]

theorem isStatsWrite_mkdir (s : Pod) (n : String) (i : Option Bytes) :
    isStatsWrite (callOf s (mkdirArgv n) i) = false := by
  simp [isStatsWrite, callOf, mkdirArgv]

/-- C2: in both modes the source is never in its own target set.  Whatever the
remote side does, every extraction issued in the iteration of `sync` for source `s`,
and every mkdir and stats write issued in the iteration of `syncFuzzerStats` for
source `s`, is executed in a pod whose name differs from the name of `s`; the target
sets themselves hold no pod with the name of `s`; and every extraction and every
stats write of a whole run belongs to the iteration of such a source. -/
theorem C2_source_not_in_own_target_set (client : Remote σ) (pods : List Pod) (s : Pod)
    (w : σ) :
    (∀ c ∈ (syncSource client pods s w).calls, isExtraction c = true → c.pod.Name ≠ s.Name) ∧
      (∀ c ∈ (syncFuzzerStatsSource client pods s w).calls,
        c.command = mkdirArgv s.Name ∨ c.command = statsWriteArgv s.Name →
          c.pod.Name ≠ s.Name) ∧
      (∀ t ∈ targetsOf pods s, t.Name ≠ s.Name) ∧
      (∀ t ∈ statsTargetsOf pods s, t.Name ≠ s.Name) ∧
      (∀ c ∈ (sync client pods w).calls, isExtraction c = true →
        ∃ s₁ ∈ pods, ∃ v, c ∈ (syncSource client pods s₁ v).calls ∧ c.pod.Name ≠ s₁.Name) ∧
      (∀ c ∈ (syncFuzzerStats client pods w).calls, isStatsWrite c = true →
        ∃ s₁ ∈ pods, ∃ v, c ∈ (syncFuzzerStatsSource client pods s₁ v).calls ∧
          c.pod.Name ≠ s₁.Name) := by
  have h₁ : ∀ (s : Pod) (w : σ), ∀ c ∈ (syncSource client pods s w).calls,
      isExtraction c = true → c.pod.Name ≠ s.Name := by
    intro s w c hc he
    rcases mem_calls_syncSource client pods s w c hc with h | ⟨_, _, _, t, _, _, hne, h⟩ | h
    · rw [h, isExtraction_archive] at he; cases he
    · rw [h]; exact fun e => hne e.symm
    · rw [h, isExtraction_cleanup] at he; cases he
  have h₂ : ∀ (s : Pod) (w : σ), ∀ c ∈ (syncFuzzerStatsSource client pods s w).calls,
      c.command = mkdirArgv s.Name ∨ c.command = statsWriteArgv s.Name →
        c.pod.Name ≠ s.Name := by
    intro s w c hc hcmd
    rcases mem_calls_syncFuzzerStatsSource client pods s w c hc with
      h | ⟨_, _, _, t, _, _, hne, _, h | h⟩
    · rw [h] at hcmd
      rcases hcmd with e | e
      · simp [callOf, statsReadArgv, mkdirArgv] at e
      · simp [callOf, statsReadArgv, statsWriteArgv] at e
    · rw [h]; exact fun e => hne e.symm
    · rw [h]; exact fun e => hne e.symm
  refine ⟨h₁ s w, h₂ s w, ?_, ?_, ?_, ?_⟩
  · intro t ht
    exact fun e => (mem_targetsOf.mp ht).2 e.symm
  · intro t ht
    exact fun e => (mem_statsTargetsOf.mp ht).2.1 e.symm
  · intro c hc he
    obtain ⟨s₁, hs₁, v, hcv⟩ := mem_calls_forEach _ _ _ c hc
    exact ⟨s₁, hs₁, v, hcv, h₁ s₁ v c hcv he⟩
  · intro c hc he
    obtain ⟨s₁, hs₁, v, hcv⟩ := mem_calls_forEach _ _ _ c hc
    refine ⟨s₁, hs₁, v, hcv, ?_⟩
    rcases mem_calls_syncFuzzerStatsSource client pods s₁ v c hcv with
      h | ⟨_, _, _, t, _, _, hne, _, h | h⟩
    · rw [h, isStatsWrite_read] at he; cases he
    · rw [h]; exact fun e => hne e.symm
    · rw [h]; exact fun e => hne e.symm

end AnyRemote

/-! ## Failures -/

section Failures

variable {σ : Type}

/-- On a reliable remote side the trace of one pass of the inner loop of `sync` is
the announcement, the extraction and, when the command wrote to standard error, the
error print. -/
theorem syncTarget_trace (client : Remote σ) (hR : client.Reliable) (s t : Pod)
    (ht : t.Containers ≠ []) (hne : s.Name ≠ t.Name) (a : Bytes) (w : σ) :
    ∃ w₁ out err,
      client.stream w (callOf t extractArgv (some a)) = (w₁, Outcome.completed out err) ∧
      syncTarget client s a t w =
        ⟨w₁, [Event.print ("- Writing sync directory to pod " ++ t.Name ++ " \n"),
            Event.exec (callOf t extractArgv (some a))] ++
          (if err ≠ "" then [Event.print ("\nError:\n" ++ err ++ "\n")] else []), .ok ()⟩ := by
  obtain ⟨w₁, out, err, hs, he⟩ := exec_reliable client hR t ht extractArgv (some a) w
  refine ⟨w₁, out, err, hs, ?_⟩
  simp only [syncTarget, hne, if_false, bind_eq]
  rw [say_bind, bind_of_ok _ _ w (out, err) (by rw [he])]
  simp only [he, report_run]
  by_cases h₁ : err = "" <;> simp [h₁]

/-- A loop stops at the first pass that panics. -/
theorem forEach_stops {α : Type} (x : α) (xs : List α) (body : α → Prog σ Unit) (w : σ)
    (e : String) (h : (body x w).result = .error e) :
    forEach (x :: xs) body w = ⟨(body x w).world, (body x w).trace, .error e⟩ := by
  rw [forEach_cons, bind_of_error _ _ w e h]

/-- When the stream of the extraction into a target ends with an error, the pass
of the inner loop panics: nothing follows the extraction but the print of `exec`. -/
theorem syncTarget_stream_failed (client : Remote σ) (s t : Pod) (ht : t.Containers ≠ [])
    (hne : s.Name ≠ t.Name) (a : Bytes) (w w₁ : σ) (stderr err : String)
    (hk : client.connect (callOf t extractArgv (some a)) = none)
    (hs : client.stream w (callOf t extractArgv (some a)) = (w₁, Outcome.failed stderr err)) :
    syncTarget client s a t w =
      ⟨w₁, [Event.print ("- Writing sync directory to pod " ++ t.Name ++ " \n"),
        Event.exec (callOf t extractArgv (some a)),
        Event.print ("exec stderr: " ++ stderr ++ "\n")], .error err⟩ := by
  simp only [syncTarget, hne, if_false, bind_eq]
  have he := exec_failed client t extractArgv (some a) w w₁ stderr err ht hk hs
  rw [say_bind, bind_of_error _ _ w err (by rw [he]), he]

/-- When the stream of the archive-create ends with an error, the source iteration
panics right after it: no extraction, no cleanup. -/
theorem syncSource_stream_failed (client : Remote σ) (pods : List Pod) (s : Pod)
    (hc : s.Containers ≠ []) (w w₁ : σ) (stderr err : String)
    (hk : client.connect (callOf s (archiveArgv s.Name) none) = none)
    (hs : client.stream w (callOf s (archiveArgv s.Name) none) =
      (w₁, Outcome.failed stderr err)) :
    syncSource client pods s w =
      ⟨w₁, [Event.print ("Copying sync directory from pod " ++ s.Name ++ " \n"),
        Event.exec (callOf s (archiveArgv s.Name) none),
        Event.print ("exec stderr: " ++ stderr ++ "\n")], .error err⟩ := by
  simp only [syncSource, bind_eq]
  have he := exec_failed client s (archiveArgv s.Name) none w w₁ stderr err hc hk hs
  rw [say_bind, bind_of_error _ _ w err (by rw [he]), he]

end Failures

/-! ## StatsOnly mode: counts -/

section StatsCounts

variable {σ : Type}

theorem sum_map_add_const {α : Type} (l : List α) (f g : α → Nat) (k : Nat)
    (h : ∀ x ∈ l, f x + g x = k) : (l.map f).sum + (l.map g).sum = l.length * k := by
  induction l with
  | nil => simp
  | cons x xs ih =>
    have h₁ := h x (List.mem_cons_self _ _)
    have h₂ := ih (fun y hy => h y (List.mem_cons_of_mem _ hy))
    simp only [List.map_cons, List.sum_cons, List.length_cons, Nat.succ_mul]
    generalize xs.length * k = m at *
    omega

theorem sum_map_indicator {α : Type} (l : List α) (p : α → Bool) :
    (l.map (fun x => if p x = true then 1 else 0)).sum = l.countP p := by
  induction l with
  | nil => rfl
  | cons x xs ih =>
    rw [List.map_cons, List.sum_cons, ih, List.countP_cons]
    omega

theorem countP_split {α : Type} (l : List α) (p q : α → Bool) :
    l.countP (fun x => p x && q x) + l.countP (fun x => !p x && q x) = l.countP q := by
  induction l with
  | nil => rfl
  | cons x xs ih =>
    simp only [List.countP_cons]
    cases p x <;> cases q x <;> simp <;> omega

/-- With pairwise distinct names, the targets of a source in StatsOnly mode are the
non-worker pods, less the source itself when it is one of them. -/
theorem length_statsTargetsOf (pods : List Pod) (hn : (pods.map Pod.Name).Nodup) (s : Pod)
    (hs : s ∈ pods) :
    (statsTargetsOf pods s).length +
        (if (!HasPrefix s.Name K8sWorkerPodPrefix) = true then 1 else 0) =
      pods.countP (fun p => !HasPrefix p.Name K8sWorkerPodPrefix) := by
  have h₁ := countP_split pods (fun t => decide (s.Name ≠ t.Name))
    (fun p => !HasPrefix p.Name K8sWorkerPodPrefix)
  have h₂ : (statsTargetsOf pods s).length =
      pods.countP (fun x => decide (s.Name ≠ x.Name) && !HasPrefix x.Name K8sWorkerPodPrefix) := by
    rw [List.countP_eq_length_filter, statsTargetsOf]
  have h₃ : pods.countP
      (fun x => !decide (s.Name ≠ x.Name) && !HasPrefix x.Name K8sWorkerPodPrefix) =
      if (!HasPrefix s.Name K8sWorkerPodPrefix) = true then 1 else 0 := by
    have h₄ : pods.countP
        (fun x => !decide (s.Name ≠ x.Name) && !HasPrefix x.Name K8sWorkerPodPrefix) =
        pods.countP (fun x => (x == s) && !HasPrefix s.Name K8sWorkerPodPrefix) := by
      apply List.countP_congr
      intro t ht
      simp only [ne_eq, decide_not, Bool.not_not, Bool.and_eq_true, decide_eq_true_eq,
        Bool.not_eq_true', beq_iff_eq]
      constructor
      · rintro ⟨h, hw⟩
        have := eq_of_name_eq hn hs ht h
        subst this
        exact ⟨rfl, hw⟩
      · rintro ⟨h, hw⟩
        subst h
        exact ⟨rfl, hw⟩
    rw [h₄]
    cases hw : HasPrefix s.Name K8sWorkerPodPrefix
    · have : pods.countP (fun x => (x == s) && true) = pods.count s := by
        rw [List.count]; apply List.countP_congr; intro t _; simp
      simp only [Bool.not_false, if_true]
      rw [this]
      exact List.count_eq_one_of_mem (List.Nodup.of_map _ hn) hs
    · simp
  omega

theorem statsBlock_reads (pods : List Pod) (s : Pod) :
    (statsBlock pods s).countP opIsStatsRead = 1 := by
  have h₁ : ((statsTargetsOf pods s).flatMap
      (fun t => [(t, mkdirArgv s.Name), (t, statsWriteArgv s.Name)])).countP opIsStatsRead = 0 := by
    rw [List.countP_eq_zero]
    intro o ho
    obtain ⟨t, _, ho⟩ := List.mem_flatMap.mp ho
    simp only [List.mem_cons, List.mem_singleton, List.not_mem_nil, or_false] at ho
    rcases ho with ho | ho <;> rw [ho] <;>
      simp [opIsStatsRead, mkdirArgv, statsWriteArgv, statsReadArgv]
  have h₀ : opIsStatsRead (s, statsReadArgv s.Name) = true := by simp [opIsStatsRead]
  rw [statsBlock, List.countP_cons, h₁, h₀]
  rfl

theorem statsBlock_writes (pods : List Pod) (s : Pod) :
    (statsBlock pods s).countP opIsStatsWrite = (statsTargetsOf pods s).length := by
  have h₁ : ((statsTargetsOf pods s).flatMap
      (fun t => [(t, mkdirArgv s.Name), (t, statsWriteArgv s.Name)])).countP opIsStatsWrite =
      (statsTargetsOf pods s).length := by
    rw [countP_flatMap_sum, sum_map_const _ _ 1, Nat.mul_one]
    intro t _
    simp [List.countP_cons, opIsStatsWrite, mkdirArgv, statsWriteArgv]
  have h₀ : opIsStatsWrite (s, statsReadArgv s.Name) = false := by
    simp [opIsStatsWrite, statsReadArgv]
  rw [statsBlock, List.countP_cons, h₁, h₀]
  simp

/-- The writes of a whole StatsOnly pass, counted: with the k self-deliveries they
would make n*k. -/
theorem total_statsTargets (pods : List Pod) (hn : (pods.map Pod.Name).Nodup) :
    (pods.map (fun s => (statsTargetsOf pods s).length)).sum +
        pods.countP (fun p => !HasPrefix p.Name K8sWorkerPodPrefix) =
      pods.length * pods.countP (fun p => !HasPrefix p.Name K8sWorkerPodPrefix) := by
  rw [← sum_map_add_const pods (fun s => (statsTargetsOf pods s).length)
    (fun s => if (!HasPrefix s.Name K8sWorkerPodPrefix) = true then 1 else 0)
    (pods.countP (fun p => !HasPrefix p.Name K8sWorkerPodPrefix))
    (fun s hs => length_statsTargetsOf pods hn s hs)]
  rw [sum_map_indicator pods (fun p => !HasPrefix p.Name K8sWorkerPodPrefix)]

theorem mem_statsBlock_write (pods : List Pod) (s₁ s t : Pod)
    (h : (t, statsWriteArgv s.Name) ∈ statsBlock pods s₁) :
    s₁.Name = s.Name ∧ t ∈ statsTargetsOf pods s₁ := by
  simp only [statsBlock, List.mem_cons, List.mem_flatMap, Prod.mk.injEq, List.mem_singleton,
    List.not_mem_nil, or_false] at h
  rcases h with ⟨_, h⟩ | ⟨t₁, ht₁, ⟨_, h⟩ | ⟨rfl, h⟩⟩
  · simp [statsWriteArgv, statsReadArgv] at h
  · simp [statsWriteArgv, mkdirArgv] at h
  · simp only [statsWriteArgv, List.cons.injEq, and_true, true_and] at h
    exact ⟨(fuzzerStatsPath_injective h).symm, ht₁⟩

theorem mem_op_iff (l : List Call) (t : Pod) (cmd : List String) :
    (∃ c ∈ l, c.pod = t ∧ c.command = cmd) ↔ (t, cmd) ∈ l.map Call.op := by
  simp only [List.mem_map, Call.op, Prod.mk.injEq]

end StatsCounts

/-! ## StatsOnly mode: roles -/

section StatsClaims

variable {σ : Type}

theorem nonWorker_eq (pods : List Pod) :
    pods.countP (fun p => decide (roleOf p.Name ≠ Role.Worker)) =
      pods.countP (fun p => !HasPrefix p.Name K8sWorkerPodPrefix) := by
  apply List.countP_congr
  intro p _
  simp only [decide_eq_true_eq, Bool.not_eq_true']
  exact roleOf_ne_worker p.Name

end StatsClaims

section StatsOrder

variable {σ : Type}

theorem writesFollowMkdir_nil (pods : List Pod) : WritesFollowMkdir pods [] := by
  intro pre c post h
  simp at h

theorem writesFollowMkdir_append (pods : List Pod) (l₁ l₂ : List Call)
    (h₁ : WritesFollowMkdir pods l₁) (h₂ : WritesFollowMkdir pods l₂) :
    WritesFollowMkdir pods (l₁ ++ l₂) := by
  intro pre c post h hw
  rcases List.append_eq_append_iff.mp h with ⟨a, ha, hb⟩ | ⟨a, ha, hb⟩
  · -- pre = l₁ ++ a and l₂ = a ++ c :: post
    obtain ⟨pre₁, m, s, hs, hpre, hrest⟩ := h₂ a c post hb hw
    exact ⟨l₁ ++ pre₁, m, s, hs, by rw [ha, hpre, List.append_assoc], hrest⟩
  · -- l₁ = pre ++ a and c :: post = a ++ l₂
    cases a with
    | nil =>
      simp only [List.nil_append] at hb
      obtain ⟨pre₁, m, s, _, hpre, _⟩ := h₂ [] c post hb.symm hw
      simp at hpre
    | cons x a =>
      simp only [List.cons_append, List.cons.injEq] at hb
      obtain ⟨rfl, _⟩ := hb
      exact h₁ pre c a ha hw

theorem writesFollowMkdir_single (pods : List Pod) (c : Call) (h : isStatsWrite c = false) :
    WritesFollowMkdir pods [c] := by
  intro pre d post hl hw
  cases pre with
  | nil =>
    simp only [List.nil_append, List.cons.injEq] at hl
    rw [← hl.1, h] at hw
    cases hw
  | cons x pre => simp at hl

theorem writesFollowMkdir_pair (pods : List Pod) (s t : Pod) (hs : s ∈ pods)
    (i j : Option Bytes) :
    WritesFollowMkdir pods [callOf t (mkdirArgv s.Name) i, callOf t (statsWriteArgv s.Name) j] := by
  intro pre d post hl hw
  cases pre with
  | nil =>
    simp only [List.nil_append, List.cons.injEq] at hl
    rw [← hl.1, isStatsWrite_mkdir] at hw
    cases hw
  | cons x pre =>
    cases pre with
    | nil =>
      simp only [List.cons_append, List.nil_append, List.cons.injEq] at hl
      obtain ⟨hx, hd, _⟩ := hl
      refine ⟨[], x, s, hs, rfl, ?_, ?_, ?_⟩
      · rw [← hx, ← hd]; rfl
      · rw [← hx]; rfl
      · rw [← hd]; rfl
    | cons y pre => simp at hl

theorem writesFollowMkdir_source (client : Remote σ) (pods : List Pod) (s : Pod) (hs : s ∈ pods)
    (w : σ) : WritesFollowMkdir pods (syncFuzzerStatsSource client pods s w).calls := by
  simp only [syncFuzzerStatsSource, bind_eq]
  rw [calls_say_bind]
  have hread : WritesFollowMkdir pods (exec client s (statsReadArgv s.Name) none w).calls := by
    rcases exec_calls client s (statsReadArgv s.Name) none w with h | h <;> rw [h]
    · exact writesFollowMkdir_nil pods
    · exact writesFollowMkdir_single pods _ (isStatsWrite_read s s.Name none)
  rcases calls_bind (exec client s (statsReadArgv s.Name) none) _ w with ⟨h₁, _⟩ | ⟨a, _, h₁, _⟩
  · rw [h₁]; exact hread
  · rw [h₁]
    apply writesFollowMkdir_append pods _ _ hread
    apply forEach_calls_induction (WritesFollowMkdir pods) pods _
      (writesFollowMkdir_nil pods) (writesFollowMkdir_append pods)
    intro t _ w₁
    rcases syncFuzzerStatsTarget_calls client s t a.1 w₁ with h | ⟨_, _, h | h⟩ <;> rw [h]
    · exact writesFollowMkdir_nil pods
    · exact writesFollowMkdir_single pods _ (isStatsWrite_mkdir t s.Name _)
    · exact writesFollowMkdir_pair pods s t hs _ _

/-- A stats read is none of the operations of the default run. -/
theorem statsRead_is_no_sync_op (s : Pod) (i : Option Bytes) :
    isArchiveCreate (callOf s (statsReadArgv s.Name) i) = false ∧
      isExtraction (callOf s (statsReadArgv s.Name) i) = false ∧
      isCleanup (callOf s (statsReadArgv s.Name) i) = false ∧
      isStatusReport (callOf s (statsReadArgv s.Name) i) = false := by
  refine ⟨?_, ?_, ?_, ?_⟩
  · simpa [isArchiveCreate, callOf, statsReadArgv, archiveArgv] using
      cmdFuzzerStats_ne_cmdArchive s.Name s.Name
  · simp [isExtraction, callOf, statsReadArgv, extractArgv]
  · simpa [isCleanup, callOf, statsReadArgv, cleanupArgv] using
      cmdFuzzerStats_ne_cmdCleanup s.Name s.Name
  · simpa [isStatusReport, callOf, statsReadArgv, whatsUpArgv] using
      cmdFuzzerStats_ne_whatsUp s.Name

/-- A mkdir or a write is none of the operations of the default run. -/
theorem statsPush_is_no_sync_op (t : Pod) (n : String) (i : Option Bytes) :
    (isArchiveCreate (callOf t (mkdirArgv n) i) = false ∧
        isExtraction (callOf t (mkdirArgv n) i) = false ∧
        isCleanup (callOf t (mkdirArgv n) i) = false ∧
        isStatusReport (callOf t (mkdirArgv n) i) = false) ∧
      (isArchiveCreate (callOf t (statsWriteArgv n) i) = false ∧
        isExtraction (callOf t (statsWriteArgv n) i) = false ∧
        isCleanup (callOf t (statsWriteArgv n) i) = false ∧
        isStatusReport (callOf t (statsWriteArgv n) i) = false) := by
  simp [isArchiveCreate, isExtraction, isCleanup, isStatusReport, callOf, mkdirArgv,
    statsWriteArgv, archiveArgv, extractArgv, cleanupArgv, whatsUpArgv]

/-- C9: StatsOnly mode only reads, creates directories and writes.  Whatever the
remote side does, every command `syncFuzzerStats` issues is the read of
`sync/<source-name>/fuzzer_stats` in the source, a `mkdir --parents
sync/<source-name>` in a pod of the fleet, or a `cp /dev/stdin
sync/<source-name>/fuzzer_stats` in a pod of the fleet, and none is an
archive-create, an extraction, a cleanup or a status report; every such `cp` comes
right after the `mkdir` of the directory it writes into, in the same pod; and in
stats-only mode `main` issues nothing but the calls of `syncFuzzerStats`. -/
theorem C9_stats_only_reads_mkdirs_writes (client : Remote σ) (pods : List Pod) (w : σ)
    (ns : Option String) :
    (∀ c ∈ (syncFuzzerStats client pods w).calls, ∃ s ∈ pods,
        (c.pod = s ∧ c.command = ["sh", "-c", "cat " ++ (sourcePath s.Name ++ "/fuzzer_stats")]) ∨
        (c.pod ∈ pods ∧ c.command = ["mkdir", "--parents", sourcePath s.Name]) ∨
        (c.pod ∈ pods ∧
          c.command = ["cp", "/dev/stdin", sourcePath s.Name ++ "/fuzzer_stats"])) ∧
      (∀ c ∈ (syncFuzzerStats client pods w).calls,
        isArchiveCreate c = false ∧ isExtraction c = false ∧ isCleanup c = false ∧
          isStatusReport c = false) ∧
      WritesFollowMkdir pods (syncFuzzerStats client pods w).calls ∧
      (main client ⟨ns, some "1", none, .ok pods⟩ w).calls =
        (syncFuzzerStats client pods w).calls := by
  refine ⟨?_, ?_, ?_, main_stats_calls client _ pods w rfl rfl rfl⟩
  · intro c hc
    obtain ⟨s, hs, w₁, hcs⟩ := mem_calls_forEach _ _ _ c hc
    refine ⟨s, hs, ?_⟩
    rcases mem_calls_syncFuzzerStatsSource client pods s w₁ c hcs with
      h | ⟨_, _, _, t, _, ht, _, _, h | h⟩
    · left; rw [h]; exact ⟨rfl, rfl⟩
    · right; left; rw [h]; exact ⟨ht, rfl⟩
    · right; right; rw [h]; exact ⟨ht, rfl⟩
  · intro c hc
    obtain ⟨s, _, w₁, hcs⟩ := mem_calls_forEach _ _ _ c hc
    rcases mem_calls_syncFuzzerStatsSource client pods s w₁ c hcs with
      h | ⟨_, _, _, t, _, _, _, _, h | h⟩
    · rw [h]; exact statsRead_is_no_sync_op s none
    · rw [h]; exact (statsPush_is_no_sync_op t s.Name _).1
    · rw [h]; exact (statsPush_is_no_sync_op t s.Name _).2
  · apply forEach_calls_induction (WritesFollowMkdir pods) pods _
      (writesFollowMkdir_nil pods) (writesFollowMkdir_append pods)
    intro s hs w₁
    exact writesFollowMkdir_source client pods s hs w₁

end StatsOrder

/-! ## The default run -/

section DefaultRun

variable {σ : Type}

theorem coordinators_eq (pods : List Pod) :
    pods.filter (fun p => decide (roleOf p.Name = Role.Coordinator)) =
      pods.filter (fun p => HasPrefix p.Name K8sMasterPodPrefix) := by
  apply List.filter_congr
  intro p _
  by_cases h : HasPrefix p.Name K8sMasterPodPrefix = true
  · simp [h, (roleOf_coordinator p.Name).mpr h]
  · have : ¬ roleOf p.Name = Role.Coordinator := fun e => h ((roleOf_coordinator p.Name).mp e)
    simp [h, this]

end DefaultRun

/-! ## The remote state after a run -/

section Worlds

variable {σ α : Type}

theorem forEach_world (xs : List α) (body : α → Prog σ Unit)
    (hb : ∀ x ∈ xs, ∀ w, (body x w).result = .ok ()) (w : σ) :
    (forEach xs body w).world = xs.foldl (fun v x => (body x v).world) w := by
  induction xs generalizing w with
  | nil => rfl
  | cons x xs ih =>
    rw [forEach_cons, bind_of_ok _ _ w () (hb x (List.mem_cons_self _ _) w)]
    simp only [List.foldl_cons]
    exact ih (fun y hy => hb y (List.mem_cons_of_mem _ hy)) _

theorem foldl_congr_mem (xs : List α) (f g : σ → α → σ) (h : ∀ x ∈ xs, ∀ v, f v x = g v x)
    (w : σ) : xs.foldl f w = xs.foldl g w := by
  induction xs generalizing w with
  | nil => rfl
  | cons x xs ih =>
    simp only [List.foldl_cons]
    rw [h x (List.mem_cons_self _ _) w]
    exact ih (fun y hy => h y (List.mem_cons_of_mem _ hy)) _

theorem syncTarget_world (client : Remote σ) (hR : client.Reliable) (s t : Pod)
    (ht : t.Containers ≠ []) (a : Bytes) (w : σ) :
    (syncTarget client s a t w).world =
      if s.Name = t.Name then w else (client.stream w (callOf t extractArgv (some a))).1 := by
  by_cases h : s.Name = t.Name
  · rw [syncTarget_same client s t a w h, if_pos h]
  · obtain ⟨w₁, out, err, hst, he⟩ := syncTarget_trace client hR s t ht h a w
    rw [he, if_neg h, hst]

/-- On a reliable remote side, the state after one source iteration of `sync`: the
archive-create, then the extractions in fleet order, then the cleanup. -/
theorem syncSource_world (client : Remote σ) (hR : client.Reliable) (pods : List Pod)
    (hp : ∀ p ∈ pods, p.Containers ≠ []) (s : Pod) (hs : s.Containers ≠ []) (w : σ) :
    (syncSource client pods s w).world =
      (client.stream
        (pods.foldl (fun v t => if s.Name = t.Name then v else
            (client.stream v (callOf t extractArgv
              (some (client.stream w (callOf s (archiveArgv s.Name) none)).2.stdout))).1)
          (client.stream w (callOf s (archiveArgv s.Name) none)).1)
        (callOf s (cleanupArgv s.Name) none)).1 := by
  obtain ⟨w₁, out, err, hst, he⟩ := exec_reliable client hR s hs (archiveArgv s.Name) none w
  simp only [syncSource, bind_eq]
  rw [say_bind, bind_of_ok _ _ w (out, err) (by rw [he])]
  simp only [he, hst, Outcome.stdout]
  have hfr : ∀ t ∈ pods, ∀ v, (syncTarget client s out t v).result = .ok () :=
    fun t ht v => (syncTarget_reliable client hR s t (hp t ht) out v).1
  have hfr₁ := (forEach_finishes id
    (fun t => if s.Name = t.Name then [] else [callOf t extractArgv (some out)]) pods
    (syncTarget client s out)
    (fun t ht w₂ => by simpa using syncTarget_reliable client hR s t (hp t ht) out w₂) w₁).1
  rw [bind_of_ok _ _ w₁ () hfr₁]
  simp only
  rw [forEach_world pods (syncTarget client s out) hfr w₁,
    foldl_congr_mem pods _ _
      (fun t ht v => syncTarget_world client hR s t (hp t ht) out v) w₁]
  obtain ⟨w₃, out₃, err₃, hst₃, he₃⟩ := exec_reliable client hR s hs (cleanupArgv s.Name) none
    (pods.foldl (fun v t => if s.Name = t.Name then v else
      (client.stream v (callOf t extractArgv (some out))).1) w₁)
  rw [bind_of_ok _ _ _ (out₃, err₃) (by rw [he₃])]
  simp only [he₃, sayBuffer_bind, report_run, hst₃]

theorem sync_world (client : Remote σ) (hR : client.Reliable) (pods : List Pod)
    (hp : ∀ p ∈ pods, p.Containers ≠ []) (w : σ) :
    (sync client pods w).world = pods.foldl (fun v s => (syncSource client pods s v).world) w := by
  apply forEach_world
  intro s hs v
  obtain ⟨_, _, _, _, hr, _⟩ := syncSource_reliable client hR pods hp s (hp s hs) v
  exact hr

end Worlds

/-! ## Files: skip-existing extraction -/

section FilesLemmas

theorem fileAt_append (fs l : Files) (p : Path) (c : Bytes) (h : fileAt fs p = some c) :
    fileAt (fs ++ l) p = some c := by
  induction fs with
  | nil => simp [fileAt] at h
  | cons e rest ih =>
    simp only [List.cons_append, fileAt] at h ⊢
    by_cases he : e.1 = p
    · simpa [he] using h
    · simp only [he, if_false] at h ⊢
      exact ih h

theorem fileAt_append_new (fs : Files) (e : Path × Bytes) :
    (fileAt (fs ++ [e]) e.1).isSome = true := by
  induction fs with
  | nil => simp [fileAt]
  | cons x rest ih =>
    simp only [List.cons_append, fileAt]
    by_cases hx : x.1 = e.1
    · simp [hx]
    · simpa [hx] using ih

theorem extractInto_cons (fs : Files) (e : Path × Bytes) (m : Files) :
    extractInto fs (e :: m) =
      extractInto (if (fileAt fs e.1).isSome then fs else fs ++ [e]) m := rfl

/-- A file present before an extraction has the same content after it. -/
theorem extractInto_keeps (fs m : Files) (p : Path) (c : Bytes) (h : fileAt fs p = some c) :
    fileAt (extractInto fs m) p = some c := by
  induction m generalizing fs with
  | nil => exact h
  | cons e m ih =>
    rw [extractInto_cons]
    apply ih
    by_cases hp : (fileAt fs e.1).isSome = true
    · simpa [hp] using h
    · simp only [hp, if_false, Bool.false_eq_true]
      exact fileAt_append fs [e] p c h

theorem extractInto_keeps_isSome (fs m : Files) (p : Path) (h : (fileAt fs p).isSome = true) :
    (fileAt (extractInto fs m) p).isSome = true := by
  obtain ⟨c, hc⟩ := Option.isSome_iff_exists.mp h
  rw [extractInto_keeps fs m p c hc]
  rfl

/-- After an extraction every member of the archive exists. -/
theorem extractInto_present (fs m : Files) (e : Path × Bytes) (he : e ∈ m) :
    (fileAt (extractInto fs m) e.1).isSome = true := by
  induction m generalizing fs with
  | nil => simp at he
  | cons x m ih =>
    rw [extractInto_cons]
    rcases List.mem_cons.mp he with rfl | hm
    · apply extractInto_keeps_isSome
      by_cases hp : (fileAt fs e.1).isSome = true
      · simp [hp]
      · simp only [hp, if_false, Bool.false_eq_true]
        exact fileAt_append_new fs e
    · exact ih _ hm

/-- An extraction whose members all exist changes nothing. -/
theorem extractInto_noop (fs m : Files)
    (h : ∀ e ∈ m, (fileAt fs e.1).isSome = true) : extractInto fs m = fs := by
  induction m with
  | nil => rfl
  | cons x m ih =>
    rw [extractInto_cons]
    simp only [h x (List.mem_cons_self _ _), if_true]
    exact ih (fun e he => h e (List.mem_cons_of_mem _ he))

theorem head_of_mem_subtree (n : String) (fs : Files) (e : Path × Bytes)
    (h : e ∈ subtree n fs) : e.1.head? = some n := by
  simpa using (List.mem_filter.mp h).2

/-- An extraction of members from other directories leaves the directory `n` as it
is. -/
theorem subtree_extractInto (n : String) (fs m : Files)
    (h : ∀ e ∈ m, e.1.head? ≠ some n) : subtree n (extractInto fs m) = subtree n fs := by
  induction m generalizing fs with
  | nil => rfl
  | cons x m ih =>
    rw [extractInto_cons, ih _ (fun e he => h e (List.mem_cons_of_mem _ he))]
    by_cases hp : (fileAt fs x.1).isSome = true
    · simp [hp]
    · simp only [hp, if_false, Bool.false_eq_true, subtree, List.filter_append]
      have hx := h x (List.mem_cons_self _ _)
      simp [hx]

end FilesLemmas

/-! ## sync over the file model -/

section FileModel

variable (fmt : ArchiveFormat)

theorem fsRemote_reliable : (fsRemote fmt).Reliable := by
  refine ⟨fun _ => rfl, fun w c => ?_⟩
  simp only [fsRemote]
  split_ifs
  · exact ⟨_, _, _, rfl⟩
  · exact ⟨_, _, _, rfl⟩
  · exact ⟨_, _, _, rfl⟩
  · exact ⟨_, _, _, rfl⟩

theorem fs_archive (w : FleetFiles) (s : Pod) :
    (fsRemote fmt).stream w (callOf s (archiveArgv s.Name) none) =
      (createStep fmt w s,
        Outcome.completed (fmt.pack (subtree s.Name (w s.key).syncRoot)) "") := by
  simp [fsRemote, callOf]

theorem fs_extract (w : FleetFiles) (t : Pod) (a : Bytes) :
    (fsRemote fmt).stream w (callOf t extractArgv (some a)) =
      (extractStep fmt w t a, Outcome.completed [] "") := by
  have h : extractArgv ≠ archiveArgv t.Name := (archiveArgv_ne_extractArgv t.Name).symm
  simp [fsRemote, callOf, h]

theorem fs_cleanup (w : FleetFiles) (s : Pod) :
    (fsRemote fmt).stream w (callOf s (cleanupArgv s.Name) none) =
      (cleanupStep w s, Outcome.completed [] "") := by
  have h₁ : cleanupArgv s.Name ≠ archiveArgv s.Name :=
    (archiveArgv_ne_cleanupArgv s.Name s.Name).symm
  have h₂ : cleanupArgv s.Name ≠ extractArgv := cleanupArgv_ne_extractArgv s.Name
  simp [fsRemote, callOf, h₁, h₂]

/-- The files after one source iteration of `sync`: create, the extractions in the
pods with another name, cleanup. -/
theorem fs_syncSource_world (pods : List Pod) (hp : ∀ p ∈ pods, p.Containers ≠ []) (s : Pod)
    (hs : s.Containers ≠ []) (w : FleetFiles) :
    (syncSource (fsRemote fmt) pods s w).world =
      cleanupStep
        (pods.foldl (fun v t => if s.Name = t.Name then v else
            extractStep fmt v t (fmt.pack (subtree s.Name (w s.key).syncRoot)))
          (createStep fmt w s)) s := by
  rw [syncSource_world (fsRemote fmt) (fsRemote_reliable fmt) pods hp s hs w]
  simp only [fs_archive, fs_extract, fs_cleanup, Outcome.stdout]

end FileModel

section Steps

variable (fmt : ArchiveFormat)

theorem extractStep_other (v : FleetFiles) (t : Pod) (a : Bytes) (k : String × String)
    (h : k ≠ t.key) : extractStep fmt v t a k = v k := by
  simp [extractStep, Function.update_noteq h]

theorem extractStep_at (v : FleetFiles) (t : Pod) (a : Bytes) :
    extractStep fmt v t a t.key =
      ⟨extractInto (v t.key).syncRoot (fmt.unpack a), (v t.key).staging, (v t.key).archive⟩ := by
  simp [extractStep]

theorem extractStep_staging (v : FleetFiles) (t : Pod) (a : Bytes) (k : String × String) :
    (extractStep fmt v t a k).staging = (v k).staging ∧
      (extractStep fmt v t a k).archive = (v k).archive := by
  by_cases h : k = t.key
  · subst h; rw [extractStep_at]; exact ⟨rfl, rfl⟩
  · rw [extractStep_other fmt v t a k h]; exact ⟨rfl, rfl⟩

theorem extractStep_keeps (v : FleetFiles) (t : Pod) (a : Bytes) (k : String × String)
    (p : Path) (c : Bytes) (h : fileAt (v k).syncRoot p = some c) :
    fileAt (extractStep fmt v t a k).syncRoot p = some c := by
  by_cases hk : k = t.key
  · subst hk; rw [extractStep_at]; exact extractInto_keeps _ _ p c h
  · rw [extractStep_other fmt v t a k hk]; exact h

theorem extractStep_own (v : FleetFiles) (t : Pod) (a : Bytes) (n : String)
    (hm : ∀ e ∈ fmt.unpack a, e.1.head? = some n) (hn : n ≠ t.Name) (k : String × String) :
    subtree k.2 (extractStep fmt v t a k).syncRoot = subtree k.2 (v k).syncRoot := by
  by_cases hk : k = t.key
  · subst hk
    rw [extractStep_at]
    apply subtree_extractInto
    intro e he
    rw [hm e he]
    intro h
    exact hn (Option.some.inj h)
  · rw [extractStep_other fmt v t a k hk]

theorem podFiles_eta (f : PodFiles) : (⟨f.syncRoot, f.staging, f.archive⟩ : PodFiles) = f := by
  cases f; rfl

theorem extractStep_noop (v : FleetFiles) (t : Pod) (a : Bytes)
    (h : ∀ e ∈ fmt.unpack a, (fileAt (v t.key).syncRoot e.1).isSome = true) :
    extractStep fmt v t a = v := by
  unfold extractStep
  rw [extractInto_noop _ _ h, podFiles_eta]
  exact Function.update_eq_self _ _

theorem deliver_cons_eq (s t : Pod) (ts : List Pod) (a : Bytes) (v : FleetFiles) :
    deliver fmt s a (t :: ts) v =
      deliver fmt s a ts (if s.Name = t.Name then v else extractStep fmt v t a) := rfl

theorem deliver_staging (s : Pod) (a : Bytes) (ts : List Pod) (v : FleetFiles)
    (k : String × String) :
    (deliver fmt s a ts v k).staging = (v k).staging ∧
      (deliver fmt s a ts v k).archive = (v k).archive := by
  induction ts generalizing v with
  | nil => exact ⟨rfl, rfl⟩
  | cons t ts ih =>
    rw [deliver_cons_eq]
    by_cases h : s.Name = t.Name
    · simpa [h] using ih v
    · simp only [h, if_false]
      obtain ⟨h₁, h₂⟩ := ih (extractStep fmt v t a)
      obtain ⟨h₃, h₄⟩ := extractStep_staging fmt v t a k
      exact ⟨h₁.trans h₃, h₂.trans h₄⟩

theorem deliver_keeps (s : Pod) (a : Bytes) (ts : List Pod) (v : FleetFiles)
    (k : String × String) (p : Path) (c : Bytes) (h : fileAt (v k).syncRoot p = some c) :
    fileAt (deliver fmt s a ts v k).syncRoot p = some c := by
  induction ts generalizing v with
  | nil => exact h
  | cons t ts ih =>
    rw [deliver_cons_eq]
    by_cases hn : s.Name = t.Name
    · simpa [hn] using ih v h
    · simp only [hn, if_false]
      exact ih _ (extractStep_keeps fmt v t a k p c h)

theorem deliver_own (s : Pod) (a : Bytes) (ts : List Pod) (v : FleetFiles)
    (hm : ∀ e ∈ fmt.unpack a, e.1.head? = some s.Name) (k : String × String) :
    subtree k.2 (deliver fmt s a ts v k).syncRoot = subtree k.2 (v k).syncRoot := by
  induction ts generalizing v with
  | nil => rfl
  | cons t ts ih =>
    rw [deliver_cons_eq]
    by_cases hn : s.Name = t.Name
    · simpa [hn] using ih v
    · simp only [hn, if_false]
      rw [ih, extractStep_own fmt v t a s.Name hm hn k]

theorem deliver_present (s : Pod) (a : Bytes) (ts : List Pod) (v : FleetFiles) (t : Pod)
    (ht : t ∈ ts) (hn : s.Name ≠ t.Name) (e : Path × Bytes) (he : e ∈ fmt.unpack a) :
    (fileAt (deliver fmt s a ts v t.key).syncRoot e.1).isSome = true := by
  induction ts generalizing v with
  | nil => simp at ht
  | cons x ts ih =>
    rw [deliver_cons_eq]
    rcases List.mem_cons.mp ht with rfl | hmem
    · simp only [hn, if_false]
      have h₁ : (fileAt (extractStep fmt v t a t.key).syncRoot e.1).isSome = true := by
        rw [extractStep_at]
        exact extractInto_present _ _ e he
      obtain ⟨c, hc⟩ := Option.isSome_iff_exists.mp h₁
      rw [deliver_keeps fmt s a ts _ t.key e.1 c hc]
      rfl
    · exact ih _ hmem

theorem deliver_noop (s : Pod) (a : Bytes) (ts : List Pod) (v : FleetFiles)
    (h : ∀ t ∈ ts, s.Name ≠ t.Name →
      ∀ e ∈ fmt.unpack a, (fileAt (v t.key).syncRoot e.1).isSome = true) :
    deliver fmt s a ts v = v := by
  induction ts with
  | nil => rfl
  | cons t ts ih =>
    rw [deliver_cons_eq]
    by_cases hn : s.Name = t.Name
    · simp only [hn, if_true]
      exact ih (fun x hx => h x (List.mem_cons_of_mem _ hx))
    · simp only [hn, if_false]
      rw [extractStep_noop fmt v t a (h t (List.mem_cons_self _ _) hn)]
      exact ih (fun x hx => h x (List.mem_cons_of_mem _ hx))

end Steps

section Iterations

variable (fmt : ArchiveFormat)

theorem createStep_syncRoot (w : FleetFiles) (s : Pod) (k : String × String) :
    (createStep fmt w s k).syncRoot = (w k).syncRoot := by
  by_cases h : k = s.key
  · subst h; simp [createStep]
  · simp [createStep, Function.update_noteq h]

theorem createStep_other (w : FleetFiles) (s : Pod) (k : String × String) (h : k ≠ s.key) :
    createStep fmt w s k = w k := by
  simp [createStep, Function.update_noteq h]

theorem cleanupStep_syncRoot (v : FleetFiles) (s : Pod) (k : String × String) :
    (cleanupStep v s k).syncRoot = (v k).syncRoot := by
  by_cases h : k = s.key
  · subst h; simp [cleanupStep]
  · simp [cleanupStep, Function.update_noteq h]

theorem cleanupStep_at (v : FleetFiles) (s : Pod) :
    (cleanupStep v s s.key).staging = none ∧ (cleanupStep v s s.key).archive = none := by
  simp [cleanupStep]

theorem cleanupStep_other (v : FleetFiles) (s : Pod) (k : String × String) (h : k ≠ s.key) :
    cleanupStep v s k = v k := by
  simp [cleanupStep, Function.update_noteq h]

/-- The members of the archive of a source are the files of its sync
sub-directory. -/
theorem members_eq (w : FleetFiles) (s : Pod) :
    fmt.unpack (fmt.pack (subtree s.Name (w s.key).syncRoot)) =
      subtree s.Name (w s.key).syncRoot :=
  fmt.unpack_pack _

theorem afterSource_own (pods : List Pod) (s : Pod) (w : FleetFiles) (k : String × String) :
    subtree k.2 (afterSource fmt pods s w k).syncRoot = subtree k.2 (w k).syncRoot := by
  unfold afterSource
  rw [cleanupStep_syncRoot, deliver_own fmt s _ pods _ _ k, createStep_syncRoot]
  intro e he
  rw [members_eq] at he
  exact head_of_mem_subtree s.Name _ e he

theorem afterSource_keeps (pods : List Pod) (s : Pod) (w : FleetFiles) (k : String × String)
    (p : Path) (c : Bytes) (h : fileAt (w k).syncRoot p = some c) :
    fileAt (afterSource fmt pods s w k).syncRoot p = some c := by
  unfold afterSource
  rw [cleanupStep_syncRoot]
  apply deliver_keeps
  rw [createStep_syncRoot]
  exact h

theorem afterSource_staging_at (pods : List Pod) (s : Pod) (w : FleetFiles) :
    (afterSource fmt pods s w s.key).staging = none ∧
      (afterSource fmt pods s w s.key).archive = none :=
  cleanupStep_at _ s

theorem afterSource_staging_other (pods : List Pod) (s : Pod) (w : FleetFiles)
    (k : String × String) (h : k ≠ s.key) :
    (afterSource fmt pods s w k).staging = (w k).staging ∧
      (afterSource fmt pods s w k).archive = (w k).archive := by
  unfold afterSource
  rw [cleanupStep_other _ s k h]
  obtain ⟨h₁, h₂⟩ := deliver_staging fmt s
    (fmt.pack (subtree s.Name (w s.key).syncRoot)) pods (createStep fmt w s) k
  rw [h₁, h₂, createStep_other fmt w s k h]
  exact ⟨rfl, rfl⟩

theorem afterSource_present (pods : List Pod) (s : Pod) (w : FleetFiles) (t : Pod)
    (ht : t ∈ pods) (hn : s.Name ≠ t.Name) (e : Path × Bytes)
    (he : e ∈ subtree s.Name (w s.key).syncRoot) :
    (fileAt (afterSource fmt pods s w t.key).syncRoot e.1).isSome = true := by
  unfold afterSource
  rw [cleanupStep_syncRoot]
  apply deliver_present fmt s _ pods _ t ht hn e
  rw [members_eq]
  exact he

/-- On a settled fleet a source iteration changes nothing. -/
theorem afterSource_settled (pods : List Pod) (s : Pod) (w : FleetFiles)
    (hw : Settled pods w) (hs : s ∈ pods) : afterSource fmt pods s w = w := by
  unfold afterSource
  rw [deliver_noop]
  · unfold cleanupStep createStep
    rw [Function.update_idem]
    simp only [Function.update_same]
    have h := hw.1 s hs
    have : (⟨(w s.key).syncRoot, none, none⟩ : PodFiles) = w s.key := by
      rw [← podFiles_eta (w s.key), h.1, h.2]
    rw [this]
    exact Function.update_eq_self _ _
  · intro t ht hn e he
    rw [members_eq] at he
    rw [createStep_syncRoot]
    exact hw.2 s hs t ht hn e he

theorem afterSync_cons (pods : List Pod) (x : Pod) (xs : List Pod) (w : FleetFiles) :
    afterSync fmt pods (x :: xs) w = afterSync fmt pods xs (afterSource fmt pods x w) := rfl

theorem afterSync_own (pods xs : List Pod) (w : FleetFiles) (k : String × String) :
    subtree k.2 (afterSync fmt pods xs w k).syncRoot = subtree k.2 (w k).syncRoot := by
  induction xs generalizing w with
  | nil => rfl
  | cons x xs ih => rw [afterSync_cons, ih, afterSource_own]

theorem afterSync_keeps (pods xs : List Pod) (w : FleetFiles) (k : String × String)
    (p : Path) (c : Bytes) (h : fileAt (w k).syncRoot p = some c) :
    fileAt (afterSync fmt pods xs w k).syncRoot p = some c := by
  induction xs generalizing w with
  | nil => exact h
  | cons x xs ih =>
    rw [afterSync_cons]
    exact ih _ (afterSource_keeps fmt pods x w k p c h)

theorem afterSync_clean_kept (pods xs : List Pod) (w : FleetFiles) (k : String × String)
    (h : (w k).staging = none ∧ (w k).archive = none) :
    (afterSync fmt pods xs w k).staging = none ∧ (afterSync fmt pods xs w k).archive = none := by
  induction xs generalizing w with
  | nil => exact h
  | cons x xs ih =>
    rw [afterSync_cons]
    apply ih
    by_cases hk : k = x.key
    · subst hk; exact afterSource_staging_at fmt pods x w
    · obtain ⟨h₁, h₂⟩ := afterSource_staging_other fmt pods x w k hk
      exact ⟨h₁.trans h.1, h₂.trans h.2⟩

theorem afterSync_clean (pods xs : List Pod) (w : FleetFiles) (s : Pod) (hs : s ∈ xs) :
    (afterSync fmt pods xs w s.key).staging = none ∧
      (afterSync fmt pods xs w s.key).archive = none := by
  induction xs generalizing w with
  | nil => simp at hs
  | cons x xs ih =>
    rw [afterSync_cons]
    rcases List.mem_cons.mp hs with rfl | hmem
    · exact afterSync_clean_kept fmt pods xs _ _ (afterSource_staging_at fmt pods s w)
    · exact ih _ hmem

theorem afterSync_present (pods xs : List Pod) (w : FleetFiles) (s t : Pod) (hs : s ∈ xs)
    (ht : t ∈ pods) (hn : s.Name ≠ t.Name) (e : Path × Bytes)
    (he : e ∈ subtree s.Name (afterSync fmt pods xs w s.key).syncRoot) :
    (fileAt (afterSync fmt pods xs w t.key).syncRoot e.1).isSome = true := by
  induction xs generalizing w with
  | nil => simp at hs
  | cons x xs ih =>
    rw [afterSync_cons] at he ⊢
    rcases List.mem_cons.mp hs with rfl | hmem
    · have he₁ : e ∈ subtree s.Name (w s.key).syncRoot := by
        have h₁ := afterSync_own fmt pods xs (afterSource fmt pods s w) s.key
        have h₂ := afterSource_own fmt pods s w s.key
        simp only [Pod.key] at h₁ h₂ he
        rw [h₁, h₂] at he
        exact he
      have hp := afterSource_present fmt pods s w t ht hn e he₁
      obtain ⟨c, hc⟩ := Option.isSome_iff_exists.mp hp
      rw [afterSync_keeps fmt pods xs _ t.key e.1 c hc]
      rfl
    · exact ih _ hmem he

/-- After a pass over the whole fleet the fleet is settled. -/
theorem afterSync_settled (pods : List Pod) (w : FleetFiles) :
    Settled pods (afterSync fmt pods pods w) :=
  ⟨fun s hs => afterSync_clean fmt pods pods w s hs,
    fun s hs t ht hn e he => afterSync_present fmt pods pods w s t hs ht hn e he⟩

/-- A pass over a settled fleet changes nothing. -/
theorem afterSync_of_settled (pods xs : List Pod) (w : FleetFiles) (hw : Settled pods w)
    (hx : ∀ x ∈ xs, x ∈ pods) : afterSync fmt pods xs w = w := by
  induction xs with
  | nil => rfl
  | cons x xs ih =>
    rw [afterSync_cons, afterSource_settled fmt pods x w hw (hx x (List.mem_cons_self _ _))]
    exact ih (fun y hy => hx y (List.mem_cons_of_mem _ hy))

/-- The files after `sync` over the file model. -/
theorem fs_sync_world (pods : List Pod) (hp : ∀ p ∈ pods, p.Containers ≠ [])
    (w : FleetFiles) : (sync (fsRemote fmt) pods w).world = afterSync fmt pods pods w := by
  rw [sync_world (fsRemote fmt) (fsRemote_reliable fmt) pods hp w]
  unfold afterSync
  apply foldl_congr_mem
  intro s hs v
  rw [fs_syncSource_world fmt pods hp s (hp s hs) v]
  rfl

end Iterations

/-! ## Extraction and idempotence -/

section Idempotence

variable {σ : Type}

/-- C10: extraction never overwrites and a second pass changes nothing.  Every call
`sync` issues besides the archive-create and the cleanup on the source is `tar
--skip-old-files -xzf /dev/stdin --directory sync/` with the archive on standard
input, in a pod with another name.  With that command taken as the skip-existing
unpack of the archive below the sync root (for any archive format that gives back
what was packed), a file present in the target before an extraction has the same
content after it, and running `sync` a second time on the files the first run left
finishes and leaves the files of every instance exactly as they were after the
first run. -/
theorem C10_extraction_skips_existing_and_sync_is_idempotent (client : Remote σ)
    (fmt : ArchiveFormat) (pods : List Pod) (hc : ∀ p ∈ pods, p.Containers ≠ [])
    (w : FleetFiles) :
    (∀ (s : Pod) (v : σ), ∀ c ∈ (syncSource client pods s v).calls,
        c = callOf s (archiveArgv s.Name) none ∨ c = callOf s (cleanupArgv s.Name) none ∨
          (c.command = ["tar", "--skip-old-files", "-xzf", "/dev/stdin", "--directory", "sync/"] ∧
            c.stdin.isSome = true ∧ c.pod ∈ pods ∧ c.pod.Name ≠ s.Name)) ∧
      (∀ (v : FleetFiles) (t : Pod) (a : Bytes) (p : Path) (c : Bytes),
        fileAt (v t.key).syncRoot p = some c →
          fileAt (((fsRemote fmt).stream v (callOf t extractArgv (some a))).1 t.key).syncRoot p =
            some c) ∧
      (sync (fsRemote fmt) pods w).result = .ok () ∧
      (sync (fsRemote fmt) pods (sync (fsRemote fmt) pods w).world).result = .ok () ∧
      (sync (fsRemote fmt) pods (sync (fsRemote fmt) pods w).world).world =
        (sync (fsRemote fmt) pods w).world := by
  refine ⟨?_, ?_, ?_, ?_, ?_⟩
  · intro s v c hcm
    rcases mem_calls_syncSource client pods s v c hcm with h | ⟨_, out, _, t, _, ht, hne, h⟩ | h
    · exact Or.inl h
    · right; right
      rw [h]
      exact ⟨rfl, rfl, ht, fun e => hne e.symm⟩
    · exact Or.inr (Or.inl h)
  · intro v t a p c h
    rw [fs_extract]
    exact extractStep_keeps fmt v t a t.key p c h
  · exact (sync_reliable (fsRemote fmt) (fsRemote_reliable fmt) pods hc w).1
  · exact (sync_reliable (fsRemote fmt) (fsRemote_reliable fmt) pods hc _).1
  · rw [fs_sync_world fmt pods hc w, fs_sync_world fmt pods hc _]
    exact afterSync_of_settled fmt pods pods _ (afterSync_settled fmt pods w) (fun _ h => h)

/-- C10, witness: the scenario fleet with the concrete archive format.  Before the
first run `afl-master-0` already holds a file of `afl-worker-0`; it keeps its
content, and the file of `afl-worker-1` arrives. -/
theorem C10_idempotent_witness :
    ((∀ p ∈ scenarioFleet, p.Containers ≠ []) ∧
      (∀ (s : Pod) (v : FleetFiles),
        ∀ c ∈ (syncSource (fsRemote plainFormat) scenarioFleet s v).calls,
        c = callOf s (archiveArgv s.Name) none ∨ c = callOf s (cleanupArgv s.Name) none ∨
          (c.command = ["tar", "--skip-old-files", "-xzf", "/dev/stdin", "--directory", "sync/"] ∧
            c.stdin.isSome = true ∧ c.pod ∈ scenarioFleet ∧ c.pod.Name ≠ s.Name)) ∧
      (∀ (v : FleetFiles) (t : Pod) (a : Bytes) (p : Path) (c : Bytes),
        fileAt (v t.key).syncRoot p = some c →
          fileAt (((fsRemote plainFormat).stream v (callOf t extractArgv (some a))).1
            t.key).syncRoot p = some c) ∧
      (sync (fsRemote plainFormat) scenarioFleet scenarioFiles).result = .ok () ∧
      (sync (fsRemote plainFormat) scenarioFleet
        (sync (fsRemote plainFormat) scenarioFleet scenarioFiles).world).result = .ok () ∧
      (sync (fsRemote plainFormat) scenarioFleet
        (sync (fsRemote plainFormat) scenarioFleet scenarioFiles).world).world =
        (sync (fsRemote plainFormat) scenarioFleet scenarioFiles).world) ∧
      fileAt (scenarioFiles ("kubefuzz", "afl-master-0")).syncRoot
        ["afl-worker-0", "queue", "id:000000"] = some [90] ∧
      fileAt ((sync (fsRemote plainFormat) scenarioFleet scenarioFiles).world
        ("kubefuzz", "afl-master-0")).syncRoot ["afl-worker-0", "queue", "id:000000"] =
        some [90] ∧
      fileAt ((sync (fsRemote plainFormat) scenarioFleet scenarioFiles).world
        ("kubefuzz", "afl-master-0")).syncRoot ["afl-worker-1", "queue", "id:000000"] =
        some [67] :=
  ⟨⟨by decide, C10_extraction_skips_existing_and_sync_is_idempotent (fsRemote plainFormat)
    plainFormat scenarioFleet (by decide) scenarioFiles⟩, by decide, by decide, by decide⟩

end Idempotence

/-! ## Runs that finish

What a run that was not ended by a panic has issued, for any remote side. -/

section Finished

variable {σ α β : Type}

/-- A bind that finished: its first part finished, and the second part finished from
the state the first part reached. -/
theorem bind_finished (m : Prog σ α) (f : α → Prog σ β) (w : σ) (b : β)
    (h : (Prog.bind m f w).result = .ok b) :
    ∃ a, (m w).result = .ok a ∧ (f a (m w).world).result = .ok b ∧
      Prog.bind m f w =
        ⟨(f a (m w).world).world, (m w).trace ++ (f a (m w).world).trace, .ok b⟩ := by
  cases hr : (m w).result with
  | error e =>
    rw [bind_of_error m f w e hr] at h
    simp at h
  | ok a =>
    rw [bind_of_ok m f w a hr] at h ⊢
    simp only at h
    exact ⟨a, rfl, h, by rw [h]⟩

theorem say_bind_finished (s : String) (f : Unit → Prog σ β) (w : σ) (b : β)
    (h : (Prog.bind (say s) f w).result = .ok b) : (f () w).result = .ok b := by
  rwa [say_bind] at h

/-- A loop that finished: every pass finished, and the calls of the loop are those of
the passes in order. -/
theorem forEach_finished {γ : Type} (π : Call → γ) (g : α → List γ) (xs : List α)
    (body : α → Prog σ Unit)
    (hb : ∀ x ∈ xs, ∀ v, (body x v).result = .ok () → (body x v).calls.map π = g x) (w : σ)
    (h : (forEach xs body w).result = .ok ()) :
    (forEach xs body w).calls.map π = xs.flatMap g := by
  induction xs generalizing w with
  | nil => simp [forEach_nil, Run.calls, callsOf]
  | cons x xs ih =>
    rw [forEach_cons] at h ⊢
    obtain ⟨a, hx, hrest, heq⟩ := bind_finished _ _ w () h
    rw [heq]
    have h₁ := hb x (List.mem_cons_self _ _) w hx
    have h₂ := ih (fun y hy => hb y (List.mem_cons_of_mem _ hy)) _ hrest
    simp only [Run.calls] at h₁ h₂
    simp only [Run.calls, callsOf_append, List.map_append, List.flatMap_cons, h₁, h₂]

/-- An `exec` that returned has issued its call, and the stream of that call ended
normally. -/
theorem exec_finished (client : Remote σ) (pod : Pod) (command : List String)
    (stdin : Option Bytes) (w : σ) (r : Bytes × String)
    (h : (exec client pod command stdin w).result = .ok r) :
    exec client pod command stdin w =
        ⟨(client.stream w (callOf pod command stdin)).1,
          [Event.exec (callOf pod command stdin)], .ok r⟩ ∧
      client.stream w (callOf pod command stdin) =
        ((client.stream w (callOf pod command stdin)).1, Outcome.completed r.1 r.2) := by
  obtain ⟨hs, ht, _, _⟩ := exec_ok client pod command stdin w r h
  refine ⟨?_, by rw [hs]⟩
  rw [hs]
  rcases hrun : exec client pod command stdin w with ⟨w₁, t₁, r₁⟩
  rw [hrun] at h ht
  simp only at h ht
  rw [h, ht]

end Finished

section FinishedSync

variable {σ : Type}

theorem syncTarget_finished (client : Remote σ) (s t : Pod) (a : Bytes) (w : σ)
    (h : (syncTarget client s a t w).result = .ok ()) :
    (syncTarget client s a t w).calls =
      if s.Name = t.Name then [] else [callOf t extractArgv (some a)] := by
  by_cases hn : s.Name = t.Name
  · rw [syncTarget_same client s t a w hn, if_pos hn]; rfl
  · rw [if_neg hn]
    simp only [syncTarget, hn, if_false, bind_eq] at h ⊢
    rw [calls_say_bind]
    have h₁ := say_bind_finished _ _ w () h
    obtain ⟨r, hr, _, heq⟩ := bind_finished _ _ w () h₁
    rw [heq]
    simp only [Run.calls, callsOf_append]
    have hc := exec_ok_calls client t extractArgv (some a) w r hr
    have hrep := report_calls r.2 (exec client t extractArgv (some a) w).world
    simp only [Run.calls] at hc hrep
    rw [hc, hrep]
    rfl

/-- A source iteration of `sync` that finished: the archive-create returned, and the
iteration issued it, then one extraction per target fed with the returned archive,
then the cleanup. -/
theorem syncSource_finished (client : Remote σ) (pods : List Pod) (s : Pod) (w : σ)
    (h : (syncSource client pods s w).result = .ok ()) :
    ∃ w₁ out err,
      client.stream w (callOf s (archiveArgv s.Name) none) = (w₁, Outcome.completed out err) ∧
      (syncSource client pods s w).calls =
        callOf s (archiveArgv s.Name) none ::
          (targetsOf pods s).map (fun t => callOf t extractArgv (some out)) ++
          [callOf s (cleanupArgv s.Name) none] := by
  simp only [syncSource, bind_eq] at h ⊢
  have h₁ := say_bind_finished _ _ w () h
  obtain ⟨a, ha, h₂, heq⟩ := bind_finished _ _ w () h₁
  obtain ⟨hea, hsa⟩ := exec_finished client s (archiveArgv s.Name) none w a ha
  refine ⟨_, a.1, a.2, hsa, ?_⟩
  rw [calls_say_bind, heq]
  obtain ⟨u, hu, h₃, heq₂⟩ := bind_finished _ _ _ () h₂
  have hloop := forEach_finished id
    (fun t => if s.Name = t.Name then [] else [callOf t extractArgv (some a.1)]) pods
    (syncTarget client s a.1)
    (fun t _ v hv => by simpa using syncTarget_finished client s t a.1 v hv) _ hu
  rw [List.map_id, flatMap_targets] at hloop
  obtain ⟨r, hr, _, heq₃⟩ := bind_finished _ _ _ () h₃
  have hcl := exec_ok_calls client s (cleanupArgv s.Name) none _ r hr
  have hca := exec_ok_calls client s (archiveArgv s.Name) none w a ha
  simp only [Run.calls] at hloop hcl hca ⊢
  rw [heq₂, heq₃]
  simp only [callsOf_append, hca, hloop, hcl]
  have hrest : callsOf ((sayBuffer r.1).bind
      (fun _ => if r.2 ≠ "" then say ("\nError:\n" ++ r.2 ++ "\n") else pure ())
      (exec client s (cleanupArgv s.Name) none
        (forEach pods (syncTarget client s a.1)
          (exec client s (archiveArgv s.Name) none w).world).world).world).trace = [] := by
    have := calls_sayBuffer_bind r.1
      (fun _ => (if r.2 ≠ "" then say ("\nError:\n" ++ r.2 ++ "\n") else pure () : Prog σ Unit))
      (exec client s (cleanupArgv s.Name) none
        (forEach pods (syncTarget client s a.1)
          (exec client s (archiveArgv s.Name) none w).world).world).world
    rw [report_calls] at this
    exact this
  rw [hrest]
  simp

/-- A `sync` that finished has issued the blocks of all sources in fleet order. -/
theorem sync_finished (client : Remote σ) (pods : List Pod) (w : σ)
    (h : (sync client pods w).result = .ok ()) :
    (sync client pods w).calls.map Call.op = pods.flatMap (syncBlock pods) := by
  apply forEach_finished Call.op (syncBlock pods) pods (syncSource client pods) _ w h
  intro s _ v hv
  obtain ⟨_, out, _, _, hc⟩ := syncSource_finished client pods s v hv
  rw [hc, syncBlock_eq]

end FinishedSync

section FinishedStats

variable {σ : Type}

theorem syncFuzzerStatsTarget_finished (client : Remote σ) (s t : Pod) (content : Bytes)
    (w : σ) (h : (syncFuzzerStatsTarget client s content t w).result = .ok ()) :
    (syncFuzzerStatsTarget client s content t w).calls =
      if s.Name = t.Name ∨ HasPrefix t.Name K8sWorkerPodPrefix = true then []
      else [callOf t (mkdirArgv s.Name) (some []),
        callOf t (statsWriteArgv s.Name) (some content)] := by
  by_cases hsk : s.Name = t.Name ∨ HasPrefix t.Name K8sWorkerPodPrefix = true
  · rw [syncFuzzerStatsTarget_skip client s t content w hsk, if_pos hsk]; rfl
  · have h₁ : ¬ s.Name = t.Name := fun e => hsk (Or.inl e)
    have h₂ : HasPrefix t.Name K8sWorkerPodPrefix = false := by
      cases hh : HasPrefix t.Name K8sWorkerPodPrefix
      · rfl
      · exact absurd (Or.inr hh) hsk
    rw [if_neg hsk]
    rw [syncFuzzerStatsTarget_go client s t content w h₁ h₂] at h ⊢
    rw [calls_say_bind]
    have h₃ := say_bind_finished _ _ w () h
    obtain ⟨r, hr, h₄, heq⟩ := bind_finished _ _ w () h₃
    obtain ⟨r₂, hr₂, _, heq₂⟩ := bind_finished _ _ _ () h₄
    have hc₁ := exec_ok_calls client t (mkdirArgv s.Name) (some []) w r hr
    have hc₂ := exec_ok_calls client t (statsWriteArgv s.Name) (some content) _ r₂ hr₂
    have hrep := report_calls r₂.2
      (exec client t (statsWriteArgv s.Name) (some content)
        (exec client t (mkdirArgv s.Name) (some []) w).world).world
    simp only [Run.calls] at hc₁ hc₂ hrep ⊢
    rw [heq, heq₂]
    simp only [callsOf_append, hc₁, hc₂, hrep]
    rfl

/-- A source iteration of `syncFuzzerStats` that finished: the read returned, and the
iteration issued it, then mkdir and write (fed with what was read) in each target. -/
theorem syncFuzzerStatsSource_finished (client : Remote σ) (pods : List Pod) (s : Pod) (w : σ)
    (h : (syncFuzzerStatsSource client pods s w).result = .ok ()) :
    ∃ w₁ out err,
      client.stream w (callOf s (statsReadArgv s.Name) none) =
        (w₁, Outcome.completed out err) ∧
      (syncFuzzerStatsSource client pods s w).calls =
        callOf s (statsReadArgv s.Name) none ::
          (statsTargetsOf pods s).flatMap (fun t =>
            [callOf t (mkdirArgv s.Name) (some []),
              callOf t (statsWriteArgv s.Name) (some out)]) := by
  simp only [syncFuzzerStatsSource, bind_eq] at h ⊢
  have h₁ := say_bind_finished _ _ w () h
  obtain ⟨a, ha, h₂, heq⟩ := bind_finished _ _ w () h₁
  obtain ⟨_, hsa⟩ := exec_finished client s (statsReadArgv s.Name) none w a ha
  refine ⟨_, a.1, a.2, hsa, ?_⟩
  rw [calls_say_bind, heq]
  have hloop := forEach_finished id
    (fun t => if s.Name = t.Name ∨ HasPrefix t.Name K8sWorkerPodPrefix = true then []
      else [callOf t (mkdirArgv s.Name) (some []), callOf t (statsWriteArgv s.Name) (some a.1)])
    pods (syncFuzzerStatsTarget client s a.1)
    (fun t _ v hv => by simpa using syncFuzzerStatsTarget_finished client s t a.1 v hv) _ h₂
  rw [List.map_id, flatMap_statsTargets] at hloop
  have hca := exec_ok_calls client s (statsReadArgv s.Name) none w a ha
  simp only [Run.calls] at hloop hca ⊢
  simp only [callsOf_append, hca, hloop]
  rfl

/-- A `syncFuzzerStats` that finished has issued the blocks of all sources in fleet
order. -/
theorem syncFuzzerStats_finished (client : Remote σ) (pods : List Pod) (w : σ)
    (h : (syncFuzzerStats client pods w).result = .ok ()) :
    (syncFuzzerStats client pods w).calls.map Call.op = pods.flatMap (statsBlock pods) := by
  apply forEach_finished Call.op (statsBlock pods) pods (syncFuzzerStatsSource client pods) _ w h
  intro s _ v hv
  obtain ⟨_, out, _, _, hc⟩ := syncFuzzerStatsSource_finished client pods s v hv
  rw [hc, statsBlock_eq]

end FinishedStats

section FinishedMain

variable {σ : Type}

theorem whatsUpPod_finished (client : Remote σ) (p : Pod) (w : σ)
    (h : (whatsUpPod client p w).result = .ok ()) :
    (whatsUpPod client p w).calls =
      if HasPrefix p.Name K8sMasterPodPrefix = true then [callOf p whatsUpArgv none] else [] := by
  by_cases hm : HasPrefix p.Name K8sMasterPodPrefix = true
  · rw [if_pos hm]
    rw [whatsUpPod_go client p w hm] at h ⊢
    rw [calls_say_bind]
    have h₁ := say_bind_finished _ _ w () h
    obtain ⟨r, hr, _, heq⟩ := bind_finished _ _ w () h₁
    have hc := exec_ok_calls client p whatsUpArgv none w r hr
    have hrest := calls_sayBuffer_bind r.1
      (fun _ => (if r.2 ≠ "" then say ("\nError:\n" ++ r.2 ++ "\n") else pure () : Prog σ Unit))
      (exec client p whatsUpArgv none w).world
    rw [report_calls] at hrest
    simp only [Run.calls] at hc hrest ⊢
    rw [heq]
    simp only [callsOf_append, hc, hrest]
    rfl
  · rw [whatsUpPod_skip client p w hm, if_neg hm]; rfl

/-- A `whatsUp` that finished has issued one status report per pod with the master
prefix, in fleet order. -/
theorem whatsUp_finished (client : Remote σ) (pods : List Pod) (w : σ)
    (h : (whatsUp client pods w).result = .ok ()) :
    (whatsUp client pods w).calls.map Call.op = whatsUpBlock pods := by
  rw [whatsUp_run] at h ⊢
  simp only at h
  have hc := forEach_finished Call.op
    (fun p => if HasPrefix p.Name K8sMasterPodPrefix = true then [(p, whatsUpArgv)] else [])
    pods (whatsUpPod client)
    (fun p _ v hv => by
      rw [whatsUpPod_finished client p v hv]
      by_cases hm : HasPrefix p.Name K8sMasterPodPrefix = true <;> simp [hm, Call.op, callOf])
    w h
  rw [flatMap_masters] at hc
  simpa [Run.calls, callsOf] using hc

/-- A default run of `main` that finished: `sync` finished, then `whatsUp` finished,
and the run ended with the closing prints. -/
theorem main_full_finished (client : Remote σ) (env : Env) (pods : List Pod) (w : σ)
    (hcl : env.clientError = none) (hl : env.listing = .ok pods)
    (hs : env.SYNC_STATS_ONLY ≠ some "1") (h : (main client env w).result = .ok ()) :
    (sync client pods w).result = .ok () ∧
      (whatsUp client pods (sync client pods w).world).result = .ok () ∧
      (main client env w).calls =
        (sync client pods w).calls ++ (whatsUp client pods (sync client pods w).world).calls ∧
      ∃ t, (main client env w).trace =
        t ++ [Event.print "\n", Event.print "Sync finished!"] := by
  rw [main_full_eq client env pods w hcl hl hs] at h ⊢
  simp only at h
  obtain ⟨_, hsr, h₂, heq⟩ := bind_finished _ _ w () h
  obtain ⟨_, hwr, _, heq₂⟩ := bind_finished _ _ _ () h₂
  rw [heq, heq₂, closing_run]
  have hpc : callsOf (preamble env pods) = [] := by
    simp [preamble, callsOf, callsOf_append, callsOf_prints]
  refine ⟨hsr, hwr, ?_, ?_⟩
  · simp only [Run.calls, callsOf_append, hpc]
    simp [callsOf]
  · exact ⟨preamble env pods ++ [Event.print "\n"] ++ ((sync client pods w).trace ++
      (whatsUp client pods (sync client pods w).world).trace), by simp⟩

end FinishedMain

/-! ## The standard error of the archive-create makes no difference -/

section ArchiveStderr

variable {σ α β : Type}

/-- `exec` depends on the remote side only through `connect` and the stream of the
call it issues. -/
theorem exec_congr (client client' : Remote σ) (pod : Pod) (command : List String)
    (stdin : Option Bytes) (w : σ) (hk : client'.connect = client.connect)
    (hs : ∀ n, client'.stream w ⟨pod, n, command, stdin⟩ =
      client.stream w ⟨pod, n, command, stdin⟩) :
    exec client' pod command stdin w = exec client pod command stdin w := by
  unfold exec
  cases pod.Containers with
  | nil => rfl
  | cons n ns =>
    simp only [hk]
    cases client.connect ⟨pod, n, command, stdin⟩ with
    | some err => rfl
    | none =>
      simp only
      rw [hs n]

theorem exec_withoutArchiveStderr (client : Remote σ) (pod : Pod) (command : List String)
    (stdin : Option Bytes) (h : command ≠ archiveArgv pod.Name) :
    exec client.withoutArchiveStderr pod command stdin = exec client pod command stdin := by
  funext w
  exact exec_congr client client.withoutArchiveStderr pod command stdin w rfl
    (fun n => by simp [Remote.withoutArchiveStderr, h])

/-- The archive-create on the silenced remote side: the same run, except that the
standard error it returns is empty. -/
theorem exec_archive_silenced (client : Remote σ) (s : Pod) (w : σ) :
    (∃ e, (exec client s (archiveArgv s.Name) none w).result = .error e ∧
        exec client.withoutArchiveStderr s (archiveArgv s.Name) none w =
          ⟨(exec client s (archiveArgv s.Name) none w).world,
            (exec client s (archiveArgv s.Name) none w).trace, .error e⟩) ∨
      ∃ out err, (exec client s (archiveArgv s.Name) none w).result = .ok (out, err) ∧
        exec client.withoutArchiveStderr s (archiveArgv s.Name) none w =
          ⟨(exec client s (archiveArgv s.Name) none w).world,
            (exec client s (archiveArgv s.Name) none w).trace, .ok (out, "")⟩ := by
  unfold exec
  cases s.Containers with
  | nil => left; exact ⟨_, rfl, rfl⟩
  | cons n ns =>
    simp only
    have hk : client.withoutArchiveStderr.connect = client.connect := rfl
    rw [hk]
    cases client.connect ⟨s, n, archiveArgv s.Name, none⟩ with
    | some err => left; exact ⟨_, rfl, rfl⟩
    | none =>
      simp only
      have hst : client.withoutArchiveStderr.stream w ⟨s, n, archiveArgv s.Name, none⟩ =
          match client.stream w ⟨s, n, archiveArgv s.Name, none⟩ with
          | (w₁, Outcome.completed stdout _) => (w₁, Outcome.completed stdout "")
          | (w₁, Outcome.failed stderr err) => (w₁, Outcome.failed stderr err) := by
        simp [Remote.withoutArchiveStderr]
      rw [hst]
      rcases client.stream w ⟨s, n, archiveArgv s.Name, none⟩ with ⟨w₁, o⟩
      cases o with
      | failed e₁ e₂ => left; exact ⟨_, rfl, rfl⟩
      | completed out err => right; exact ⟨out, err, rfl, rfl⟩

theorem syncTarget_withoutArchiveStderr (client : Remote σ) (s : Pod) (a : Bytes) (t : Pod) :
    syncTarget client.withoutArchiveStderr s a t = syncTarget client s a t := by
  unfold syncTarget
  rw [exec_withoutArchiveStderr client t extractArgv (some a)
    (archiveArgv_ne_extractArgv t.Name).symm]

/-- One source iteration of `sync` is the same run whether or not the
archive-create returns a standard error text. -/
theorem syncSource_withoutArchiveStderr (client : Remote σ) (pods : List Pod) (s : Pod)
    (w : σ) :
    syncSource client.withoutArchiveStderr pods s w = syncSource client pods s w := by
  have hloop : ∀ a : Bytes, forEach pods (syncTarget client.withoutArchiveStderr s a) =
      forEach pods (syncTarget client s a) := by
    intro a
    have : syncTarget client.withoutArchiveStderr s a = syncTarget client s a :=
      funext (syncTarget_withoutArchiveStderr client s a)
    rw [this]
  simp only [syncSource, bind_eq]
  rw [say_bind, say_bind]
  simp only [hloop, exec_withoutArchiveStderr client s (cleanupArgv s.Name) none
    (archiveArgv_ne_cleanupArgv s.Name s.Name).symm]
  rcases exec_archive_silenced client s w with ⟨e, he, hq⟩ | ⟨out, err, ho, hq⟩
  · rw [bind_of_error _ _ w e he, bind_of_error _ _ w e (by rw [hq]), hq]
  · rw [bind_of_ok _ _ w (out, err) ho, bind_of_ok _ _ w (out, "") (by rw [hq]), hq]

theorem sync_withoutArchiveStderr (client : Remote σ) (pods : List Pod) (w : σ) :
    sync client.withoutArchiveStderr pods w = sync client pods w := by
  unfold sync
  have : syncSource client.withoutArchiveStderr pods = syncSource client pods :=
    funext (fun s => funext (syncSource_withoutArchiveStderr client pods s))
  rw [this]

end ArchiveStderr

/-! ## The standard error of an extraction changes nothing but a printed line -/

section ExtractionStderr

variable {σ α β : Type}

theorem lessErrorLines_refl (t : List Event) : LessErrorLines t t := by
  induction t with
  | nil => exact LessErrorLines.nil
  | cons e t ih => exact LessErrorLines.keep e ih

theorem lessErrorLines_append {t₁ t₂ u₁ u₂ : List Event} (h : LessErrorLines t₁ t₂)
    (hu : LessErrorLines u₁ u₂) : LessErrorLines (t₁ ++ u₁) (t₂ ++ u₂) := by
  induction h with
  | nil => exact hu
  | keep e _ ih => exact LessErrorLines.keep e ih
  | drop c stderr hc _ ih => exact LessErrorLines.drop c stderr hc ih

/-- Traces that differ only in `Error:` prints hold the same calls. -/
theorem lessErrorLines_calls {t₁ t₂ : List Event} (h : LessErrorLines t₁ t₂) :
    callsOf t₁ = callsOf t₂ := by
  induction h with
  | nil => rfl
  | keep e _ ih => cases e <;> simp [callsOf, ih]
  | drop c stderr _ _ ih => simpa [callsOf] using ih

theorem sameButErrorLines_refl (r : Run σ α) : SameButErrorLines r r :=
  ⟨rfl, rfl, lessErrorLines_refl _⟩

theorem sameButErrorLines_bind (m m' : Prog σ α) (f f' : α → Prog σ β) (w : σ)
    (hm : SameButErrorLines (m w) (m' w))
    (hf : ∀ a v, SameButErrorLines (f a v) (f' a v)) :
    SameButErrorLines (Prog.bind m f w) (Prog.bind m' f' w) := by
  obtain ⟨hw, hr, ht⟩ := hm
  cases hres : (m w).result with
  | error e =>
    rw [bind_of_error m f w e hres, bind_of_error m' f' w e (by rw [← hr, hres])]
    exact ⟨hw, rfl, ht⟩
  | ok a =>
    rw [bind_of_ok m f w a hres, bind_of_ok m' f' w a (by rw [← hr, hres]), ← hw]
    obtain ⟨hw₂, hr₂, ht₂⟩ := hf a (m w).world
    exact ⟨hw₂, hr₂, lessErrorLines_append ht ht₂⟩

theorem sameButErrorLines_forEach (xs : List α) (body body' : α → Prog σ Unit)
    (hb : ∀ x v, SameButErrorLines (body x v) (body' x v)) (w : σ) :
    SameButErrorLines (forEach xs body w) (forEach xs body' w) := by
  induction xs generalizing w with
  | nil => exact sameButErrorLines_refl _
  | cons x xs ih =>
    rw [forEach_cons, forEach_cons]
    exact sameButErrorLines_bind _ _ _ _ w (hb x w) (fun _ v => ih v)

theorem exec_withoutExtractionStderr (client : Remote σ) (pod : Pod) (command : List String)
    (stdin : Option Bytes) (h : command ≠ extractArgv) :
    exec client.withoutExtractionStderr pod command stdin = exec client pod command stdin := by
  funext w
  exact exec_congr client client.withoutExtractionStderr pod command stdin w rfl
    (fun n => by simp [Remote.withoutExtractionStderr, h])

/-- The extraction on the silenced remote side: the same run, except that the
standard error it returns is empty. -/
theorem exec_extraction_silenced (client : Remote σ) (t : Pod) (a : Bytes) (w : σ) :
    (∃ e, (exec client t extractArgv (some a) w).result = .error e ∧
        exec client.withoutExtractionStderr t extractArgv (some a) w =
          ⟨(exec client t extractArgv (some a) w).world,
            (exec client t extractArgv (some a) w).trace, .error e⟩) ∨
      ∃ out err, (exec client t extractArgv (some a) w).result = .ok (out, err) ∧
        exec client.withoutExtractionStderr t extractArgv (some a) w =
          ⟨(exec client t extractArgv (some a) w).world,
            (exec client t extractArgv (some a) w).trace, .ok (out, "")⟩ := by
  unfold exec
  cases t.Containers with
  | nil => left; exact ⟨_, rfl, rfl⟩
  | cons n ns =>
    simp only
    have hk : client.withoutExtractionStderr.connect = client.connect := rfl
    rw [hk]
    cases client.connect ⟨t, n, extractArgv, some a⟩ with
    | some err => left; exact ⟨_, rfl, rfl⟩
    | none =>
      simp only
      have hst : client.withoutExtractionStderr.stream w ⟨t, n, extractArgv, some a⟩ =
          match client.stream w ⟨t, n, extractArgv, some a⟩ with
          | (w₁, Outcome.completed stdout _) => (w₁, Outcome.completed stdout "")
          | (w₁, Outcome.failed stderr err) => (w₁, Outcome.failed stderr err) := by
        simp [Remote.withoutExtractionStderr]
      rw [hst]
      rcases client.stream w ⟨t, n, extractArgv, some a⟩ with ⟨w₁, o⟩
      cases o with
      | failed e₁ e₂ => left; exact ⟨_, rfl, rfl⟩
      | completed out err => right; exact ⟨out, err, rfl, rfl⟩

/-- One pass of the inner loop of `sync` ends in the same state with the same result
whether or not the extraction returns a standard error text; the text only adds its
`Error:` print. -/
theorem syncTarget_sameButErrorLines (client : Remote σ) (s : Pod) (a : Bytes) (t : Pod)
    (w : σ) :
    SameButErrorLines (syncTarget client s a t w)
      (syncTarget client.withoutExtractionStderr s a t w) := by
  by_cases hn : s.Name = t.Name
  · rw [syncTarget_same client s t a w hn, syncTarget_same _ s t a w hn]
    exact sameButErrorLines_refl _
  · simp only [syncTarget, hn, if_false, bind_eq]
    rw [say_bind, say_bind]
    rcases exec_extraction_silenced client t a w with ⟨e, he, hq⟩ | ⟨out, err, ho, hq⟩
    · rw [bind_of_error _ _ w e he, bind_of_error _ _ w e (by rw [hq]), hq]
      exact sameButErrorLines_refl _
    · rw [bind_of_ok _ _ w (out, err) ho, bind_of_ok _ _ w (out, "") (by rw [hq]), hq]
      rw [(exec_finished client t extractArgv (some a) w (out, err) ho).1]
      simp only [report_run]
      refine ⟨rfl, rfl, ?_⟩
      apply LessErrorLines.keep
      by_cases herr : err = ""
      · simp only [herr, ne_eq, not_true_eq_false, if_false]
        exact lessErrorLines_refl _
      · simp only [herr, ne_eq, not_false_eq_true, if_true, not_true_eq_false, if_false]
        exact LessErrorLines.drop _ err rfl LessErrorLines.nil

theorem syncSource_sameButErrorLines (client : Remote σ) (pods : List Pod) (s : Pod) (w : σ) :
    SameButErrorLines (syncSource client pods s w)
      (syncSource client.withoutExtractionStderr pods s w) := by
  simp only [syncSource, bind_eq]
  rw [exec_withoutExtractionStderr client s (archiveArgv s.Name) none
      (archiveArgv_ne_extractArgv s.Name),
    exec_withoutExtractionStderr client s (cleanupArgv s.Name) none
      (cleanupArgv_ne_extractArgv s.Name)]
  apply sameButErrorLines_bind _ _ _ _ w (sameButErrorLines_refl _)
  intro _ v
  apply sameButErrorLines_bind _ _ _ _ v (sameButErrorLines_refl _)
  intro r v₁
  apply sameButErrorLines_bind _ _ _ _ v₁
  · exact sameButErrorLines_forEach pods _ _
      (fun t u => syncTarget_sameButErrorLines client s r.1 t u) v₁
  · intro _ v₂
    exact sameButErrorLines_refl _

theorem sync_sameButErrorLines (client : Remote σ) (pods : List Pod) (w : σ) :
    SameButErrorLines (sync client pods w) (sync client.withoutExtractionStderr pods w) :=
  sameButErrorLines_forEach pods _ _
    (fun s v => syncSource_sameButErrorLines client pods s v) w

theorem whatsUp_withoutExtractionStderr (client : Remote σ) (pods : List Pod) :
    whatsUp client.withoutExtractionStderr pods = whatsUp client pods := by
  have h : whatsUpPod client.withoutExtractionStderr = whatsUpPod client := by
    funext p
    unfold whatsUpPod
    rw [exec_withoutExtractionStderr client p whatsUpArgv none extractArgv_ne_whatsUpArgv.symm]
  unfold whatsUp
  rw [h]

theorem syncFuzzerStats_withoutExtractionStderr (client : Remote σ) (pods : List Pod) :
    syncFuzzerStats client.withoutExtractionStderr pods = syncFuzzerStats client pods := by
  have ht : ∀ (s : Pod) (content : Bytes),
      syncFuzzerStatsTarget client.withoutExtractionStderr s content =
        syncFuzzerStatsTarget client s content := by
    intro s content
    funext t
    unfold syncFuzzerStatsTarget
    rw [exec_withoutExtractionStderr client t (mkdirArgv s.Name) (some [])
        (by simp [mkdirArgv, extractArgv]),
      exec_withoutExtractionStderr client t (statsWriteArgv s.Name) (some content)
        (by simp [statsWriteArgv, extractArgv])]
  have hs : syncFuzzerStatsSource client.withoutExtractionStderr pods =
      syncFuzzerStatsSource client pods := by
    funext s
    unfold syncFuzzerStatsSource
    rw [exec_withoutExtractionStderr client s (statsReadArgv s.Name) none
      (by simp [statsReadArgv, extractArgv])]
    simp only [ht]
  unfold syncFuzzerStats
  rw [hs]

/-- A whole run of `main` ends in the same state with the same result whether or not
extractions return standard error texts; the texts only add their `Error:` prints. -/
theorem main_sameButErrorLines (client : Remote σ) (env : Env) (w : σ) :
    SameButErrorLines (main client env w) (main client.withoutExtractionStderr env w) := by
  unfold main
  cases env.clientError with
  | some err => exact sameButErrorLines_refl _
  | none =>
    simp only
    cases env.listing with
    | error err => exact sameButErrorLines_refl _
    | ok pods =>
      simp only [bind_eq, whatsUp_withoutExtractionStderr,
        syncFuzzerStats_withoutExtractionStderr]
      apply sameButErrorLines_bind _ _ _ _ w (sameButErrorLines_refl _)
      intro _ v
      apply sameButErrorLines_bind _ _ _ _ v (sameButErrorLines_refl _)
      intro _ v
      apply sameButErrorLines_bind _ _ _ _ v (sameButErrorLines_refl _)
      intro _ v
      apply sameButErrorLines_bind _ _ _ _ v (sameButErrorLines_refl _)
      intro _ v
      split_ifs
      · exact sameButErrorLines_refl _
      · apply sameButErrorLines_bind _ _ _ _ v (sameButErrorLines_refl _)
        intro _ v
        apply sameButErrorLines_bind _ _ _ _ v (sync_sameButErrorLines client pods v)
        intro _ v
        exact sameButErrorLines_refl _

end ExtractionStderr

/-! ## FullDirectory mode: counts and order of a run that finished -/

section FullDirectoryClaims

variable {σ : Type}

/-- The counts of a `sync` that finished: one archive-create and one cleanup per pod,
and one extraction per ordered pair of distinct pods. -/
theorem sync_counts (client : Remote σ) (pods : List Pod) (hn : (pods.map Pod.Name).Nodup)
    (w : σ) (hfin : (sync client pods w).result = .ok ()) :
    (sync client pods w).calls.countP isArchiveCreate = pods.length ∧
      (sync client pods w).calls.countP isExtraction = pods.length * (pods.length - 1) ∧
      (sync client pods w).calls.countP isCleanup = pods.length := by
  have hops := sync_finished client pods w hfin
  refine ⟨?_, ?_, ?_⟩
  · rw [isArchiveCreate_eq, countP_calls, hops, countP_flatMap_sum,
      sum_map_const _ _ 1 (fun s _ => syncBlock_archives pods s), Nat.mul_one]
  · rw [isExtraction_eq, countP_calls, hops, countP_flatMap_sum,
      sum_map_const _ _ (pods.length - 1) (fun s hs => by
        rw [syncBlock_extractions, length_targetsOf pods hn s hs])]
  · rw [isCleanup_eq, countP_calls, hops, countP_flatMap_sum,
      sum_map_const _ _ 1 (fun s _ => syncBlock_cleanups pods s), Nat.mul_one]

/-- C1 (as amended): for every fleet of n pods with pairwise distinct names and every
remote side, a run of `sync` that is not ended by a panic (every remote execution it
issued returned) has issued exactly n archive-create operations, n*(n-1) extraction
operations and n cleanup operations; and whichever extractions report an error on
standard error, the calls of the run are those of the run in which no extraction
reports one. -/
theorem C1_sync_counts_of_finished_run (client : Remote σ) (pods : List Pod)
    (hn : (pods.map Pod.Name).Nodup) (w : σ)
    (hfin : (sync client pods w).result = .ok ()) :
    (sync client pods w).calls.countP isArchiveCreate = pods.length ∧
      (sync client pods w).calls.countP isExtraction = pods.length * (pods.length - 1) ∧
      (sync client pods w).calls.countP isCleanup = pods.length ∧
      (sync client pods w).calls = (sync client.withoutExtractionStderr pods w).calls :=
  ⟨(sync_counts client pods hn w hfin).1, (sync_counts client pods hn w hfin).2.1,
    (sync_counts client pods hn w hfin).2.2,
    lessErrorLines_calls (sync_sameButErrorLines client pods w).2.2⟩

/-- C1, witness: the scenario fleet on a remote side where the extractions into
`afl-worker-1` report an error and a command `sync` never issues would fail. -/
theorem C1_sync_counts_witness :
    (sync statsFailRemote scenarioFleet ()).calls.countP isArchiveCreate = 3 ∧
      (sync statsFailRemote scenarioFleet ()).calls.countP isExtraction = 3 * (3 - 1) ∧
      (sync statsFailRemote scenarioFleet ()).calls.countP isCleanup = 3 ∧
      (sync statsFailRemote scenarioFleet ()).calls =
        (sync statsFailRemote.withoutExtractionStderr scenarioFleet ()).calls :=
  C1_sync_counts_of_finished_run statsFailRemote scenarioFleet (by decide) () rfl

/-- C1, counterexample: the scenario fleet has three pods with distinct names.  When
every extraction returns, `sync` issues 3 archive-creates, 6 extractions and 3
cleanups; when the extraction into `afl-worker-0` fails (its stream ends with an
error) it issues one archive-create, one extraction and no cleanup.  The counts are
not the same whichever extractions fail. -/
theorem C1_counts_change_when_extraction_fails :
    (scenarioFleet.map Pod.Name).Nodup ∧ scenarioFleet.length = 3 ∧
      ((sync noisyRemote scenarioFleet ()).calls.countP isArchiveCreate,
        (sync noisyRemote scenarioFleet ()).calls.countP isExtraction,
        (sync noisyRemote scenarioFleet ()).calls.countP isCleanup) = (3, 6, 3) ∧
      ((sync unreachableRemote scenarioFleet ()).calls.countP isArchiveCreate,
        (sync unreachableRemote scenarioFleet ()).calls.countP isExtraction,
        (sync unreachableRemote scenarioFleet ()).calls.countP isCleanup) = (1, 1, 0) ∧
      ¬ ((sync unreachableRemote scenarioFleet ()).calls.countP isArchiveCreate =
          scenarioFleet.length ∧
        (sync unreachableRemote scenarioFleet ()).calls.countP isExtraction =
          scenarioFleet.length * (scenarioFleet.length - 1) ∧
        (sync unreachableRemote scenarioFleet ()).calls.countP isCleanup =
          scenarioFleet.length) := by
  decide

/-- C8 (as amended): for every fleet with pairwise distinct names and every remote
side, the operations of a run of `sync` that is not ended by a panic are, for each
position i in fleet order, the archive-create on the pod at i, then the extractions
into the pods at every other position j in increasing j, then the cleanup on the pod
at i. -/
theorem C8_sync_order_of_finished_run (client : Remote σ) (pods : List Pod)
    (hn : (pods.map Pod.Name).Nodup) (w : σ)
    (hfin : (sync client pods w).result = .ok ()) :
    (sync client pods w).calls.map Call.op = syncOrder pods := by
  rw [syncOrder_eq pods hn]
  exact sync_finished client pods w hfin

/-- C8, witness: the fleet with the literal names, on a remote side where a command
this run never issues would fail. -/
theorem C8_sync_order_witness :
    (sync archiveFailRemote literalFleet ()).calls.map Call.op = syncOrder literalFleet :=
  C8_sync_order_of_finished_run archiveFailRemote literalFleet (by decide) () rfl

/-- C8, counterexample: the scenario fleet has pairwise distinct names, yet with
`afl-worker-0` unreachable the operations of `sync` are the archive-create on
`afl-master-0` and the extraction into `afl-worker-0`, two of the twelve operations of
the sequence; the cleanup on the first source is never issued. -/
theorem C8_order_cut_short_by_panic :
    (scenarioFleet.map Pod.Name).Nodup ∧
      (sync unreachableRemote scenarioFleet ()).calls.map (fun c => (c.pod.Name, c.command)) =
        [("afl-master-0", archiveArgv "afl-master-0"), ("afl-worker-0", extractArgv)] ∧
      (syncOrder scenarioFleet).length = 12 ∧
      (sync unreachableRemote scenarioFleet ()).calls.countP isCleanup = 0 ∧
      (sync unreachableRemote scenarioFleet ()).calls.map Call.op ≠ syncOrder scenarioFleet := by
  decide

end FullDirectoryClaims

/-! ## Payloads -/

section PayloadClaims

variable {σ : Type}

/-- C7: the payload is passed on unchanged.  Whatever the remote side does, every
extraction issued in the iteration of `sync` for source `s` gets as standard input
exactly the standard output the archive-create of that iteration returned, and every
stats write issued in the iteration of `syncFuzzerStats` for `s` gets exactly the
standard output of the stats read of that iteration; so all targets of one source
receive the same bytes.  And the bytes do reach the targets: an iteration that is not
ended by a panic has issued, after the read, one extraction (one mkdir and one stats
write) per target, in fleet order, each fed with the whole output of the read, so
every other pod of the fleet (every other pod that is not a worker) is sent it. -/
theorem C7_payload_passed_unchanged (client : Remote σ) (pods : List Pod) (s : Pod) (w : σ) :
    (∀ c ∈ (syncSource client pods s w).calls, isExtraction c = true →
        ∃ w₁ out err,
          client.stream w (callOf s (archiveArgv s.Name) none) =
            (w₁, Outcome.completed out err) ∧ c.stdin = some out) ∧
      (∀ c ∈ (syncFuzzerStatsSource client pods s w).calls, isStatsWrite c = true →
        ∃ w₁ out err,
          client.stream w (callOf s (statsReadArgv s.Name) none) =
            (w₁, Outcome.completed out err) ∧ c.stdin = some out) ∧
      (∀ c ∈ (syncSource client pods s w).calls,
        ∀ d ∈ (syncSource client pods s w).calls,
          isExtraction c = true → isExtraction d = true → c.stdin = d.stdin) ∧
      (∀ c ∈ (syncFuzzerStatsSource client pods s w).calls,
        ∀ d ∈ (syncFuzzerStatsSource client pods s w).calls,
          isStatsWrite c = true → isStatsWrite d = true → c.stdin = d.stdin) ∧
      ((syncSource client pods s w).result = .ok () →
        ∃ w₁ out err,
          client.stream w (callOf s (archiveArgv s.Name) none) =
            (w₁, Outcome.completed out err) ∧
          (syncSource client pods s w).calls =
            callOf s (archiveArgv s.Name) none ::
              (targetsOf pods s).map (fun t => callOf t extractArgv (some out)) ++
              [callOf s (cleanupArgv s.Name) none] ∧
          ∀ t ∈ pods, t.Name ≠ s.Name →
            callOf t extractArgv (some out) ∈ (syncSource client pods s w).calls) ∧
      ((syncFuzzerStatsSource client pods s w).result = .ok () →
        ∃ w₁ out err,
          client.stream w (callOf s (statsReadArgv s.Name) none) =
            (w₁, Outcome.completed out err) ∧
          (syncFuzzerStatsSource client pods s w).calls =
            callOf s (statsReadArgv s.Name) none ::
              (statsTargetsOf pods s).flatMap (fun t =>
                [callOf t (mkdirArgv s.Name) (some []),
                  callOf t (statsWriteArgv s.Name) (some out)]) ∧
          ∀ t ∈ pods, t.Name ≠ s.Name → HasPrefix t.Name K8sWorkerPodPrefix = false →
            callOf t (statsWriteArgv s.Name) (some out) ∈
              (syncFuzzerStatsSource client pods s w).calls) := by
  have h₁ : ∀ c ∈ (syncSource client pods s w).calls, isExtraction c = true →
      ∃ w₁ out err,
        client.stream w (callOf s (archiveArgv s.Name) none) =
          (w₁, Outcome.completed out err) ∧ c.stdin = some out := by
    intro c hc he
    rcases mem_calls_syncSource client pods s w c hc with h | ⟨w₁, out, err, t, hs, _, _, h⟩ | h
    · rw [h, isExtraction_archive] at he; cases he
    · exact ⟨w₁, out, err, hs, by rw [h]; rfl⟩
    · rw [h, isExtraction_cleanup] at he; cases he
  have h₂ : ∀ c ∈ (syncFuzzerStatsSource client pods s w).calls, isStatsWrite c = true →
      ∃ w₁ out err,
        client.stream w (callOf s (statsReadArgv s.Name) none) =
          (w₁, Outcome.completed out err) ∧ c.stdin = some out := by
    intro c hc he
    rcases mem_calls_syncFuzzerStatsSource client pods s w c hc with
      h | ⟨w₁, out, err, t, hs, _, _, _, h | h⟩
    · rw [h, isStatsWrite_read] at he; cases he
    · rw [h, isStatsWrite_mkdir] at he; cases he
    · exact ⟨w₁, out, err, hs, by rw [h]; rfl⟩
  refine ⟨h₁, h₂, ?_, ?_, ?_, ?_⟩
  · intro c hc d hd hce hde
    obtain ⟨_, out, _, hs, hi⟩ := h₁ c hc hce
    obtain ⟨_, out₂, _, hs₂, hi₂⟩ := h₁ d hd hde
    rw [hs] at hs₂
    have : out = out₂ := by
      have := (Prod.mk.inj hs₂).2
      simp only [Outcome.completed.injEq] at this
      exact this.1
    rw [hi, hi₂, this]
  · intro c hc d hd hce hde
    obtain ⟨_, out, _, hs, hi⟩ := h₂ c hc hce
    obtain ⟨_, out₂, _, hs₂, hi₂⟩ := h₂ d hd hde
    rw [hs] at hs₂
    have : out = out₂ := by
      have := (Prod.mk.inj hs₂).2
      simp only [Outcome.completed.injEq] at this
      exact this.1
    rw [hi, hi₂, this]
  · intro hfin
    obtain ⟨w₁, out, err, hs, hc⟩ := syncSource_finished client pods s w hfin
    refine ⟨w₁, out, err, hs, hc, ?_⟩
    intro t ht hne
    rw [hc]
    apply List.mem_cons_of_mem
    apply List.mem_append_left
    exact List.mem_map_of_mem _ (mem_targetsOf.mpr ⟨ht, fun e => hne e.symm⟩)
  · intro hfin
    obtain ⟨w₁, out, err, hs, hc⟩ := syncFuzzerStatsSource_finished client pods s w hfin
    refine ⟨w₁, out, err, hs, hc, ?_⟩
    intro t ht hne hw
    rw [hc]
    apply List.mem_cons_of_mem
    rw [List.mem_flatMap]
    exact ⟨t, mem_statsTargetsOf.mpr ⟨ht, fun e => hne e.symm, hw⟩, by simp⟩

/-- C7, witness: in the scenario fleet the archive of `afl-master-0`, three bytes, is
the standard input of the extraction in each of the two workers, and the stats file
of `afl-worker-1`, five bytes, is the standard input of the write in `afl-master-0`. -/
theorem C7_payload_witness :
    ((∃ w₁ out err,
        noisyRemote.stream () (callOf ⟨"afl-master-0", "kubefuzz", ["afl", "metrics"]⟩
          (archiveArgv "afl-master-0") none) = (w₁, Outcome.completed out err) ∧
        (syncSource noisyRemote scenarioFleet ⟨"afl-master-0", "kubefuzz", ["afl", "metrics"]⟩
          ()).calls =
          callOf ⟨"afl-master-0", "kubefuzz", ["afl", "metrics"]⟩
              (archiveArgv "afl-master-0") none ::
            (targetsOf scenarioFleet ⟨"afl-master-0", "kubefuzz", ["afl", "metrics"]⟩).map
              (fun t => callOf t extractArgv (some out)) ++
            [callOf ⟨"afl-master-0", "kubefuzz", ["afl", "metrics"]⟩
              (cleanupArgv "afl-master-0") none] ∧
        ∀ t ∈ scenarioFleet, t.Name ≠ "afl-master-0" →
          callOf t extractArgv (some out) ∈
            (syncSource noisyRemote scenarioFleet
              ⟨"afl-master-0", "kubefuzz", ["afl", "metrics"]⟩ ()).calls) ∧
      ∃ w₁ out err,
        noisyRemote.stream () (callOf ⟨"afl-worker-1", "kubefuzz", ["afl"]⟩
          (statsReadArgv "afl-worker-1") none) = (w₁, Outcome.completed out err) ∧
        (syncFuzzerStatsSource noisyRemote scenarioFleet ⟨"afl-worker-1", "kubefuzz", ["afl"]⟩
          ()).calls =
          callOf ⟨"afl-worker-1", "kubefuzz", ["afl"]⟩ (statsReadArgv "afl-worker-1") none ::
            (statsTargetsOf scenarioFleet ⟨"afl-worker-1", "kubefuzz", ["afl"]⟩).flatMap
              (fun t => [callOf t (mkdirArgv "afl-worker-1") (some []),
                callOf t (statsWriteArgv "afl-worker-1") (some out)]) ∧
        ∀ t ∈ scenarioFleet, t.Name ≠ "afl-worker-1" →
          HasPrefix t.Name K8sWorkerPodPrefix = false →
            callOf t (statsWriteArgv "afl-worker-1") (some out) ∈
              (syncFuzzerStatsSource noisyRemote scenarioFleet
                ⟨"afl-worker-1", "kubefuzz", ["afl"]⟩ ()).calls) ∧
      (syncSource noisyRemote scenarioFleet ⟨"afl-master-0", "kubefuzz", ["afl", "metrics"]⟩
          ()).calls.map (fun c => (c.pod.Name, c.command, c.stdin)) =
        [("afl-master-0", archiveArgv "afl-master-0", none),
          ("afl-worker-0", extractArgv, some [31, 139, 8]),
          ("afl-worker-1", extractArgv, some [31, 139, 8]),
          ("afl-master-0", cleanupArgv "afl-master-0", none)] ∧
      (syncFuzzerStatsSource noisyRemote scenarioFleet ⟨"afl-worker-1", "kubefuzz", ["afl"]⟩
          ()).calls.map (fun c => (c.pod.Name, c.command, c.stdin)) =
        [("afl-worker-1", statsReadArgv "afl-worker-1", none),
          ("afl-master-0", mkdirArgv "afl-worker-1", some []),
          ("afl-master-0", statsWriteArgv "afl-worker-1", some [115, 116, 97, 114, 116])] :=
  ⟨⟨(C7_payload_passed_unchanged noisyRemote scenarioFleet
        ⟨"afl-master-0", "kubefuzz", ["afl", "metrics"]⟩ ()).2.2.2.2.1 rfl,
      (C7_payload_passed_unchanged noisyRemote scenarioFleet
        ⟨"afl-worker-1", "kubefuzz", ["afl"]⟩ ()).2.2.2.2.2 rfl⟩, by decide, by decide⟩

end PayloadClaims

/-! ## Failures and standard error -/

section FailureClaims

variable {σ : Type}

/-- When the stream of the extraction into a target ends normally, the pass of the
inner loop of `sync` returns: it is the announcement, the extraction and, when the
command wrote to standard error, the error print. -/
theorem syncTarget_returned (client : Remote σ) (s t : Pod) (ht : t.Containers ≠ [])
    (hne : s.Name ≠ t.Name) (a : Bytes) (w w₁ : σ) (out : Bytes) (err : String)
    (hk : client.connect (callOf t extractArgv (some a)) = none)
    (hs : client.stream w (callOf t extractArgv (some a)) = (w₁, Outcome.completed out err)) :
    syncTarget client s a t w =
      ⟨w₁, [Event.print ("- Writing sync directory to pod " ++ t.Name ++ " \n"),
          Event.exec (callOf t extractArgv (some a))] ++
        (if err ≠ "" then [Event.print ("\nError:\n" ++ err ++ "\n")] else []), .ok ()⟩ := by
  have he := exec_completed client t extractArgv (some a) w w₁ out err ht hk hs
  simp only [syncTarget, hne, if_false, bind_eq]
  rw [say_bind, bind_of_ok _ _ w (out, err) (by rw [he])]
  simp only [he, report_run]
  by_cases h₁ : err = "" <;> simp [h₁]

/-- C5 (as amended): an error that the extraction into a target reports on standard
error, the remote execution itself returning, changes nothing but a printed `Error:`
line for that pair.  For every remote side and environment, the run of `main` ends in
the same remote state with the same result and issues the same calls as the run on
the remote side whose extractions return an empty standard error, and its trace is
that other trace plus `Error:` prints directly after extractions.  So the run still
completes: a default run that is not ended by a panic ends with the final summary
`Sync finished!` and has issued the full blocks of all sources (every target
attempted, cleanup on every source) followed by the status reports; and the pass for
a pair (s, t) whose extraction returns is the announcement, the extraction and, if
standard error is not empty, the `Error:` print. -/
theorem C5_extraction_stderr_only_adds_a_line (client : Remote σ) (env : Env) (w : σ) :
    SameButErrorLines (main client env w) (main client.withoutExtractionStderr env w) ∧
      (main client env w).calls = (main client.withoutExtractionStderr env w).calls ∧
      (∀ v c, client.withoutExtractionStderr.stream v c =
        if c.command = extractArgv then
          match client.stream v c with
          | (v₁, Outcome.completed stdout _) => (v₁, Outcome.completed stdout "")
          | (v₁, Outcome.failed stderr err) => (v₁, Outcome.failed stderr err)
        else client.stream v c) ∧
      (∀ pods, env.clientError = none → env.listing = .ok pods →
        env.SYNC_STATS_ONLY ≠ some "1" → (main client env w).result = .ok () →
          (∃ tr, (main client env w).trace =
            tr ++ [Event.print "\n", Event.print "Sync finished!"]) ∧
          (main client env w).calls.map Call.op =
            pods.flatMap (syncBlock pods) ++ whatsUpBlock pods) ∧
      (∀ (s t : Pod) (a : Bytes) (v v₁ : σ) (out : Bytes) (err : String),
        t.Containers ≠ [] → s.Name ≠ t.Name →
        client.connect (callOf t extractArgv (some a)) = none →
        client.stream v (callOf t extractArgv (some a)) = (v₁, Outcome.completed out err) →
          syncTarget client s a t v =
            ⟨v₁, [Event.print ("- Writing sync directory to pod " ++ t.Name ++ " \n"),
                Event.exec (callOf t extractArgv (some a))] ++
              (if err ≠ "" then [Event.print ("\nError:\n" ++ err ++ "\n")] else []),
              .ok ()⟩) := by
  refine ⟨main_sameButErrorLines client env w,
    lessErrorLines_calls (main_sameButErrorLines client env w).2.2, fun _ _ => rfl, ?_, ?_⟩
  · intro pods hcl hl hs hfin
    obtain ⟨hsr, hwr, hcalls, htr⟩ := main_full_finished client env pods w hcl hl hs hfin
    refine ⟨htr, ?_⟩
    rw [hcalls, List.map_append, sync_finished client pods w hsr,
      whatsUp_finished client pods _ hwr]
  · intro s t a v v₁ out err ht hne hk hst
    exact syncTarget_returned client s t ht hne a v v₁ out err hk hst

/-- C5, witness: the default run over the scenario fleet, where the extractions into
`afl-worker-1` report an error: the run completes, with the same calls as when they
report none, and the pass for the pair (`afl-master-0`, `afl-worker-1`) ends with the
`Error:` print; the two extractions into `afl-worker-1` make the trace two prints
longer. -/
theorem C5_extraction_stderr_witness :
    SameButErrorLines (main statsFailRemote defaultEnv ())
        (main statsFailRemote.withoutExtractionStderr defaultEnv ()) ∧
      (main statsFailRemote defaultEnv ()).calls =
        (main statsFailRemote.withoutExtractionStderr defaultEnv ()).calls ∧
      ((∃ tr, (main statsFailRemote defaultEnv ()).trace =
          tr ++ [Event.print "\n", Event.print "Sync finished!"]) ∧
        (main statsFailRemote defaultEnv ()).calls.map Call.op =
          scenarioFleet.flatMap (syncBlock scenarioFleet) ++ whatsUpBlock scenarioFleet) ∧
      syncTarget statsFailRemote ⟨"afl-master-0", "kubefuzz", ["afl", "metrics"]⟩ [31, 139, 8]
          ⟨"afl-worker-1", "kubefuzz", ["afl"]⟩ () =
        ⟨(), [Event.print ("- Writing sync directory to pod " ++ "afl-worker-1" ++ " \n"),
            Event.exec (callOf ⟨"afl-worker-1", "kubefuzz", ["afl"]⟩ extractArgv
              (some [31, 139, 8]))] ++
          (if "tar: queue/id:000000: Cannot open: File exists" ≠ "" then
            [Event.print ("\nError:\n" ++ "tar: queue/id:000000: Cannot open: File exists" ++
              "\n")]
          else []), .ok ()⟩ ∧
      (main statsFailRemote defaultEnv ()).trace.length =
        (main statsFailRemote.withoutExtractionStderr defaultEnv ()).trace.length + 2 :=
  ⟨(C5_extraction_stderr_only_adds_a_line statsFailRemote defaultEnv ()).1,
    (C5_extraction_stderr_only_adds_a_line statsFailRemote defaultEnv ()).2.1,
    (C5_extraction_stderr_only_adds_a_line statsFailRemote defaultEnv ()).2.2.2.1
      scenarioFleet rfl rfl (by decide) rfl,
    (C5_extraction_stderr_only_adds_a_line statsFailRemote defaultEnv ()).2.2.2.2
      ⟨"afl-master-0", "kubefuzz", ["afl", "metrics"]⟩ ⟨"afl-worker-1", "kubefuzz", ["afl"]⟩
      [31, 139, 8] () () [] "tar: queue/id:000000: Cannot open: File exists"
      (by decide) (by decide) rfl rfl, by decide⟩

/-- C5, counterexample: with `afl-worker-0` unreachable the default run over the
scenario fleet does not complete.  It panics at the first extraction: the remaining
target `afl-worker-1` is not attempted, no cleanup is executed, no later source is
processed and the final summary is not printed. -/
theorem C5_unreachable_target_aborts_run :
    (main unreachableRemote defaultEnv ()).finished = false ∧
      (main unreachableRemote defaultEnv ()).calls.map (fun c => (c.pod.Name, c.command)) =
        [("afl-master-0", archiveArgv "afl-master-0"), ("afl-worker-0", extractArgv)] ∧
      (main unreachableRemote defaultEnv ()).calls.countP isCleanup = 0 ∧
      "Sync finished!" ∉ (main unreachableRemote defaultEnv ()).out := by
  decide

/-- C6 (as amended): what the orchestrator discards of the source-side archive
creation is its standard error text.  For every remote side, the iteration of `sync`
for source `s`, and `sync` as a whole, run exactly as on the remote side whose
archive-creates return an empty standard error: same remote state, same result, same
calls and same prints.  An iteration that is not ended by a panic has issued the
archive-create, then the extraction, fed with the returned (possibly empty) output,
to every other pod, then the cleanup on `s`; and a `sync` that is not ended by a
panic has gone on through all sources. -/
theorem C6_archive_stderr_is_discarded (client : Remote σ) (pods : List Pod) (s : Pod)
    (w : σ) :
    syncSource client.withoutArchiveStderr pods s w = syncSource client pods s w ∧
      sync client.withoutArchiveStderr pods w = sync client pods w ∧
      (∀ v c, client.withoutArchiveStderr.stream v c =
        if c.command = archiveArgv c.pod.Name then
          match client.stream v c with
          | (v₁, Outcome.completed stdout _) => (v₁, Outcome.completed stdout "")
          | (v₁, Outcome.failed stderr err) => (v₁, Outcome.failed stderr err)
        else client.stream v c) ∧
      ((syncSource client pods s w).result = .ok () →
        ∃ w₁ out err,
          client.stream w (callOf s (archiveArgv s.Name) none) =
            (w₁, Outcome.completed out err) ∧
          (syncSource client pods s w).calls =
            callOf s (archiveArgv s.Name) none ::
              (targetsOf pods s).map (fun t => callOf t extractArgv (some out)) ++
              [callOf s (cleanupArgv s.Name) none]) ∧
      ((sync client pods w).result = .ok () →
        (sync client pods w).calls.map Call.op = pods.flatMap (syncBlock pods)) :=
  ⟨syncSource_withoutArchiveStderr client pods s w, sync_withoutArchiveStderr client pods w,
    fun _ _ => rfl, syncSource_finished client pods s w, sync_finished client pods w⟩

/-- C6, witness: the archive-create on `afl-master-0` returns three bytes and a
warning on standard error; the iteration runs as it does without the warning, feeds
the three bytes to both workers and cleans up. -/
theorem C6_archive_stderr_witness :
    noisyRemote.stream () (callOf ⟨"afl-master-0", "kubefuzz", ["afl", "metrics"]⟩
        (archiveArgv "afl-master-0") none) =
        ((), Outcome.completed [31, 139, 8] "tar: afl/.cur_input: socket ignored") ∧
      syncSource noisyRemote.withoutArchiveStderr scenarioFleet
          ⟨"afl-master-0", "kubefuzz", ["afl", "metrics"]⟩ () =
        syncSource noisyRemote scenarioFleet
          ⟨"afl-master-0", "kubefuzz", ["afl", "metrics"]⟩ () ∧
      (∃ w₁ out err,
        noisyRemote.stream () (callOf ⟨"afl-master-0", "kubefuzz", ["afl", "metrics"]⟩
          (archiveArgv "afl-master-0") none) = (w₁, Outcome.completed out err) ∧
        (syncSource noisyRemote scenarioFleet ⟨"afl-master-0", "kubefuzz", ["afl", "metrics"]⟩
          ()).calls =
          callOf ⟨"afl-master-0", "kubefuzz", ["afl", "metrics"]⟩
              (archiveArgv "afl-master-0") none ::
            (targetsOf scenarioFleet ⟨"afl-master-0", "kubefuzz", ["afl", "metrics"]⟩).map
              (fun t => callOf t extractArgv (some out)) ++
            [callOf ⟨"afl-master-0", "kubefuzz", ["afl", "metrics"]⟩
              (cleanupArgv "afl-master-0") none]) ∧
      (sync noisyRemote scenarioFleet ()).calls.map Call.op =
        scenarioFleet.flatMap (syncBlock scenarioFleet) :=
  ⟨rfl,
    (C6_archive_stderr_is_discarded noisyRemote scenarioFleet
      ⟨"afl-master-0", "kubefuzz", ["afl", "metrics"]⟩ ()).1,
    (C6_archive_stderr_is_discarded noisyRemote scenarioFleet
      ⟨"afl-master-0", "kubefuzz", ["afl", "metrics"]⟩ ()).2.2.2.1 rfl,
    (C6_archive_stderr_is_discarded noisyRemote scenarioFleet
      ⟨"afl-master-0", "kubefuzz", ["afl", "metrics"]⟩ ()).2.2.2.2 rfl⟩

/-- C6, counterexample: when the archive-create execution for the first source
fails, `sync` aborts.  It panics right after that call: no extraction and no cleanup
is issued and no later source is processed. -/
theorem C6_archive_failure_aborts_sync :
    (sync archiveFailRemote scenarioFleet ()).finished = false ∧
      (sync archiveFailRemote scenarioFleet ()).calls.map (fun c => (c.pod.Name, c.command)) =
        [("afl-master-0", archiveArgv "afl-master-0")] ∧
      (sync archiveFailRemote scenarioFleet ()).calls.countP isExtraction = 0 ∧
      (sync archiveFailRemote scenarioFleet ()).calls.countP isCleanup = 0 := by
  decide

end FailureClaims

/-! ## StatsOnly mode: deliveries of a run that finished -/

section StatsDeliveryClaims

variable {σ : Type}

/-- C3 (as amended): for every fleet of n pods with pairwise distinct names of which k
have a role other than Worker, and every remote side, a run of `syncFuzzerStats` that
is not ended by a panic (every remote execution it issued returned) has issued
exactly n stats reads, one in each pod; it has written the stats file of source `s`
into target `t` exactly when `t` is not `s` and the role of `t` is not Worker; no
Worker pod received a write; and the number of writes is n*k - k = k*(n-1). -/
theorem C3_stats_only_deliveries_of_finished_run (client : Remote σ) (pods : List Pod)
    (hn : (pods.map Pod.Name).Nodup) (w : σ)
    (hfin : (syncFuzzerStats client pods w).result = .ok ()) :
    (syncFuzzerStats client pods w).calls.countP isStatsRead = pods.length ∧
      (∀ s ∈ pods, ∃ c ∈ (syncFuzzerStats client pods w).calls,
        c.pod = s ∧ c.command = statsReadArgv s.Name) ∧
      (∀ s ∈ pods, ∀ t ∈ pods,
        (∃ c ∈ (syncFuzzerStats client pods w).calls,
          c.pod = t ∧ c.command = statsWriteArgv s.Name) ↔
        (t ≠ s ∧ roleOf t.Name ≠ Role.Worker)) ∧
      (∀ c ∈ (syncFuzzerStats client pods w).calls, isStatsWrite c = true →
        roleOf c.pod.Name ≠ Role.Worker) ∧
      (syncFuzzerStats client pods w).calls.countP isStatsWrite =
        pods.length * pods.countP (fun p => decide (roleOf p.Name ≠ Role.Worker)) -
          pods.countP (fun p => decide (roleOf p.Name ≠ Role.Worker)) ∧
      (syncFuzzerStats client pods w).calls.countP isStatsWrite =
        pods.countP (fun p => decide (roleOf p.Name ≠ Role.Worker)) * (pods.length - 1) := by
  have hops := syncFuzzerStats_finished client pods w hfin
  have hwrites : (syncFuzzerStats client pods w).calls.countP isStatsWrite +
      pods.countP (fun p => !HasPrefix p.Name K8sWorkerPodPrefix) =
      pods.length * pods.countP (fun p => !HasPrefix p.Name K8sWorkerPodPrefix) := by
    rw [isStatsWrite_eq, countP_calls, hops, countP_flatMap_sum]
    simp only [statsBlock_writes]
    exact total_statsTargets pods hn
  refine ⟨?_, ?_, ?_, ?_, ?_, ?_⟩
  · rw [isStatsRead_eq, countP_calls, hops, countP_flatMap_sum,
      sum_map_const _ _ 1 (fun s _ => statsBlock_reads pods s), Nat.mul_one]
  · intro s hs
    rw [mem_op_iff, hops, List.mem_flatMap]
    exact ⟨s, hs, by simp [statsBlock]⟩
  · intro s hs t ht
    rw [mem_op_iff, hops, List.mem_flatMap]
    constructor
    · rintro ⟨s₁, hs₁, hmem⟩
      obtain ⟨hname, htar⟩ := mem_statsBlock_write pods s₁ s t hmem
      have hs₁s : s₁ = s := eq_of_name_eq hn hs₁ hs hname
      subst hs₁s
      obtain ⟨_, hne, hw⟩ := mem_statsTargetsOf.mp htar
      refine ⟨fun e => hne (by rw [e]), (roleOf_ne_worker t.Name).mpr hw⟩
    · rintro ⟨hne, hrole⟩
      refine ⟨s, hs, ?_⟩
      have hname : s.Name ≠ t.Name := fun e => hne (eq_of_name_eq hn hs ht e).symm
      have htar : t ∈ statsTargetsOf pods s :=
        mem_statsTargetsOf.mpr ⟨ht, hname, (roleOf_ne_worker t.Name).mp hrole⟩
      simp only [statsBlock, List.mem_cons, List.mem_flatMap]
      right
      exact ⟨t, htar, by simp⟩
  · intro c hcm hw
    have hop : c.op ∈ pods.flatMap (statsBlock pods) := by
      rw [← hops]; exact List.mem_map_of_mem _ hcm
    obtain ⟨s, _, hmem⟩ := List.mem_flatMap.mp hop
    simp only [statsBlock, List.mem_cons, List.mem_flatMap, List.mem_singleton,
      List.not_mem_nil, or_false] at hmem
    have hw : opIsStatsWrite c.op = true := hw
    rcases hmem with h | ⟨t, ht, h | h⟩
    · rw [h] at hw; simp [opIsStatsWrite, statsReadArgv] at hw
    · rw [h] at hw; simp [opIsStatsWrite, mkdirArgv] at hw
    · have hp : c.pod = t := congrArg Prod.fst h
      rw [hp]
      exact (roleOf_ne_worker t.Name).mpr (mem_statsTargetsOf.mp ht).2.2
  · rw [nonWorker_eq]
    omega
  · rw [nonWorker_eq]
    have h₁ : pods.countP (fun p => !HasPrefix p.Name K8sWorkerPodPrefix) * (pods.length - 1) +
        pods.countP (fun p => !HasPrefix p.Name K8sWorkerPodPrefix) =
        pods.length * pods.countP (fun p => !HasPrefix p.Name K8sWorkerPodPrefix) := by
      cases hlen : pods.length with
      | zero =>
        have : pods = [] := List.length_eq_zero.mp hlen
        subst this
        simp
      | succ m => simp [Nat.succ_mul, Nat.mul_comm]
    omega

/-- C3, witness: the scenario fleet, one coordinator and two workers, gets two
writes, on a remote side where a command this run never issues would fail. -/
theorem C3_stats_only_witness :
    ((syncFuzzerStats archiveFailRemote scenarioFleet ()).calls.countP isStatsRead =
        scenarioFleet.length ∧
      (∀ s ∈ scenarioFleet, ∃ c ∈ (syncFuzzerStats archiveFailRemote scenarioFleet ()).calls,
        c.pod = s ∧ c.command = statsReadArgv s.Name) ∧
      (∀ s ∈ scenarioFleet, ∀ t ∈ scenarioFleet,
        (∃ c ∈ (syncFuzzerStats archiveFailRemote scenarioFleet ()).calls,
          c.pod = t ∧ c.command = statsWriteArgv s.Name) ↔
        (t ≠ s ∧ roleOf t.Name ≠ Role.Worker)) ∧
      (∀ c ∈ (syncFuzzerStats archiveFailRemote scenarioFleet ()).calls,
        isStatsWrite c = true → roleOf c.pod.Name ≠ Role.Worker) ∧
      (syncFuzzerStats archiveFailRemote scenarioFleet ()).calls.countP isStatsWrite =
        scenarioFleet.length *
            scenarioFleet.countP (fun p => decide (roleOf p.Name ≠ Role.Worker)) -
          scenarioFleet.countP (fun p => decide (roleOf p.Name ≠ Role.Worker)) ∧
      (syncFuzzerStats archiveFailRemote scenarioFleet ()).calls.countP isStatsWrite =
        scenarioFleet.countP (fun p => decide (roleOf p.Name ≠ Role.Worker)) *
          (scenarioFleet.length - 1)) ∧
      scenarioFleet.length = 3 ∧
      scenarioFleet.countP (fun p => decide (roleOf p.Name ≠ Role.Worker)) = 1 ∧
      (syncFuzzerStats archiveFailRemote scenarioFleet ()).calls.map
          (fun c => (c.pod.Name, c.command)) =
        [("afl-master-0", statsReadArgv "afl-master-0"),
          ("afl-worker-0", statsReadArgv "afl-worker-0"),
          ("afl-master-0", mkdirArgv "afl-worker-0"),
          ("afl-master-0", statsWriteArgv "afl-worker-0"),
          ("afl-worker-1", statsReadArgv "afl-worker-1"),
          ("afl-master-0", mkdirArgv "afl-worker-1"),
          ("afl-master-0", statsWriteArgv "afl-worker-1")] :=
  ⟨C3_stats_only_deliveries_of_finished_run archiveFailRemote scenarioFleet (by decide) () rfl,
    by decide, by decide, by decide⟩

/-- C3, counterexample: the scenario fleet has n = 3 pods with distinct names, k = 1
of them not a worker.  When the read of the stats file of `afl-worker-0` fails,
`syncFuzzerStats` panics at that read: it has issued 2 stats reads, not 3, and no
write, not 2; the stats file of `afl-worker-1` is never written into `afl-master-0`. -/
theorem C3_deliveries_cut_short_by_failed_read :
    (scenarioFleet.map Pod.Name).Nodup ∧ scenarioFleet.length = 3 ∧
      scenarioFleet.countP (fun p => decide (roleOf p.Name ≠ Role.Worker)) = 1 ∧
      (syncFuzzerStats statsFailRemote scenarioFleet ()).finished = false ∧
      (syncFuzzerStats statsFailRemote scenarioFleet ()).calls.map
          (fun c => (c.pod.Name, c.command)) =
        [("afl-master-0", statsReadArgv "afl-master-0"),
          ("afl-worker-0", statsReadArgv "afl-worker-0")] ∧
      (syncFuzzerStats statsFailRemote scenarioFleet ()).calls.countP isStatsRead = 2 ∧
      (syncFuzzerStats statsFailRemote scenarioFleet ()).calls.countP isStatsWrite = 0 ∧
      ¬ (∃ c ∈ (syncFuzzerStats statsFailRemote scenarioFleet ()).calls,
        c.pod.Name = "afl-master-0" ∧ c.command = statsWriteArgv "afl-worker-1") := by
  decide

end StatsDeliveryClaims

/-! ## The default run: status reports -/

section StatusReportClaims

variable {σ : Type}

/-- C4 (as amended): for every fleet and every remote side, a default run that is not
ended by a panic (every remote execution it issued returned) has issued the
operations of `sync` first and the status reports after them: every call of the
first part is an archive-create, an extraction or a cleanup and none is a status
report, and the second part is exactly one status report for each pod whose role is
Coordinator (its name begins with `afl-master`), in fleet order, and none for the
other pods.  With pairwise distinct names the first part has n archive-creates,
n*(n-1) extractions and n cleanups; for the fleet `afl-master-0`, `afl-worker-0`,
`afl-worker-1` this is 3 archive-creates, 6 extractions and 3 cleanups and then
exactly one status report, in `afl-master-0`. -/
theorem C4_status_reports_follow_finished_sync (client : Remote σ) (env : Env)
    (pods : List Pod) (hcl : env.clientError = none) (hl : env.listing = .ok pods)
    (hs : env.SYNC_STATS_ONLY ≠ some "1") (w : σ)
    (hfin : (main client env w).result = .ok ()) :
    (main client env w).calls =
        (sync client pods w).calls ++ (whatsUp client pods (sync client pods w).world).calls ∧
      (∀ c ∈ (sync client pods w).calls, isStatusReport c = false ∧
        (isArchiveCreate c = true ∨ isExtraction c = true ∨ isCleanup c = true)) ∧
      (∀ c ∈ (whatsUp client pods (sync client pods w).world).calls,
        isStatusReport c = true) ∧
      (whatsUp client pods (sync client pods w).world).calls.map Call.op =
        (pods.filter (fun p => decide (roleOf p.Name = Role.Coordinator))).map
          (fun p => (p, whatsUpArgv)) ∧
      ((pods.map Pod.Name).Nodup →
        (sync client pods w).calls.countP isArchiveCreate = pods.length ∧
        (sync client pods w).calls.countP isExtraction = pods.length * (pods.length - 1) ∧
        (sync client pods w).calls.countP isCleanup = pods.length) ∧
      (pods = scenarioFleet →
        (sync client pods w).calls.countP isArchiveCreate = 3 ∧
        (sync client pods w).calls.countP isExtraction = 6 ∧
        (sync client pods w).calls.countP isCleanup = 3 ∧
        (whatsUp client pods (sync client pods w).world).calls.map
            (fun c => (c.pod.Name, c.command)) = [("afl-master-0", whatsUpArgv)]) := by
  obtain ⟨hsr, hwr, hcalls, _⟩ := main_full_finished client env pods w hcl hl hs hfin
  have hwops := whatsUp_finished client pods _ hwr
  refine ⟨hcalls, ?_, ?_, ?_, ?_, ?_⟩
  · intro c hcm
    have hop : c.op ∈ pods.flatMap (syncBlock pods) := by
      rw [← sync_finished client pods w hsr]; exact List.mem_map_of_mem _ hcm
    obtain ⟨s, _, hmem⟩ := List.mem_flatMap.mp hop
    simp only [syncBlock, List.cons_append, List.mem_cons, List.mem_append, List.mem_map,
      List.mem_singleton, List.not_mem_nil, or_false] at hmem
    have e₁ : isStatusReport c = opIsStatusReport c.op := rfl
    have e₂ : isArchiveCreate c = opIsArchiveCreate c.op := rfl
    have e₃ : isExtraction c = opIsExtraction c.op := rfl
    have e₄ : isCleanup c = opIsCleanup c.op := rfl
    rw [e₁, e₂, e₃, e₄]
    rcases hmem with h | ⟨t, _, h⟩ | h
    · rw [h]
      exact ⟨by simpa [opIsStatusReport] using archiveArgv_ne_whatsUpArgv s.Name,
        Or.inl (by simp [opIsArchiveCreate])⟩
    · rw [← h]
      exact ⟨by simpa [opIsStatusReport] using extractArgv_ne_whatsUpArgv,
        Or.inr (Or.inl (by simp [opIsExtraction]))⟩
    · rw [h]
      exact ⟨by simpa [opIsStatusReport] using cleanupArgv_ne_whatsUpArgv s.Name,
        Or.inr (Or.inr (by simp [opIsCleanup]))⟩
  · intro c hcm
    have hop : c.op ∈ whatsUpBlock pods := by
      rw [← hwops]; exact List.mem_map_of_mem _ hcm
    have e₁ : isStatusReport c = opIsStatusReport c.op := rfl
    rw [e₁]
    simp only [whatsUpBlock, List.mem_map] at hop
    obtain ⟨p, _, hp⟩ := hop
    rw [← hp]
    simp [opIsStatusReport]
  · rw [hwops, whatsUpBlock, coordinators_eq]
  · intro hn
    exact sync_counts client pods hn w hsr
  · intro hp
    subst hp
    obtain ⟨h₁, h₂, h₃⟩ := sync_counts client scenarioFleet (by decide) w hsr
    refine ⟨h₁, h₂, h₃, ?_⟩
    have : (whatsUp client scenarioFleet (sync client scenarioFleet w).world).calls.map
        (fun c => (c.pod.Name, c.command)) =
        ((whatsUp client scenarioFleet (sync client scenarioFleet w).world).calls.map
          Call.op).map (fun o => (o.1.Name, o.2)) := by
      rw [List.map_map]; rfl
    rw [this, hwops]
    decide

/-- C4, witness: the default run over `afl-master-0`, `afl-worker-0`, `afl-worker-1`,
on a remote side where a command this run never issues would fail: 3 archive-creates,
6 extractions, 3 cleanups, then one status report, in the coordinator. -/
theorem C4_default_run_witness :
    ((main statsFailRemote defaultEnv ()).calls =
        (sync statsFailRemote scenarioFleet ()).calls ++
          (whatsUp statsFailRemote scenarioFleet
            (sync statsFailRemote scenarioFleet ()).world).calls ∧
      (∀ c ∈ (sync statsFailRemote scenarioFleet ()).calls, isStatusReport c = false ∧
        (isArchiveCreate c = true ∨ isExtraction c = true ∨ isCleanup c = true)) ∧
      (∀ c ∈ (whatsUp statsFailRemote scenarioFleet
          (sync statsFailRemote scenarioFleet ()).world).calls, isStatusReport c = true) ∧
      (whatsUp statsFailRemote scenarioFleet
          (sync statsFailRemote scenarioFleet ()).world).calls.map Call.op =
        (scenarioFleet.filter (fun p => decide (roleOf p.Name = Role.Coordinator))).map
          (fun p => (p, whatsUpArgv)) ∧
      ((sync statsFailRemote scenarioFleet ()).calls.countP isArchiveCreate =
          scenarioFleet.length ∧
        (sync statsFailRemote scenarioFleet ()).calls.countP isExtraction =
          scenarioFleet.length * (scenarioFleet.length - 1) ∧
        (sync statsFailRemote scenarioFleet ()).calls.countP isCleanup =
          scenarioFleet.length) ∧
      ((sync statsFailRemote scenarioFleet ()).calls.countP isArchiveCreate = 3 ∧
        (sync statsFailRemote scenarioFleet ()).calls.countP isExtraction = 6 ∧
        (sync statsFailRemote scenarioFleet ()).calls.countP isCleanup = 3 ∧
        (whatsUp statsFailRemote scenarioFleet
          (sync statsFailRemote scenarioFleet ()).world).calls.map
            (fun c => (c.pod.Name, c.command)) = [("afl-master-0", whatsUpArgv)])) ∧
      scenarioFleet.map (fun p => roleOf p.Name) =
        [Role.Coordinator, Role.Worker, Role.Worker] ∧
      (main statsFailRemote defaultEnv ()).calls.map (fun c => (c.pod.Name, isStatusReport c)) =
        [("afl-master-0", false), ("afl-worker-0", false), ("afl-worker-1", false),
          ("afl-master-0", false), ("afl-worker-0", false), ("afl-master-0", false),
          ("afl-worker-1", false), ("afl-worker-0", false), ("afl-worker-1", false),
          ("afl-master-0", false), ("afl-worker-0", false), ("afl-worker-1", false),
          ("afl-master-0", true)] :=
  ⟨⟨(C4_status_reports_follow_finished_sync statsFailRemote defaultEnv scenarioFleet rfl rfl
        (by decide) () rfl).1,
      (C4_status_reports_follow_finished_sync statsFailRemote defaultEnv scenarioFleet rfl rfl
        (by decide) () rfl).2.1,
      (C4_status_reports_follow_finished_sync statsFailRemote defaultEnv scenarioFleet rfl rfl
        (by decide) () rfl).2.2.1,
      (C4_status_reports_follow_finished_sync statsFailRemote defaultEnv scenarioFleet rfl rfl
        (by decide) () rfl).2.2.2.1,
      (C4_status_reports_follow_finished_sync statsFailRemote defaultEnv scenarioFleet rfl rfl
        (by decide) () rfl).2.2.2.2.1 (by decide),
      (C4_status_reports_follow_finished_sync statsFailRemote defaultEnv scenarioFleet rfl rfl
        (by decide) () rfl).2.2.2.2.2 rfl⟩, by decide, by decide⟩

/-- C4, counterexample.  First, the scenario fleet has one coordinator, yet with
`afl-worker-0` unreachable the default run panics in `sync` and issues no status
report at all.  Second, in the fleet whose pods are literally named `coordinator-0`,
`worker-0` and `worker-1` no name has a prefix the code tests, so no pod has the role
Coordinator: the default run finishes with 3 archive-creates, 6 extractions and 3
cleanups and then issues no status report, none in `coordinator-0` either. -/
theorem C4_no_status_report_after_panic_or_for_literal_names :
    ((scenarioFleet.filter (fun p => decide (roleOf p.Name = Role.Coordinator))).length = 1 ∧
      (main unreachableRemote defaultEnv ()).finished = false ∧
      (main unreachableRemote defaultEnv ()).calls.countP isStatusReport = 0) ∧
      literalFleet.map (fun p => roleOf p.Name) =
        [Role.Unspecified, Role.Unspecified, Role.Unspecified] ∧
      (main noisyRemote literalEnv ()).finished = true ∧
      ((main noisyRemote literalEnv ()).calls.countP isArchiveCreate,
        (main noisyRemote literalEnv ()).calls.countP isExtraction,
        (main noisyRemote literalEnv ()).calls.countP isCleanup) = (3, 6, 3) ∧
      (main noisyRemote literalEnv ()).calls.countP isStatusReport = 0 ∧
      ¬ (∃ c ∈ (main noisyRemote literalEnv ()).calls,
        c.pod.Name = "coordinator-0" ∧ isStatusReport c = true) := by
  decide

end StatusReportClaims
end AflSync
